import Mathlib

/-!
# Motoare-Grafice: OBJ importer, scene registry and ray/box picking

A shallow embedding of `ObjectLoader.cpp`, `Mesh.cpp` and the `RayAABB` routine of
`Main.cpp`, followed by theorems about them.

Modelling conventions
* `float` is an arbitrary scalar type `F`; wherever arithmetic facts are used it is
  an exact (ordered) field.
* `std::vector` is `List`; `std::unordered_map` is an association list searched from
  the front in which `emplace` never replaces an existing key.
* `size_t`, `unsigned int` and `int` values that count elements are unbounded
  (`Nat`/`Int`); inputs with 2^31 or more records are outside the model.  The text of
  a face index goes through `std::stoi`, whose 32-bit range check is modelled.
* Text extraction of floating point numbers (`ss >> p.x >> p.y >> p.z`) belongs to the
  C++ stream library and is a parameter (`FloatReader`).
-/

/-! ## Data model shared by the components -/

namespace Glm

structure Vec2 (F : Type) where
  x : F
  y : F
deriving DecidableEq, Repr

structure Vec3 (F : Type) where
  x : F
  y : F
  z : F
deriving DecidableEq, Repr

structure Vec4 (F : Type) where
  x : F
  y : F
  z : F
  w : F
deriving DecidableEq, Repr

/-- Column-major 4x4 matrix: `c0 .. c3` are `m[0] .. m[3]`. -/
structure Mat4 (F : Type) where
  c0 : Vec4 F
  c1 : Vec4 F
  c2 : Vec4 F
  c3 : Vec4 F
deriving DecidableEq, Repr

end Glm

/-- Host-side mesh of `Mesh.h`: flat scalar array and index array. -/
structure CpuMeshData (F : Type) where
  vertices : List F
  indices : List Nat
deriving DecidableEq, Repr

namespace ObjectLoader

open Glm

/-- Layout: pos3 + color3 + uv2 + normal3. -/
def kVertexStrideFloats : Nat := 11

/-- Key for a unique vertex (v/vt/vn triple). -/
structure ObjVertexKey where
  v : Int
  vt : Int
  vn : Int
deriving DecidableEq, Repr

/-- The stream extractions `ss >> p.x >> p.y >> p.z` and `ss >> uv.x >> uv.y`, applied
to the characters of the line that follow the tag. -/
structure FloatReader (F : Type) where
  readVec3 : List Char → Vec3 F
  readVec2 : List Char → Vec2 F

/-! ## Text primitives of the C++ library -/

/-- The `isspace` class of the "C" locale: space, `\t`, `\n`, `\v`, `\f`, `\r`. -/
def isSpace (c : Char) : Bool :=
  c.toNat = 32 || (9 ≤ c.toNat && c.toNat ≤ 13)

/-- All successful `std::getline(file, line)` calls: the text split at newlines; a
final unterminated segment is a line only when it is non-empty. -/
def getLines (cur : List Char) : List Char → List (List Char)
  | [] => if cur = [] then [] else [cur.reverse]
  | c :: cs => if c.toNat = 10 then cur.reverse :: getLines [] cs else getLines (c :: cur) cs

/-- One `ss >> tok`: skip whitespace, then read the maximal run of non-whitespace.
The result is the token (empty when the extraction fails) and the rest of the stream. -/
def extractToken (s : List Char) : List Char × List Char :=
  (s.dropWhile isSpace).span (fun c => !isSpace c)

/-- The tokens read by `while (ss >> tok)`; `fuel` bounds the number of iterations. -/
def streamTokens : Nat → List Char → List (List Char)
  | 0, _ => []
  | fuel + 1, s =>
    match extractToken s with
    | ([], _) => []
    | (tok, rest) => tok :: streamTokens fuel rest

/-- Model of `std::stoi(s)` (base 10): optional leading whitespace, optional sign, a
non-empty run of digits; trailing characters are ignored.  `none` stands for both
`std::invalid_argument` and `std::out_of_range`. -/
def stoi (s : List Char) : Option Int :=
  let s1 := s.dropWhile isSpace
  let signed : Bool × List Char :=
    match s1 with
    | c :: r => if c = '-' then (true, r) else if c = '+' then (false, r) else (false, s1)
    | [] => (false, s1)
  let ds := signed.2.takeWhile Char.isDigit
  if ds = [] then none
  else
    let n : Nat := ds.foldl (fun a c => 10 * a + (c.toNat - 48)) 0
    let v : Int := if signed.1 then -(n : Int) else (n : Int)
    if -2147483648 ≤ v ∧ v ≤ 2147483647 then some v else none

/-- A field of a face token: empty leaves the index at 0, otherwise `std::stoi`. -/
def parseField (s : List Char) : Option Int :=
  if s = [] then some 0 else stoi s

/-- Parses a face token: "v", "v/vt", "v//vn", "v/vt/vn".  `none` is the `false`
return; `some (vi, vti, vni)` the `true` return with the three output parameters. -/
def ParseFaceToken (tok : List Char) : Option (Int × Int × Int) :=
  match tok.span (fun c => c ≠ '/') with
  | (_, []) => (stoi tok).map (fun vi => (vi, 0, 0))
  | (a, _ :: afterP1) =>
    match parseField a with
    | none => none
    | some vi =>
      match afterP1.span (fun c => c ≠ '/') with
      | (b, []) => (parseField b).map (fun vti => (vi, vti, 0))
      | (b, _ :: c) =>
        match parseField b with
        | none => none
        | some vti => (parseField c).map (fun vni => (vi, vti, vni))

/-! ## The loader -/

section Loader

variable {F : Type} [Zero F] [One F]

/-- Appends the 11 scalars of one vertex: position, white colour, uv, normal. -/
def AppendVertex11 (dst : List F) (p : Vec3 F) (uv : Vec2 F) (n : Vec3 F) : List F :=
  dst ++ [p.x, p.y, p.z, 1, 1, 1, uv.x, uv.y, n.x, n.y, n.z]

/-- The local variables of `LoadOBJ` that live across lines. -/
structure LoaderState (F : Type) where
  out : CpuMeshData F
  positions : List (Vec3 F)
  texcoords : List (Vec2 F)
  normals : List (Vec3 F)
  vertexRemap : List (ObjVertexKey × Nat)

/-- The state at the start of the line loop. -/
def LoaderState.init : LoaderState F :=
  { out := ⟨[], []⟩, positions := [], texcoords := [], normals := [], vertexRemap := [] }

/-- Lookup `vertexRemap.find(key)`; `none` is `end()`. -/
def remapFind (m : List (ObjVertexKey × Nat)) (key : ObjVertexKey) : Option Nat :=
  (m.find? (fun e => decide (e.1 = key))).map Prod.snd

/-- The guarded read `if (vi > 0 && vi <= (int)positions.size()) p = positions[vi - 1]`
over the default `glm::vec3 p(0.0f)`. -/
def readPosition (positions : List (Vec3 F)) (vi : Int) : Vec3 F :=
  if 0 < vi ∧ vi ≤ (positions.length : Int)
  then positions.getD (vi - 1).toNat ⟨0, 0, 0⟩ else ⟨0, 0, 0⟩

/-- The guarded read of `texcoords[vti - 1]` over the default `glm::vec2 uv(0.0f)`. -/
def readTexcoord (texcoords : List (Vec2 F)) (vti : Int) : Vec2 F :=
  if 0 < vti ∧ vti ≤ (texcoords.length : Int)
  then texcoords.getD (vti - 1).toNat ⟨0, 0⟩ else ⟨0, 0⟩

/-- The guarded read of `normals[vni - 1]` over the default `glm::vec3 n(0, 0, 1)`. -/
def readNormal (normals : List (Vec3 F)) (vni : Int) : Vec3 F :=
  if 0 < vni ∧ vni ≤ (normals.length : Int)
  then normals.getD (vni - 1).toNat ⟨0, 0, 1⟩ else ⟨0, 0, 1⟩

/-- The lambda `GetOrCreateVertexIndex` of `LoadOBJ`: the state after the call and the
returned output index. -/
def GetOrCreateVertexIndex (st : LoaderState F) (vi0 vti0 vni0 : Int) : LoaderState F × Nat :=
  -- Support negative indices (OBJ spec)
  let vi := if vi0 < 0 then (st.positions.length : Int) + 1 + vi0 else vi0
  let vti := if vti0 < 0 then (st.texcoords.length : Int) + 1 + vti0 else vti0
  let vni := if vni0 < 0 then (st.normals.length : Int) + 1 + vni0 else vni0
  let key : ObjVertexKey := ⟨vi, vti, vni⟩
  match remapFind st.vertexRemap key with
  | some idx => (st, idx)
  | none =>
    let p : Vec3 F := readPosition st.positions vi
    let uv : Vec2 F := readTexcoord st.texcoords vti
    let n : Vec3 F := readNormal st.normals vni
    let newIndex := st.out.vertices.length / kVertexStrideFloats
    ({ st with
        out := { st.out with vertices := AppendVertex11 st.out.vertices p uv n }
        vertexRemap := st.vertexRemap ++ [(key, newIndex)] }, newIndex)

/-- The token loop of a face record: malformed tokens are skipped, every other token
pushes the index returned by `GetOrCreateVertexIndex` onto `face`. -/
def buildFace (st : LoaderState F) (face : List Nat) : List (List Char) → LoaderState F × List Nat
  | [] => (st, face)
  | tok :: toks =>
    match ParseFaceToken tok with
    | none => buildFace st face toks
    | some (vi, vti, vni) =>
      let r := GetOrCreateVertexIndex st vi vti vni
      buildFace r.1 (face ++ [r.2]) toks

/-- The loop `for (size_t i = 1; i + 1 < face.size(); i++)` pushing
`face[0], face[i], face[i + 1]`, started at `i` with at most `fuel` iterations. -/
def triangulateFan (face : List Nat) : Nat → Nat → List Nat → List Nat
  | 0, _, indices => indices
  | fuel + 1, i, indices =>
    if i + 1 < face.length then
      triangulateFan face fuel (i + 1)
        (indices ++ [face.getD 0 0, face.getD i 0, face.getD (i + 1) 0])
    else indices

/-- The tokens of a face record after its tag. -/
def faceTokens (rest : List Char) : List (List Char) :=
  streamTokens (rest.length + 1) rest

/-- The `f` branch of the line loop. -/
def processFace (st : LoaderState F) (rest : List Char) : LoaderState F :=
  let r := buildFace st [] (faceTokens rest)
  { r.1 with out := { r.1.out with indices := triangulateFan r.2 r.2.length 1 r.1.out.indices } }

/-- One iteration of `while (std::getline(file, line))`. -/
def processLine (rd : FloatReader F) (st : LoaderState F) (line : List Char) : LoaderState F :=
  if line = [] ∨ line.head? = some '#' then st
  else
    let t := extractToken line
    if t.1 = "v".toList then { st with positions := st.positions ++ [rd.readVec3 t.2] }
    else if t.1 = "vt".toList then { st with texcoords := st.texcoords ++ [rd.readVec2 t.2] }
    else if t.1 = "vn".toList then { st with normals := st.normals ++ [rd.readVec3 t.2] }
    else if t.1 = "f".toList then processFace st t.2
    else st

/-- The line loop from an arbitrary state. -/
def processLines (rd : FloatReader F) (st : LoaderState F) (lines : List (List Char)) :
    LoaderState F :=
  lines.foldl (processLine rd) st

/-- The loader on the lines of an opened file. -/
def LoadLines (rd : FloatReader F) (lines : List (List Char)) : CpuMeshData F :=
  (processLines rd LoaderState.init lines).out

/-- The loader: `none` as file content is a path that cannot be opened. -/
def LoadOBJ (rd : FloatReader F) (file : Option (List Char)) : CpuMeshData F :=
  match file with
  | none => ⟨[], []⟩
  | some text => LoadLines rd (getLines [] text)

/-! ## Observations used by the specification -/

/-- Negative-index resolution as the specification words it: a negative index `n`
becomes `count + 1 + n`, any other index is kept. -/
def resolveIndex (count : Nat) (n : Int) : Int :=
  if n < 0 then (count : Int) + 1 + n else n

/-- The resolved triples of the well-formed tokens of one face record, given the
numbers of positions, texcoords and normals declared so far. -/
def faceTriples (np nt nn : Nat) (toks : List (List Char)) : List ObjVertexKey :=
  toks.filterMap (fun tok =>
    (ParseFaceToken tok).map (fun r =>
      (⟨resolveIndex np r.1, resolveIndex nt r.2.1, resolveIndex nn r.2.2⟩ : ObjVertexKey)))

/-- The resolved triples referenced by the face records of `lines`, in order of
reference; `np`, `nt`, `nn` count the records declared before the first line.  This
reads only the text: it does not run the loader. -/
def referencedTriples (np nt nn : Nat) : List (List Char) → List ObjVertexKey
  | [] => []
  | line :: rest =>
    if line = [] ∨ line.head? = some '#' then referencedTriples np nt nn rest
    else
      let t := extractToken line
      if t.1 = "v".toList then referencedTriples (np + 1) nt nn rest
      else if t.1 = "vt".toList then referencedTriples np (nt + 1) nn rest
      else if t.1 = "vn".toList then referencedTriples np nt (nn + 1) rest
      else if t.1 = "f".toList then
        faceTriples np nt nn (faceTokens t.2) ++ referencedTriples np nt nn rest
      else referencedTriples np nt nn rest

/-- The vector `face` that the loader builds for `line` in state `st` (empty for a
line that is not a face record). -/
def faceOfLine (st : LoaderState F) (line : List Char) : List Nat :=
  if line = [] ∨ line.head? = some '#' then []
  else
    let t := extractToken line
    if t.1 = "v".toList then []
    else if t.1 = "vt".toList then []
    else if t.1 = "vn".toList then []
    else if t.1 = "f".toList then (buildFace st [] (faceTokens t.2)).2
    else []

/-- Every output index returned by `GetOrCreateVertexIndex` while the loader runs over
`lines` from `st`, in call order. -/
def returnedIndices (rd : FloatReader F) (st : LoaderState F) : List (List Char) → List Nat
  | [] => []
  | line :: rest => faceOfLine st line ++ returnedIndices rd (processLine rd st line) rest

/-- The position records declared by `lines`, in order; reads only the text. -/
def declaredPositions (rd : FloatReader F) : List (List Char) → List (Vec3 F)
  | [] => []
  | line :: rest =>
    if line = [] ∨ line.head? = some '#' then declaredPositions rd rest
    else if (extractToken line).1 = "v".toList then
      rd.readVec3 (extractToken line).2 :: declaredPositions rd rest
    else declaredPositions rd rest

/-- The texcoord records declared by `lines`, in order; reads only the text. -/
def declaredTexcoords (rd : FloatReader F) : List (List Char) → List (Vec2 F)
  | [] => []
  | line :: rest =>
    if line = [] ∨ line.head? = some '#' then declaredTexcoords rd rest
    else if (extractToken line).1 = "vt".toList then
      rd.readVec2 (extractToken line).2 :: declaredTexcoords rd rest
    else declaredTexcoords rd rest

/-- The normal records declared by `lines`, in order; reads only the text. -/
def declaredNormals (rd : FloatReader F) : List (List Char) → List (Vec3 F)
  | [] => []
  | line :: rest =>
    if line = [] ∨ line.head? = some '#' then declaredNormals rd rest
    else if (extractToken line).1 = "vn".toList then
      rd.readVec3 (extractToken line).2 :: declaredNormals rd rest
    else declaredNormals rd rest

/-- The 11 scalars of output vertex `i`. -/
def vertexAt (m : CpuMeshData F) (i : Nat) : List F :=
  (m.vertices.drop (kVertexStrideFloats * i)).take kVertexStrideFloats

/-- The triangles `(f[0], f[i], f[i+1])` for `i = 1 .. k-2` of a face `f` with `k`
entries, flattened. -/
def fanTriangles (face : List Nat) : List Nat :=
  (List.range (face.length - 2)).flatMap
    (fun j => [face.getD 0 0, face.getD (j + 1) 0, face.getD (j + 2) 0])

/-! ## Invariants of the loader state -/

/-- Consistency of the loader state: one remap entry per emitted vertex, the entry
added `i`-th maps to output index `i`, keys are distinct, and the index buffer holds
whole triangles over emitted vertices. -/
structure WellFormed (st : LoaderState F) : Prop where
  len : st.out.vertices.length = 11 * st.vertexRemap.length
  vals : st.vertexRemap.map Prod.snd = List.range st.vertexRemap.length
  nodup : (st.vertexRemap.map Prod.fst).Nodup
  idx3 : st.out.indices.length % 3 = 0
  idxlt : ∀ i ∈ st.out.indices, i < st.vertexRemap.length

/-- The key under which `GetOrCreateVertexIndex` files a reference in state `st`. -/
def keyIn (st : LoaderState F) (vi vti vni : Int) : ObjVertexKey :=
  ⟨resolveIndex st.positions.length vi, resolveIndex st.texcoords.length vti,
    resolveIndex st.normals.length vni⟩

/-- Relation between a state and a later one inside one face record: the remap and
the vertex buffer only grow at the end, everything else is untouched. -/
structure Extends (st st' : LoaderState F) : Prop where
  remap : ∃ ext, st'.vertexRemap = st.vertexRemap ++ ext
  verts : ∃ ext, st'.out.vertices = st.out.vertices ++ ext
  positions : st'.positions = st.positions
  texcoords : st'.texcoords = st.texcoords
  normals : st'.normals = st.normals
  indices : st'.out.indices = st.out.indices

/-- The remap of `st` accounts for the references `refs` answered with `idxs`: its
keys are exactly the referenced triples and every answer is the entry of its triple. -/
def Tracks (st : LoaderState F) (refs : List ObjVertexKey) (idxs : List Nat) : Prop :=
  (∀ k, k ∈ st.vertexRemap.map Prod.fst ↔ k ∈ refs) ∧
    List.Forall₂ (fun k i => (k, i) ∈ st.vertexRemap) refs idxs

/-- The lines the loader reads: none when the file cannot be opened. -/
def fileLines (file : Option (List Char)) : List (List Char) :=
  match file with
  | none => []
  | some text => getLines [] text

/-- A line the loader treats as a face record. -/
def isFaceLine (line : List Char) : Bool :=
  !(decide (line = []) || decide (line.head? = some '#')) &&
    decide ((extractToken line).1 = "f".toList)

end Loader

end ObjectLoader

/-! ## Picker: `RayAABB` of `Main.cpp` -/

namespace Picker

open Glm

section RayBox

variable {K : Type} [LinearOrderedField K]

/-- The function `glm::min(x, y)`: `(y < x) ? y : x`. -/
def glmMin (x y : K) : K := if y < x then y else x

/-- The function `glm::max(x, y)`: `(x < y) ? y : x`. -/
def glmMax (x y : K) : K := if x < y then y else x

/-- The call `std::max({a, b, c})`: the first largest element. -/
def stdMax3 (a b c : K) : K :=
  let m := if a < b then b else a
  if m < c then c else m

/-- The call `std::min({a, b, c})`: the first smallest element. -/
def stdMin3 (a b c : K) : K :=
  let m := if b < a then b else a
  if c < m then c else m

/-- Per-axis `tNear = (boxMin - rayOrigin) * invDir` with `invDir = 1.0f / rayDirection`. -/
def tNear (o d c h : K) : K := ((c - h) - o) * (1 / d)

/-- Per-axis `tFar = (boxMax - rayOrigin) * invDir`. -/
def tFar (o d c h : K) : K := ((c + h) - o) * (1 / d)

/-- The local `entryDistance` of `RayAABB`. -/
def entryDistance (o d c h : Vec3 K) : K :=
  stdMax3 (glmMin (tNear o.x d.x c.x h.x) (tFar o.x d.x c.x h.x))
    (glmMin (tNear o.y d.y c.y h.y) (tFar o.y d.y c.y h.y))
    (glmMin (tNear o.z d.z c.z h.z) (tFar o.z d.z c.z h.z))

/-- The local `exitDistance` of `RayAABB`. -/
def exitDistance (o d c h : Vec3 K) : K :=
  stdMin3 (glmMax (tNear o.x d.x c.x h.x) (tFar o.x d.x c.x h.x))
    (glmMax (tNear o.y d.y c.y h.y) (tFar o.y d.y c.y h.y))
    (glmMax (tNear o.z d.z c.z h.z) (tFar o.z d.z c.z h.z))

/-- Ray vs AABB (slab method).  The result is the returned flag and the value of the
reference parameter `hitDistance` after the call. -/
def RayAABB (rayOrigin rayDirection boxCenter boxHalfSize : Vec3 K) (hitDistance : K) :
    Bool × K :=
  if exitDistance rayOrigin rayDirection boxCenter boxHalfSize < 0 ∨
      entryDistance rayOrigin rayDirection boxCenter boxHalfSize >
        exitDistance rayOrigin rayDirection boxCenter boxHalfSize then
    (false, hitDistance)
  else
    (true,
      if entryDistance rayOrigin rayDirection boxCenter boxHalfSize ≥ 0
      then entryDistance rayOrigin rayDirection boxCenter boxHalfSize
      else exitDistance rayOrigin rayDirection boxCenter boxHalfSize)

/-- The point `rayOrigin + t * rayDirection`. -/
def pointAt (o d : Vec3 K) (t : K) : Vec3 K :=
  ⟨o.x + t * d.x, o.y + t * d.y, o.z + t * d.z⟩

/-- Membership in the closed box `[center - half, center + half]`. -/
def InBox (c h p : Vec3 K) : Prop :=
  (c.x - h.x ≤ p.x ∧ p.x ≤ c.x + h.x) ∧ (c.y - h.y ≤ p.y ∧ p.y ≤ c.y + h.y) ∧
    (c.z - h.z ≤ p.z ∧ p.z ≤ c.z + h.z)

/-- Membership in the open box: strictly inside on every axis. -/
def InInterior (c h p : Vec3 K) : Prop :=
  (c.x - h.x < p.x ∧ p.x < c.x + h.x) ∧ (c.y - h.y < p.y ∧ p.y < c.y + h.y) ∧
    (c.z - h.z < p.z ∧ p.z < c.z + h.z)

instance (c h p : Vec3 K) : Decidable (InBox c h p) := by
  unfold InBox; infer_instance

instance (c h p : Vec3 K) : Decidable (InInterior c h p) := by
  unfold InInterior; infer_instance

end RayBox

end Picker

/-! ## SceneRegistry: `MeshSystem` of `Mesh.h` / `Mesh.cpp` -/

/-- Functions of the C math library and of glm that have no exact counterpart in a
field: `sinf`/`cos`, `glm::inversesqrt` and `glm::radians`. -/
structure FloatMath (F : Type) where
  sin : F → F
  cos : F → F
  inversesqrt : F → F
  radians : F → F

/-- What the OpenGL side answers during a frame: the program `ID` stored in the
caller-owned `Shader` object at an address, and `glGetUniformLocation`. -/
structure GlEnv where
  programOf : Nat → Nat
  uniformLocation : Nat → String → Int

inductive Motion where
  | None
  | BobY
  | RotateX
  | RotateY
  | RotateXY
deriving DecidableEq, Repr

open Glm in
structure SceneObject (F : Type) where
  name : String
  meshId : String
  textureId : String
  shaderId : String
  pos : Vec3 F
  scale : Vec3 F
  motion : Motion
  rotSpeedDeg : F
  bobAmp : F
  bobFreq : F
  basePos : Vec3 F
deriving DecidableEq, Repr

/-- Device-side buffers of one mesh: the uploaded vertex and index data (`vbo`, `ebo`)
and the stored `indexCount`. -/
structure GpuMesh (F : Type) where
  vbo : List F
  ebo : List Nat
  indexCount : Int
deriving DecidableEq, Repr

/-- A texture created from a file path with a pixel format. -/
structure Texture where
  filePath : String
  format : Nat
deriving DecidableEq, Repr

/-- Cached uniform locations of one program; `-1` is "not present". -/
structure ShaderUniforms where
  model : Int := -1
  tex0 : Int := -1
  lightColor : Int := -1
  lightPos : Int := -1
  camPos : Int := -1
deriving DecidableEq, Repr

open Glm in
/-- The OpenGL and camera calls a frame issues, in order. -/
inductive GlCall (F : Type) where
  | activate (shader : Nat)
  | cameraMatrix (shader : Nat)
  | getUniformLocation (program : Nat) (name : String)
  | uniform1i (loc : Int) (v : Int)
  | uniform4f (loc : Int) (v : Vec4 F)
  | uniform3f (loc : Int) (v : Vec3 F)
  | uniformMatrix4fv (loc : Int) (m : Mat4 F)
  | activeTexture0
  | bindTexture (texture : Nat)
  | bindVertexArray (mesh : Nat)
  | drawElements (count : Int)
deriving DecidableEq, Repr

open Glm in
/-- The data members of `class MeshSystem`.  A `Shader*` is the address of the
caller-owned shader object (`none` is the null pointer). -/
structure MeshSystem (F : Type) where
  meshes : List (GpuMesh F)
  meshById : List (String × Nat)
  textures : List Texture
  textureById : List (String × Nat)
  objects : List (SceneObject F)
  shaderById : List (String × Option Nat)
  uniformsByProgram : List (Nat × ShaderUniforms)
  lightColor : Vec4 F
  lightPos : Vec3 F
deriving DecidableEq, Repr

namespace MeshSystem

open Glm

/-- Lookup `m.find(k)` of an `unordered_map`: `none` is `end()`. -/
def mapFind {κ ν : Type} [DecidableEq κ] (m : List (κ × ν)) (k : κ) : Option ν :=
  (m.find? (fun e => decide (e.1 = k))).map Prod.snd

/-- The test `m.count(k) != 0`. -/
def mapContains {κ ν : Type} [DecidableEq κ] (m : List (κ × ν)) (k : κ) : Bool :=
  (mapFind m k).isSome

/-- The call `m.emplace(k, v)`: inserts only when `k` is absent. -/
def mapEmplace {κ ν : Type} [DecidableEq κ] (m : List (κ × ν)) (k : κ) (v : ν) :
    List (κ × ν) :=
  if mapContains m k then m else m ++ [(k, v)]

/-- The assignment `m[k] = v`: replaces the value of an existing key, inserts otherwise. -/
def mapAssign {κ ν : Type} [DecidableEq κ] : List (κ × ν) → κ → ν → List (κ × ν)
  | [], k, v => [(k, v)]
  | e :: m, k, v => if e.1 = k then (k, v) :: m else e :: mapAssign m k v

/-- The conversion `(GLsizei)n` of a `size_t` to a 32-bit signed integer. -/
def toGLsizei (n : Nat) : Int :=
  ((n : Int) + 2147483648) % 4294967296 - 2147483648

section Registry

variable {F : Type} [Field F]

/-- A default-constructed `MeshSystem`. -/
def empty : MeshSystem F :=
  { meshes := [], meshById := [], textures := [], textureById := [], objects := [],
    shaderById := [], uniformsByProgram := [],
    lightColor := ⟨1, 1, 1, 1⟩, lightPos := ⟨1 / 2, 1 / 2, 1 / 2⟩ }

/-- Method `AddMesh`: returns at once when the id is known; otherwise uploads the data into a
new `GpuMesh` and records its slot.  `LinkVertexLayout` only issues attribute-layout
calls on the new mesh and changes none of the data members. -/
def AddMesh (s : MeshSystem F) (id : String) (data : CpuMeshData F) : MeshSystem F :=
  if mapContains s.meshById id then s
  else
    let meshes := s.meshes ++ [⟨data.vertices, data.indices, toGLsizei data.indices.length⟩]
    { s with meshes := meshes, meshById := mapEmplace s.meshById id (meshes.length - 1) }

/-- Method `AddTexture`: returns at once when the id is known; otherwise creates the texture
and records its slot. -/
def AddTexture (s : MeshSystem F) (id : String) (filePath : String) (format : Nat) :
    MeshSystem F :=
  if mapContains s.textureById id then s
  else
    let textures := s.textures ++ [⟨filePath, format⟩]
    { s with textures := textures,
             textureById := mapEmplace s.textureById id (textures.length - 1) }

/-- Method `RegisterShaderProgram`: `shaderById[id] = &shader`.  The argument `shader` is the
address of the caller's `Shader` object. -/
def RegisterShaderProgram (s : MeshSystem F) (id : String) (shader : Nat) : MeshSystem F :=
  { s with shaderById := mapAssign s.shaderById id (some shader) }

/-- Method `SetLightParams`: stores the light colour and position. -/
def SetLightParams (s : MeshSystem F) (color : Vec4 F) (pos : Vec3 F) : MeshSystem F :=
  { s with lightColor := color, lightPos := pos }

/-- Method `AddObjectInstance`: copies the object, sets `basePos` to its `pos`, appends it and
returns the new state with the index of the added object. -/
def AddObjectInstance (s : MeshSystem F) (obj : SceneObject F) : MeshSystem F × Nat :=
  let o := { obj with basePos := obj.pos }
  let objects := s.objects ++ [o]
  ({ s with objects := objects }, objects.length - 1)

/-- The pointer returned by `FindObject` is the index of the object in `objects`;
`none` is `nullptr`. -/
def FindObject (s : MeshSystem F) (name : String) : Option Nat :=
  s.objects.findIdx? (fun o => decide (o.name = name))

/-- The caller-side write `p->pos = v` through a pointer returned by `FindObject`
(`UpdateUiButtonPositions` and the lamp update of `main`). -/
def writePos (s : MeshSystem F) (p : Nat) (v : Vec3 F) : MeshSystem F :=
  { s with objects := s.objects.modify (fun o => { o with pos := v }) p }

/-- Method `GetShaderUniforms` on the uniform cache: the cache afterwards, the locations and
the `glGetUniformLocation` calls made. -/
def GetShaderUniforms (env : GlEnv) (cache : List (Nat × ShaderUniforms)) (shader : Nat) :
    List (Nat × ShaderUniforms) × ShaderUniforms × List (GlCall F) :=
  let id := env.programOf shader
  match mapFind cache id with
  | some u => (cache, u, [])
  | none =>
    let u : ShaderUniforms :=
      { model := env.uniformLocation id "model"
        tex0 := env.uniformLocation id "tex0"
        lightColor := env.uniformLocation id "lightColor"
        lightPos := env.uniformLocation id "lightPos"
        camPos := env.uniformLocation id "camPos" }
    (mapEmplace cache id u, u,
      [.getUniformLocation id "model", .getUniformLocation id "tex0",
        .getUniformLocation id "lightColor", .getUniformLocation id "lightPos",
        .getUniformLocation id "camPos"])

/-- Method `GetWorldPos`: `basePos + vec3(0, bobAmp * sinf(t * bobFreq), 0)` for `BobY`,
otherwise `pos`. -/
def GetWorldPos (fm : FloatMath F) (o : SceneObject F) (t : F) : Vec3 F :=
  if o.motion = Motion.BobY then
    ⟨o.basePos.x + 0, o.basePos.y + o.bobAmp * fm.sin (t * o.bobFreq), o.basePos.z + 0⟩
  else o.pos

/-- Method `GetWorldPosByName`: the world position of the first object with that name, or the
zero vector. -/
def GetWorldPosByName (fm : FloatMath F) (s : MeshSystem F) (name : String) (t : F) : Vec3 F :=
  match s.objects.find? (fun o => decide (o.name = name)) with
  | some o => GetWorldPos fm o t
  | none => ⟨0, 0, 0⟩

end Registry

end MeshSystem

/-! ### glm transforms (`glm/ext/matrix_transform.inl`, `glm/detail/func_geometric.inl`) -/

namespace Glm

section Transforms

variable {F : Type} [Field F]

/-- The product `v * k` of a column and a scalar. -/
def Vec4.scaleBy (v : Vec4 F) (k : F) : Vec4 F := ⟨v.x * k, v.y * k, v.z * k, v.w * k⟩

/-- Componentwise sum of two columns. -/
def Vec4.add (a b : Vec4 F) : Vec4 F := ⟨a.x + b.x, a.y + b.y, a.z + b.z, a.w + b.w⟩

/-- The matrix `glm::mat4(1.0f)`. -/
def Mat4.identity : Mat4 F := ⟨⟨1, 0, 0, 0⟩, ⟨0, 1, 0, 0⟩, ⟨0, 0, 1, 0⟩, ⟨0, 0, 0, 1⟩⟩

/-- The function `glm::translate(m, v)`: `Result[3] = m[0] * v[0] + m[1] * v[1] + m[2] * v[2] + m[3]`. -/
def translate (m : Mat4 F) (v : Vec3 F) : Mat4 F :=
  { m with c3 := (((m.c0.scaleBy v.x).add (m.c1.scaleBy v.y)).add (m.c2.scaleBy v.z)).add m.c3 }

/-- The function `glm::normalize(v)`: `v * inversesqrt(dot(v, v))`. -/
def normalize (fm : FloatMath F) (v : Vec3 F) : Vec3 F :=
  ⟨v.x * fm.inversesqrt (v.x * v.x + v.y * v.y + v.z * v.z),
    v.y * fm.inversesqrt (v.x * v.x + v.y * v.y + v.z * v.z),
    v.z * fm.inversesqrt (v.x * v.x + v.y * v.y + v.z * v.z)⟩

/-- The function `glm::rotate(m, angle, v)`. -/
def rotate (fm : FloatMath F) (m : Mat4 F) (angle : F) (v : Vec3 F) : Mat4 F :=
  let c := fm.cos angle
  let s := fm.sin angle
  let axis := normalize fm v
  let temp : Vec3 F := ⟨(1 - c) * axis.x, (1 - c) * axis.y, (1 - c) * axis.z⟩
  let r00 := c + temp.x * axis.x
  let r01 := temp.x * axis.y + s * axis.z
  let r02 := temp.x * axis.z - s * axis.y
  let r10 := temp.y * axis.x - s * axis.z
  let r11 := c + temp.y * axis.y
  let r12 := temp.y * axis.z + s * axis.x
  let r20 := temp.z * axis.x + s * axis.y
  let r21 := temp.z * axis.y - s * axis.x
  let r22 := c + temp.z * axis.z
  { c0 := ((m.c0.scaleBy r00).add (m.c1.scaleBy r01)).add (m.c2.scaleBy r02)
    c1 := ((m.c0.scaleBy r10).add (m.c1.scaleBy r11)).add (m.c2.scaleBy r12)
    c2 := ((m.c0.scaleBy r20).add (m.c1.scaleBy r21)).add (m.c2.scaleBy r22)
    c3 := m.c3 }

/-- The function `glm::scale(m, v)`. -/
def scale (m : Mat4 F) (v : Vec3 F) : Mat4 F :=
  { c0 := m.c0.scaleBy v.x, c1 := m.c1.scaleBy v.y, c2 := m.c2.scaleBy v.z, c3 := m.c3 }

end Transforms

end Glm

/-! ### Model matrix and render pass -/

namespace MeshSystem

open Glm

section RenderPass

variable {F : Type} [Field F] [DecidableEq F]

/-- Method `BuildModelMatrix`: translate by the world position, rotate according to the
motion, scale. -/
def BuildModelMatrix (fm : FloatMath F) (o : SceneObject F) (t : F) : Mat4 F :=
  let p := GetWorldPos fm o t
  let model := translate Mat4.identity p
  let model :=
    if o.motion = Motion.RotateX then
      rotate fm model (fm.radians (t * o.rotSpeedDeg)) ⟨1, 0, 0⟩
    else if o.motion = Motion.RotateY then
      rotate fm model (fm.radians (t * o.rotSpeedDeg)) ⟨0, 1, 0⟩
    else if o.motion = Motion.RotateXY then
      rotate fm (rotate fm model (fm.radians (t * o.rotSpeedDeg)) ⟨1, 0, 0⟩)
        (fm.radians (t * o.rotSpeedDeg * (7 / 10))) ⟨0, 1, 0⟩
    else model
  scale model o.scale

/-- The locals of `Render` that live across objects (`current`, `u`), the uniform
cache, and the calls issued so far. -/
structure RenderLoop (F : Type) where
  current : Option Nat
  u : ShaderUniforms
  cache : List (Nat × ShaderUniforms)
  calls : List (GlCall F)

/-- The body of `for (auto& o : objects)` in `Render`. -/
def renderObject (env : GlEnv) (fm : FloatMath F) (s : MeshSystem F) (camPos : Vec3 F) (t : F)
    (st : RenderLoop F) (o : SceneObject F) : RenderLoop F :=
  match mapFind s.meshById o.meshId with
  | none => st
  | some mi =>
    match mapFind s.shaderById o.shaderId with
    | none => st
    | some none => st
    | some (some sh) =>
      let st1 : RenderLoop F :=
        if some sh ≠ st.current then
          let r := GetShaderUniforms (F := F) env st.cache sh
          { current := some sh, u := r.2.1, cache := r.1,
            calls := st.calls ++ [.activate sh, .cameraMatrix sh] ++ r.2.2 ++
              (if r.2.1.tex0 ≠ -1 then [.uniform1i r.2.1.tex0 0] else []) }
        else st
      let u := st1.u
      { st1 with
        calls := st1.calls ++
          (if u.lightColor ≠ -1 then [.uniform4f u.lightColor s.lightColor] else []) ++
          (if u.lightPos ≠ -1 then [.uniform3f u.lightPos s.lightPos] else []) ++
          (if u.camPos ≠ -1 then [.uniform3f u.camPos camPos] else []) ++
          (if u.model ≠ -1 then [.uniformMatrix4fv u.model (BuildModelMatrix fm o t)] else []) ++
          (if u.tex0 ≠ -1 then
            match mapFind s.textureById o.textureId with
            | some ti => [.activeTexture0, .bindTexture ti]
            | none => []
           else []) ++
          (match s.meshes[mi]? with
           | some m => [.bindVertexArray mi, .drawElements m.indexCount]
           | none => []) }

/-- One frame: the state afterwards (only the uniform cache can change) and the calls
issued, in order.  `camPos` is `camera.Position`. -/
def Render (env : GlEnv) (fm : FloatMath F) (s : MeshSystem F) (camPos : Vec3 F) (t : F) :
    MeshSystem F × List (GlCall F) :=
  let r := s.objects.foldl (renderObject env fm s camPos t)
    { current := none, u := {}, cache := s.uniformsByProgram, calls := [] }
  ({ s with uniformsByProgram := r.cache }, r.calls)

/-- The index counts of the `glDrawElements` calls of a trace, in order. -/
def drawCounts (calls : List (GlCall F)) : List Int :=
  calls.filterMap (fun c => match c with
    | .drawElements n => some n
    | _ => none)

/-- The index count an object is drawn with when its mesh and shader ids resolve. -/
def drawOf (s : MeshSystem F) (o : SceneObject F) : Option Int :=
  match mapFind s.meshById o.meshId, mapFind s.shaderById o.shaderId with
  | some mi, some (some _) => (s.meshes[mi]?).map (fun m => m.indexCount)
  | _, _ => none

end RenderPass

end MeshSystem

/-! ### Observations on a render pass -/

namespace MeshSystem

open Glm

section RenderObservations

variable {F : Type} [Field F] [DecidableEq F]

/-- The shader an object is drawn with: its `shaderId` resolves to a non-null shader
and its `meshId` resolves; `none` for an object that `Render` skips. -/
def resolvedShader (s : MeshSystem F) (o : SceneObject F) : Option Nat :=
  match mapFind s.meshById o.meshId, mapFind s.shaderById o.shaderId with
  | some _, some (some sh) => some sh
  | _, _ => none

/-- The shaders of the `Activate` calls of a trace, in order. -/
def activations (calls : List (GlCall F)) : List Nat :=
  calls.filterMap (fun c => match c with
    | .activate sh => some sh
    | _ => none)

/-- The shaders of the `camera.Matrix` calls of a trace, in order. -/
def cameraCalls (calls : List (GlCall F)) : List Nat :=
  calls.filterMap (fun c => match c with
    | .cameraMatrix sh => some sh
    | _ => none)

/-- The shaders newly bound while drawing objects with the given resolved shaders,
starting from the bound shader `current`. -/
def shaderSwitches : Option Nat → List Nat → List Nat
  | _, [] => []
  | current, sh :: rest =>
    if some sh ≠ current then sh :: shaderSwitches (some sh) rest
    else shaderSwitches current rest

/-- Registry consistency established by `AddMesh`: every registered mesh id denotes
an existing slot, and every slot stores the number of indices uploaded to it. -/
def RegistryInv (s : MeshSystem F) : Prop :=
  (∀ e ∈ s.meshById, e.2 < s.meshes.length) ∧
    ∀ m ∈ s.meshes, m.indexCount = toGLsizei m.ebo.length

end RenderObservations

end MeshSystem

/-! ## ShapeGenerator: `gfx::Shapes` of `shapes.cpp` -/

namespace Shapes

inductive ShapeType where
  | Triangle
  | Cube
  | Circle
  | Square
  | Rectangle
deriving DecidableEq, Repr

/-- The struct `gfx::MeshData`. -/
structure MeshData (F : Type) where
  vertices : List F
  indices : List Nat
deriving DecidableEq, Repr

section Generators

variable {F : Type} [Field F]

/-- Appends one vertex: x y z  r g b  u v  nx ny nz. -/
def PushV (v : List F) (x y z r g b u vv nx ny nz : F) : List F :=
  v ++ [x, y, z, r, g, b, u, vv, nx, ny, nz]

/-- The function `Shapes::Triangle`. -/
def Triangle : MeshData F :=
  let v : List F := []
  let v := PushV v (-(1 / 2)) (-(1 / 2)) 0 1 0 0 0 0 0 0 1
  let v := PushV v (1 / 2) (-(1 / 2)) 0 0 1 0 1 0 0 0 1
  let v := PushV v 0 (1 / 2) 0 0 0 1 (1 / 2) 1 0 0 1
  { vertices := v, indices := [0, 1, 2] }

/-- The function `Shapes::Cube`: 24 vertices, 6 faces of two triangles. -/
def Cube : MeshData F :=
  let v : List F := []
  let v := PushV v (-(1 / 2)) (-(1 / 2)) (1 / 2) 1 0 0 0 0 0 0 1
  let v := PushV v (1 / 2) (-(1 / 2)) (1 / 2) 0 1 0 1 0 0 0 1
  let v := PushV v (1 / 2) (1 / 2) (1 / 2) 0 0 1 1 1 0 0 1
  let v := PushV v (-(1 / 2)) (1 / 2) (1 / 2) 1 1 0 0 1 0 0 1
  let v := PushV v (1 / 2) (-(1 / 2)) (-(1 / 2)) 1 0 1 0 0 0 0 (-1)
  let v := PushV v (-(1 / 2)) (-(1 / 2)) (-(1 / 2)) 0 1 1 1 0 0 0 (-1)
  let v := PushV v (-(1 / 2)) (1 / 2) (-(1 / 2)) 1 1 1 1 1 0 0 (-1)
  let v := PushV v (1 / 2) (1 / 2) (-(1 / 2)) (1 / 5) (1 / 5) (1 / 5) 0 1 0 0 (-1)
  let v := PushV v (-(1 / 2)) (-(1 / 2)) (-(1 / 2)) 1 0 0 0 0 (-1) 0 0
  let v := PushV v (-(1 / 2)) (-(1 / 2)) (1 / 2) 0 1 0 1 0 (-1) 0 0
  let v := PushV v (-(1 / 2)) (1 / 2) (1 / 2) 0 0 1 1 1 (-1) 0 0
  let v := PushV v (-(1 / 2)) (1 / 2) (-(1 / 2)) 1 1 0 0 1 (-1) 0 0
  let v := PushV v (1 / 2) (-(1 / 2)) (1 / 2) 1 0 1 0 0 1 0 0
  let v := PushV v (1 / 2) (-(1 / 2)) (-(1 / 2)) 0 1 1 1 0 1 0 0
  let v := PushV v (1 / 2) (1 / 2) (-(1 / 2)) 1 1 1 1 1 1 0 0
  let v := PushV v (1 / 2) (1 / 2) (1 / 2) (1 / 5) (1 / 5) (1 / 5) 0 1 1 0 0
  let v := PushV v (-(1 / 2)) (1 / 2) (1 / 2) 1 0 0 0 0 0 1 0
  let v := PushV v (1 / 2) (1 / 2) (1 / 2) 0 1 0 1 0 0 1 0
  let v := PushV v (1 / 2) (1 / 2) (-(1 / 2)) 0 0 1 1 1 0 1 0
  let v := PushV v (-(1 / 2)) (1 / 2) (-(1 / 2)) 1 1 0 0 1 0 1 0
  let v := PushV v (-(1 / 2)) (-(1 / 2)) (-(1 / 2)) 1 0 1 0 0 0 (-1) 0
  let v := PushV v (1 / 2) (-(1 / 2)) (-(1 / 2)) 0 1 1 1 0 0 (-1) 0
  let v := PushV v (1 / 2) (-(1 / 2)) (1 / 2) 1 1 1 1 1 0 (-1) 0
  let v := PushV v (-(1 / 2)) (-(1 / 2)) (1 / 2) (1 / 5) (1 / 5) (1 / 5) 0 1 0 (-1) 0
  { vertices := v
    indices := [0, 1, 2, 2, 3, 0, 4, 5, 6, 6, 7, 4, 8, 9, 10, 10, 11, 8, 12, 13, 14, 14, 15, 12, 16, 17, 18, 18, 19, 16, 20, 21, 22, 22, 23, 20] }

/-- The function `Shapes::Circle`: a centre vertex, `segments` rim vertices and a fan of
`segments` triangles; `segments` below 3 is raised to 3.  The literal
`3.14159265358979323846f` is taken at its decimal value. -/
def Circle (fm : FloatMath F) (radius : F) (segments0 : Int) (inXZ : Bool) : MeshData F :=
  let segments : Int := if segments0 < 3 then 3 else segments0
  let nx : F := 0
  let ny : F := if inXZ then 1 else 0
  let nz : F := if inXZ then 0 else 1
  let v := PushV [] 0 0 0 1 1 1 (1 / 2) (1 / 2) nx ny nz
  let twoPi : F := 2 * (314159265358979323846 / 100000000000000000000)
  let v := (List.range segments.toNat).foldl (fun v i =>
    let a := twoPi * ((i : F) / (segments : F))
    let cx := radius * fm.cos a
    let cz := radius * fm.sin a
    let x := cx
    let y := if inXZ then 0 else cz
    let z := if inXZ then cz else 0
    let r := 3 / 5 + 2 / 5 * fm.cos a
    let g := 3 / 5 + 2 / 5 * fm.sin a
    let b := 4 / 5
    let u := 1 / 2 + cx / (2 * radius)
    let vv := 1 / 2 + cz / (2 * radius)
    PushV v x y z r g b u vv nx ny nz) v
  let indices := (List.range segments.toNat).foldl (fun idx i =>
    idx ++ [0, 1 + i, 1 + ((i + 1) % segments.toNat)]) []
  { vertices := v, indices := indices }

/-- The function `Shapes::Square`. -/
def Square (size : F) : MeshData F :=
  let h := size * (1 / 2)
  let v : List F := []
  let v := PushV v (-h) (-h) 0 1 0 0 0 0 0 0 1
  let v := PushV v h (-h) 0 0 1 0 1 0 0 0 1
  let v := PushV v h h 0 0 0 1 1 1 0 0 1
  let v := PushV v (-h) h 0 1 1 0 0 1 0 0 1
  { vertices := v, indices := [0, 1, 2, 2, 3, 0] }

/-- The function `Shapes::Rectangle`. -/
def Rectangle (width height : F) : MeshData F :=
  let hw := width * (1 / 2)
  let hh := height * (1 / 2)
  let v : List F := []
  let v := PushV v (-hw) (-hh) 0 (7 / 10) (1 / 5) (1 / 5) 0 0 0 0 1
  let v := PushV v hw (-hh) 0 (1 / 5) (7 / 10) (1 / 5) 1 0 0 0 1
  let v := PushV v hw hh 0 (1 / 5) (1 / 5) (7 / 10) 1 1 0 0 1
  let v := PushV v (-hw) hh 0 (7 / 10) (7 / 10) (1 / 5) 0 1 0 0 1
  { vertices := v, indices := [0, 1, 2, 2, 3, 0] }

/-- The function `Shapes::Get`. -/
def Get (fm : FloatMath F) (type : ShapeType) : MeshData F :=
  match type with
  | .Triangle => Triangle
  | .Cube => Cube
  | .Circle => Circle fm (4 / 5) 60 false
  | .Square => Square 1
  | .Rectangle => Rectangle (6 / 5) (3 / 5)

end Generators

end Shapes

namespace MeshSystem

open Glm

section Primitives

variable {F : Type} [Field F] [DecidableEq F]

/-- Method `AddPrimitiveMesh`: registers the generated shape through `AddMesh`. -/
def AddPrimitiveMesh (fm : FloatMath F) (s : MeshSystem F) (id : String)
    (type : Shapes.ShapeType) : MeshSystem F :=
  let m := Shapes.Get fm type
  AddMesh s id ⟨m.vertices, m.indices⟩

/-- The matrices of the `glUniformMatrix4fv` calls of a trace, in order. -/
def modelMatrices (calls : List (GlCall F)) : List (Mat4 F) :=
  calls.filterMap (fun c => match c with
    | .uniformMatrix4fv _ m => some m
    | _ => none)

/-- The calls a client makes on a registry between its construction and `Shutdown`. -/
inductive RegistryCall (F : Type) where
  | addMesh (id : String) (data : CpuMeshData F)
  | addPrimitiveMesh (fm : FloatMath F) (id : String) (type : Shapes.ShapeType)
  | addTexture (id : String) (filePath : String) (format : Nat)
  | registerShaderProgram (id : String) (shader : Nat)
  | setLightParams (color : Vec4 F) (pos : Vec3 F)
  | addObjectInstance (obj : SceneObject F)
  | render (env : GlEnv) (fm : FloatMath F) (camPos : Vec3 F) (t : F)

/-- The registry after one call. -/
def RegistryCall.apply (s : MeshSystem F) : RegistryCall F → MeshSystem F
  | .addMesh id data => AddMesh s id data
  | .addPrimitiveMesh fm id type => AddPrimitiveMesh fm s id type
  | .addTexture id filePath format => AddTexture s id filePath format
  | .registerShaderProgram id shader => RegisterShaderProgram s id shader
  | .setLightParams color pos => SetLightParams s color pos
  | .addObjectInstance obj => (AddObjectInstance s obj).1
  | .render env fm camPos t => (Render env fm s camPos t).1

end Primitives

end MeshSystem

/-! ## Further observations on the loader -/

namespace ObjectLoader

open Glm

section LoaderObservations

variable {F : Type} [Zero F] [One F]

/-- A line the loader ignores: empty, starting with the comment marker, or with a tag
(possibly none) other than `v`, `vt`, `vn`, `f`. -/
def isIgnoredLine (line : List Char) : Bool :=
  decide (line = []) || decide (line.head? = some '#') ||
    !(decide ((extractToken line).1 = "v".toList) ||
      decide ((extractToken line).1 = "vt".toList) ||
      decide ((extractToken line).1 = "vn".toList) ||
      decide ((extractToken line).1 = "f".toList))

/-- A token as `ss >> tok` delivers it: non-empty and free of whitespace. -/
def isToken (tok : List Char) : Bool :=
  !tok.isEmpty && tok.all (fun c => !isSpace c)

/-- The text of a face record with the given tokens: the tag `f`, then each token
after one space. -/
def faceLineOf (toks : List (List Char)) : List Char :=
  'f' :: toks.flatMap (fun tok => ' ' :: tok)

/-- The face tokens that `ParseFaceToken` accepts. -/
def wellFormedTokens (toks : List (List Char)) : List (List Char) :=
  toks.filter (fun tok => (ParseFaceToken tok).isSome)

/-- The 11 scalars of a vertex for the triple `k`, read from the sequences `P`, `T`,
`N` of positions, texcoords and normals. -/
def vertexOf (P : List (Vec3 F)) (T : List (Vec2 F)) (N : List (Vec3 F)) (k : ObjVertexKey) :
    List F :=
  [(readPosition P k.v).x, (readPosition P k.v).y, (readPosition P k.v).z, 1, 1, 1,
    (readTexcoord T k.vt).x, (readTexcoord T k.vt).y,
    (readNormal N k.vn).x, (readNormal N k.vn).y, (readNormal N k.vn).z]

end LoaderObservations

end ObjectLoader

/-! ## Camera: `Camera::Inputs` of `Camera.cpp` -/

/-- Modelled from the spec: `Camera.h` is missing; the state is the position, the
orientation and the up vector of the spec's camera state, together with the members
that `Camera.cpp` reads and writes (`width`, `height`, `speed`, `sensitivity`,
`firstClick`). -/
structure Camera (K : Type) where
  width : Int
  height : Int
  Position : Glm.Vec3 K
  Orientation : Glm.Vec3 K
  Up : Glm.Vec3 K
  speed : K
  sensitivity : K
  firstClick : Bool

/-- The window state the camera polls and writes: held keys, left mouse button, cursor
position and whether the cursor is hidden. -/
structure InputState (K : Type) where
  keyW : Bool
  keyS : Bool
  keyA : Bool
  keyD : Bool
  keySpace : Bool
  keyLeftControl : Bool
  keyLeftShift : Bool
  lmbDown : Bool
  cursorX : K
  cursorY : K
  cursorHidden : Bool

namespace Glm

section VectorOps

variable {K : Type} [LinearOrderedField K]

/-- Componentwise sum of two vectors. -/
def Vec3.add (a b : Vec3 K) : Vec3 K := ⟨a.x + b.x, a.y + b.y, a.z + b.z⟩

/-- Componentwise difference of two vectors. -/
def Vec3.sub (a b : Vec3 K) : Vec3 K := ⟨a.x - b.x, a.y - b.y, a.z - b.z⟩

/-- The product `k * v` of a scalar and a vector. -/
def Vec3.smul (k : K) (v : Vec3 K) : Vec3 K := ⟨k * v.x, k * v.y, k * v.z⟩

/-- The function `glm::cross(x, y)`. -/
def cross (x y : Vec3 K) : Vec3 K :=
  ⟨x.y * y.z - y.y * x.z, x.z * y.x - y.z * x.x, x.x * y.y - y.x * x.y⟩

/-- The function `glm::dot(x, y)` for `vec3`. -/
def dot (x y : Vec3 K) : K := x.x * y.x + x.y * y.y + x.z * y.z

/-- The function `glm::clamp(x, minVal, maxVal)`: `min(max(x, minVal), maxVal)`. -/
def clamp (x minVal maxVal : K) : K := min (max x minVal) maxVal

/-- The function `glm::rotate(v, angle, normal)` of `gtx/rotate_vector`: the upper 3x3
block of the rotation matrix applied to `v`. -/
def rotateVec (fm : FloatMath K) (v : Vec3 K) (angle : K) (normal : Vec3 K) : Vec3 K :=
  let m := rotate fm Mat4.identity angle normal
  ⟨m.c0.x * v.x + m.c1.x * v.y + m.c2.x * v.z,
    m.c0.y * v.x + m.c1.y * v.y + m.c2.y * v.z,
    m.c0.z * v.x + m.c1.z * v.y + m.c2.z * v.z⟩

/-- The function `glm::angle(x, y)` of `gtx/vector_angle`: `acos(clamp(dot(x, y), -1, 1))`;
`acos` is the C library function. -/
def angle (acos : K → K) (x y : Vec3 K) : K := acos (clamp (dot x y) (-1) 1)

end VectorOps

end Glm

namespace Camera

open Glm

section CameraInputs

variable {K : Type} [LinearOrderedField K]

/-- The constant `kBaseMoveDivisor`. -/
def kBaseMoveDivisor : K := 5

/-- The constant `kSpeedNormal`. -/
def kSpeedNormal : K := 1 / 10

/-- The constant `kSpeedBoost`. -/
def kSpeedBoost : K := 1 / 5

/-- The constant `kMaxPitchDeg`. -/
def kMaxPitchDeg : K := 85

/-- The locals `centerX`, `centerY`. -/
def center (cam : Camera K) : K × K := ((cam.width : K) * (1 / 2), (cam.height : K) * (1 / 2))

/-- The locals `mouseX`, `mouseY`: the cursor position read after the first-click
recentering. -/
def mouse (cam : Camera K) (win : InputState K) : K × K :=
  if cam.firstClick then center cam else (win.cursorX, win.cursorY)

/-- The local `rotX`. -/
def rotX (cam : Camera K) (win : InputState K) : K :=
  cam.sensitivity * (((mouse cam win).2 - (center cam).2) / (cam.height : K))

/-- The local `rotY`. -/
def rotY (cam : Camera K) (win : InputState K) : K :=
  cam.sensitivity * (((mouse cam win).1 - (center cam).1) / (cam.width : K))

/-- The local `pitched`: the orientation rotated about the pitch axis. -/
def pitched (fm : FloatMath K) (cam : Camera K) (win : InputState K) : Vec3 K :=
  rotateVec fm cam.Orientation (fm.radians (-(rotX cam win)))
    (normalize fm (cross cam.Orientation cam.Up))

/-- The test `std::abs(glm::angle(pitched, Up) - glm::radians(90.0f)) <=
glm::radians(kMaxPitchDeg)`. -/
def pitchAccepted (fm : FloatMath K) (acos : K → K) (cam : Camera K) (win : InputState K) :
    Prop :=
  |angle acos (pitched fm cam win) cam.Up - fm.radians 90| ≤ fm.radians kMaxPitchDeg

instance (fm : FloatMath K) (acos : K → K) (cam : Camera K) (win : InputState K) :
    Decidable (pitchAccepted fm acos cam win) := by
  unfold pitchAccepted; infer_instance

/-- Method `Camera::Inputs`: the camera and the window state after one update. -/
def Inputs (fm : FloatMath K) (acos : K → K) (cam : Camera K) (win : InputState K) :
    Camera K × InputState K :=
  let forward := normalize fm cam.Orientation
  let right := normalize fm (cross forward cam.Up)
  let up := normalize fm cam.Up
  let move := cam.speed / kBaseMoveDivisor
  let pos := cam.Position
  let pos := if win.keyW then pos.add (Vec3.smul move forward) else pos
  let pos := if win.keyS then pos.sub (Vec3.smul move forward) else pos
  let pos := if win.keyA then pos.sub (Vec3.smul move right) else pos
  let pos := if win.keyD then pos.add (Vec3.smul move right) else pos
  let pos := if win.keySpace then pos.add (Vec3.smul move up) else pos
  let pos := if win.keyLeftControl then pos.sub (Vec3.smul move up) else pos
  let speed := if win.keyLeftShift then kSpeedBoost else kSpeedNormal
  if !win.lmbDown then
    ({ cam with Position := pos, speed := speed, firstClick := true },
      { win with cursorHidden := false })
  else
    let orientation :=
      if pitchAccepted fm acos cam win then pitched fm cam win else cam.Orientation
    let orientation :=
      normalize fm (rotateVec fm orientation (fm.radians (-(rotY cam win))) cam.Up)
    ({ cam with Position := pos, speed := speed, firstClick := false,
                Orientation := orientation },
      { win with cursorHidden := true, cursorX := (center cam).1, cursorY := (center cam).2 })

end CameraInputs

end Camera

/-! ## Main loop: `ConsumeRmbEdge` of `Main.cpp` -/

namespace MainLoop

/-- The function `ConsumeRmbEdge`: `isRmbDown` is the polled state of the right button;
the result is the returned edge flag and `wasRmbDown` after the call. -/
def ConsumeRmbEdge (isRmbDown wasRmbDown : Bool) : Bool × Bool :=
  let edge := isRmbDown && !wasRmbDown
  (edge, isRmbDown)

/-- The value of `ConsumeRmbEdge` in each iteration of the loop of `main`, given the
button state of each frame and the flag `wasRmbDown` before the first frame.  Picking
runs in exactly the frames where the value is true. -/
def frameEdges (wasRmbDown : Bool) : List Bool → List Bool
  | [] => []
  | isRmbDown :: rest =>
    (ConsumeRmbEdge isRmbDown wasRmbDown).1 ::
      frameEdges (ConsumeRmbEdge isRmbDown wasRmbDown).2 rest

end MainLoop

namespace MeshSystem

open Glm

section UniformCache

variable {F : Type} [Field F] [DecidableEq F]

/-- The `glGetUniformLocation` lookups of a trace, in order. -/
def lookupsOf (calls : List (GlCall F)) : List (Nat × String) :=
  calls.filterMap (fun c => match c with
    | .getUniformLocation program name => some (program, name)
    | _ => none)

end UniformCache

end MeshSystem

/-- The `Delete()` calls on GPU objects: on the vertex array, the vertex buffer and the
element buffer of the mesh in a slot, on the texture in a slot, and on a caller-owned
shader object at an address.  The wrapper classes `VAO`, `VBO`, `EBO`, `Texture` and
`Shader` are not among the sources, so a trace records the calls made on them and not
what a call does inside. -/
inductive ReleaseCall where
  | deleteVertexArray (mesh : Nat)
  | deleteVertexBuffer (mesh : Nat)
  | deleteElementBuffer (mesh : Nat)
  | deleteTexture (texture : Nat)
  | deleteShader (shader : Nat)
deriving DecidableEq, Repr

namespace MeshSystem

open Glm

section Lifecycle

variable {F : Type} [Field F] [DecidableEq F]

/-- Method `Shutdown`: the registry afterwards and the `Delete()` calls issued, in
order.  The two loops run over the slots of `meshes` and of `textures`. -/
def Shutdown (s : MeshSystem F) : MeshSystem F × List ReleaseCall :=
  let calls := (List.range s.meshes.length).foldl (fun acc i =>
    acc ++ [.deleteVertexArray i, .deleteVertexBuffer i, .deleteElementBuffer i]) []
  let calls := (List.range s.textures.length).foldl (fun acc j =>
    acc ++ [.deleteTexture j]) calls
  ({ s with
      meshes := [], meshById := [], textures := [], textureById := [], objects := [],
      shaderById := [], uniformsByProgram := [] }, calls)

end Lifecycle

end MeshSystem

namespace MainLoop

open MeshSystem

/-- The end of `main`: `mesh.Shutdown()`, after which `main` itself deletes the two
shader objects it created. -/
def teardown {F : Type} [Field F] [DecidableEq F] (s : MeshSystem F)
    (defaultShader objectShader : Nat) : MeshSystem F × List ReleaseCall :=
  ((Shutdown s).1,
    (Shutdown s).2 ++ [.deleteShader defaultShader, .deleteShader objectShader])

end MainLoop

namespace Glm

section MatrixProduct

variable {F : Type} [Field F]

/-- The product `m * v` of a matrix and a column vector. -/
def Mat4.mulVec (m : Mat4 F) (v : Vec4 F) : Vec4 F :=
  ⟨m.c0.x * v.x + m.c1.x * v.y + m.c2.x * v.z + m.c3.x * v.w,
    m.c0.y * v.x + m.c1.y * v.y + m.c2.y * v.z + m.c3.y * v.w,
    m.c0.z * v.x + m.c1.z * v.y + m.c2.z * v.z + m.c3.z * v.w,
    m.c0.w * v.x + m.c1.w * v.y + m.c2.w * v.z + m.c3.w * v.w⟩

/-- The matrix product `a * b`: column `j` of the product is `a` times column `j` of
`b`. -/
def Mat4.mul (a b : Mat4 F) : Mat4 F :=
  ⟨a.mulVec b.c0, a.mulVec b.c1, a.mulVec b.c2, a.mulVec b.c3⟩

end MatrixProduct

end Glm

/-! ## The factors of the model matrix as the description names them -/

namespace ModelMatrixSpec

open Glm

section Factors

variable {F : Type} [Field F]

/-- The matrix written `Translate(p)`: the identity with `p` as its last column. -/
def Translate (p : Vec3 F) : Mat4 F :=
  ⟨⟨1, 0, 0, 0⟩, ⟨0, 1, 0, 0⟩, ⟨0, 0, 1, 0⟩, ⟨p.x, p.y, p.z, 1⟩⟩

/-- The matrix written `Scale(k)`: the diagonal matrix of `k` and 1. -/
def Scale (k : Vec3 F) : Mat4 F :=
  ⟨⟨k.x, 0, 0, 0⟩, ⟨0, k.y, 0, 0⟩, ⟨0, 0, k.z, 0⟩, ⟨0, 0, 0, 1⟩⟩

/-- The matrix written `RotX(deg)`: the rotation about the x axis by `deg` degrees. -/
def RotX (fm : FloatMath F) (deg : F) : Mat4 F :=
  ⟨⟨1, 0, 0, 0⟩, ⟨0, fm.cos (fm.radians deg), fm.sin (fm.radians deg), 0⟩,
    ⟨0, -fm.sin (fm.radians deg), fm.cos (fm.radians deg), 0⟩, ⟨0, 0, 0, 1⟩⟩

/-- The matrix written `RotY(deg)`: the rotation about the y axis by `deg` degrees. -/
def RotY (fm : FloatMath F) (deg : F) : Mat4 F :=
  ⟨⟨fm.cos (fm.radians deg), 0, -fm.sin (fm.radians deg), 0⟩, ⟨0, 1, 0, 0⟩,
    ⟨fm.sin (fm.radians deg), 0, fm.cos (fm.radians deg), 0⟩, ⟨0, 0, 0, 1⟩⟩

/-- The rotation factor `R` by motion kind. -/
def rotation (fm : FloatMath F) (motion : Motion) (rotSpeedDeg t : F) : Mat4 F :=
  match motion with
  | .None => Mat4.identity
  | .BobY => Mat4.identity
  | .RotateX => RotX fm (t * rotSpeedDeg)
  | .RotateY => RotY fm (t * rotSpeedDeg)
  | .RotateXY => (RotX fm (t * rotSpeedDeg)).mul (RotY fm (7 / 10 * t * rotSpeedDeg))

end Factors

end ModelMatrixSpec

namespace ObjectLoader

open Glm

section CheckedReads

variable {F : Type} [Zero F] [One F]

/-- The subscript `v[i]` of a `std::vector` with the bound checked: `none` stands for
an access outside the sequence.  A negative `int` converts to a `size_t` larger than
any size, so it is outside as well. -/
def subscript {α : Type} (v : List α) (i : Int) : Option α :=
  if i < 0 then none else v[i.toNat]?

/-- The statement `if (vi > 0 && vi <= (int)positions.size()) p = positions[vi - 1]`
over the default `glm::vec3 p(0.0f)`, with the subscript checked. -/
def readPositionChecked (positions : List (Vec3 F)) (vi : Int) : Option (Vec3 F) :=
  if 0 < vi ∧ vi ≤ (positions.length : Int) then subscript positions (vi - 1)
  else some ⟨0, 0, 0⟩

/-- The guarded read of `texcoords[vti - 1]` with the subscript checked. -/
def readTexcoordChecked (texcoords : List (Vec2 F)) (vti : Int) : Option (Vec2 F) :=
  if 0 < vti ∧ vti ≤ (texcoords.length : Int) then subscript texcoords (vti - 1)
  else some ⟨0, 0⟩

/-- The guarded read of `normals[vni - 1]` with the subscript checked. -/
def readNormalChecked (normals : List (Vec3 F)) (vni : Int) : Option (Vec3 F) :=
  if 0 < vni ∧ vni ≤ (normals.length : Int) then subscript normals (vni - 1)
  else some ⟨0, 0, 1⟩

/-- The lambda `GetOrCreateVertexIndex` with the three subscripts checked: `none` as
soon as one of them is out of bounds. -/
def GetOrCreateVertexIndexChecked (st : LoaderState F) (vi0 vti0 vni0 : Int) :
    Option (LoaderState F × Nat) :=
  let vi := if vi0 < 0 then (st.positions.length : Int) + 1 + vi0 else vi0
  let vti := if vti0 < 0 then (st.texcoords.length : Int) + 1 + vti0 else vti0
  let vni := if vni0 < 0 then (st.normals.length : Int) + 1 + vni0 else vni0
  let key : ObjVertexKey := ⟨vi, vti, vni⟩
  match remapFind st.vertexRemap key with
  | some idx => some (st, idx)
  | none =>
    match readPositionChecked st.positions vi, readTexcoordChecked st.texcoords vti,
      readNormalChecked st.normals vni with
    | some p, some uv, some n =>
      let newIndex := st.out.vertices.length / kVertexStrideFloats
      some ({ st with
          out := { st.out with vertices := AppendVertex11 st.out.vertices p uv n }
          vertexRemap := st.vertexRemap ++ [(key, newIndex)] }, newIndex)
    | _, _, _ => none

/-- The token loop of a face record over the checked lambda. -/
def buildFaceChecked (st : LoaderState F) (face : List Nat) :
    List (List Char) → Option (LoaderState F × List Nat)
  | [] => some (st, face)
  | tok :: toks =>
    match ParseFaceToken tok with
    | none => buildFaceChecked st face toks
    | some (vi, vti, vni) =>
      match GetOrCreateVertexIndexChecked st vi vti vni with
      | none => none
      | some r => buildFaceChecked r.1 (face ++ [r.2]) toks

/-- The `f` branch of the line loop over the checked lambda. -/
def processFaceChecked (st : LoaderState F) (rest : List Char) : Option (LoaderState F) :=
  match buildFaceChecked st [] (faceTokens rest) with
  | none => none
  | some r =>
    some { r.1 with
      out := { r.1.out with indices := triangulateFan r.2 r.2.length 1 r.1.out.indices } }

/-- One iteration of the line loop over the checked lambda. -/
def processLineChecked (rd : FloatReader F) (st : LoaderState F) (line : List Char) :
    Option (LoaderState F) :=
  if line = [] ∨ line.head? = some '#' then some st
  else
    let t := extractToken line
    if t.1 = "v".toList then some { st with positions := st.positions ++ [rd.readVec3 t.2] }
    else if t.1 = "vt".toList then
      some { st with texcoords := st.texcoords ++ [rd.readVec2 t.2] }
    else if t.1 = "vn".toList then some { st with normals := st.normals ++ [rd.readVec3 t.2] }
    else if t.1 = "f".toList then processFaceChecked st t.2
    else some st

/-- The line loop over the checked lambda: `none` once any read was out of bounds. -/
def processLinesChecked (rd : FloatReader F) (st : LoaderState F) :
    List (List Char) → Option (LoaderState F)
  | [] => some st
  | line :: rest =>
    match processLineChecked rd st line with
    | none => none
    | some st1 => processLinesChecked rd st1 rest

/-- The loader over the checked lambda. -/
def LoadOBJChecked (rd : FloatReader F) (file : Option (List Char)) :
    Option (CpuMeshData F) :=
  match file with
  | none => some ⟨[], []⟩
  | some text => (processLinesChecked rd LoaderState.init (getLines [] text)).map (·.out)

end CheckedReads

end ObjectLoader

namespace ObjectLoader

open Glm

/-- One reference of a face record as the text gives it: the resolved triple and the
numbers of position, texcoord and normal records on the lines before the face record. -/
structure FaceRef where
  key : ObjVertexKey
  np : Nat
  nt : Nat
  nn : Nat
deriving DecidableEq, Repr

/-- The references of the face records of `lines`, in order, each with the record
counts before its face record; `np`, `nt`, `nn` count the records declared before the
first line.  This reads only the text: it does not run the loader. -/
def referencesOf (np nt nn : Nat) : List (List Char) → List FaceRef
  | [] => []
  | line :: rest =>
    if line = [] ∨ line.head? = some '#' then referencesOf np nt nn rest
    else
      let t := extractToken line
      if t.1 = "v".toList then referencesOf (np + 1) nt nn rest
      else if t.1 = "vt".toList then referencesOf np (nt + 1) nn rest
      else if t.1 = "vn".toList then referencesOf np nt (nn + 1) rest
      else if t.1 = "f".toList then
        (faceTriples np nt nn (faceTokens t.2)).map (fun k => (⟨k, np, nt, nn⟩ : FaceRef)) ++
          referencesOf np nt nn rest
      else referencesOf np nt nn rest

/-- The first reference to the triple `k` among `refs`. -/
def firstReference (refs : List FaceRef) (k : ObjVertexKey) : Option FaceRef :=
  refs.find? (fun r => decide (r.key = k))

section FrozenData

variable {F : Type} [Zero F] [One F]

/-- The 11 scalars the text prescribes for the triple `k`: its data read from the
records declared before the face record that refers to `k` first (`none` when no face
refers to `k`). -/
def frozenVertex (rd : FloatReader F) (lines : List (List Char)) (k : ObjVertexKey) :
    Option (List F) :=
  (firstReference (referencesOf 0 0 0 lines) k).map (fun r =>
    vertexOf ((declaredPositions rd lines).take r.np) ((declaredTexcoords rd lines).take r.nt)
      ((declaredNormals rd lines).take r.nn) k)

/-- Every emitted vertex holds the data of its triple as read from the records that
were declared before the first reference to the triple. -/
def Frozen (st : LoaderState F) (refs : List FaceRef) : Prop :=
  ∀ k i, (k, i) ∈ st.vertexRemap →
    ∃ r, firstReference refs k = some r ∧ r.np ≤ st.positions.length ∧
      r.nt ≤ st.texcoords.length ∧ r.nn ≤ st.normals.length ∧
      vertexAt st.out i =
        vertexOf (st.positions.take r.np) (st.texcoords.take r.nt) (st.normals.take r.nn) k

end FrozenData

end ObjectLoader

namespace ObjectLoader

open Glm

/-- A number as the description means it by a numeric index: an optional sign followed
by decimal digits and nothing else. -/
def isNumber (s : List Char) : Bool :=
  match s with
  | [] => false
  | c :: r =>
    if c = '-' ∨ c = '+' then !r.isEmpty && r.all Char.isDigit
    else (c :: r).all Char.isDigit

/-- The index fields of a face token: the texts between its slashes. -/
def indexFields (tok : List Char) : List (List Char) :=
  tok.foldr (fun c acc =>
    if c = '/' then [] :: acc
    else
      match acc with
      | f :: fs => (c :: f) :: fs
      | [] => [[c]]) [[]]

/-- A token with a non-numeric index field: a field that is present and is not a
number. -/
def hasNonNumericField (tok : List Char) : Bool :=
  (indexFields tok).any (fun f => !f.isEmpty && !isNumber f)

/-- The face line with the tokens that have a non-numeric index field deleted. -/
def deleteNonNumeric (line : List Char) : List Char :=
  faceLineOf ((faceTokens (extractToken line).2).filter (fun tok => !hasNonNumericField tok))

/-- Text that begins with a number the way `std::stoi` reads one: after optional white
space and an optional sign there is at least one decimal digit, and the run of digits
denotes a value in the range of `int`.  What follows the digits does not matter. -/
def beginsWithInt (s : List Char) : Bool :=
  let body := s.dropWhile isSpace
  let unsigned :=
    if body.head? = some '-' ∨ body.head? = some '+' then body.tail else body
  let digits := unsigned.takeWhile Char.isDigit
  !digits.isEmpty &&
    decide (digits.foldl (fun a c => 10 * a + (c.toNat - 48)) 0 ≤
      (if body.head? = some '-' then 2147483648 else 2147483647))

/-- A field the parser can read: empty (the index is absent) or beginning with a
number. -/
def fieldReadable (s : List Char) : Bool :=
  s.isEmpty || beginsWithInt s

end ObjectLoader

/-! # Theorems -/

set_option linter.unusedSectionVars false

namespace ObjectLoader

open Glm

section LoaderLemmas

variable {F : Type} [Zero F] [One F]

theorem remapFind_eq_none {m : List (ObjVertexKey × Nat)} {k : ObjVertexKey} :
    remapFind m k = none ↔ k ∉ m.map Prod.fst := by
  induction m with
  | nil => simp [remapFind]
  | cons e m ih =>
    by_cases h : e.1 = k
    · simp [remapFind, List.find?, h]
    · have h2 : ¬ k = e.1 := fun h3 => h h3.symm
      simp only [remapFind, List.find?, h, decide_False] at ih ⊢
      rw [ih]
      simp [h2]

theorem remapFind_some_mem {m : List (ObjVertexKey × Nat)} {k : ObjVertexKey} {i : Nat}
    (h : remapFind m k = some i) : (k, i) ∈ m := by
  induction m with
  | nil => simp [remapFind] at h
  | cons e m ih =>
    by_cases h1 : e.1 = k
    · obtain ⟨a, b⟩ := e
      simp only at h1
      subst h1
      simp [remapFind, List.find?] at h
      subst h
      exact List.mem_cons_self _ _
    · simp only [remapFind, List.find?, h1, decide_False] at h ih
      exact List.mem_cons_of_mem _ (ih h)

end LoaderLemmas

end ObjectLoader

namespace ObjectLoader

section LoaderInvariant

variable {F : Type} [Zero F] [One F]

theorem wellFormed_init : WellFormed (LoaderState.init : LoaderState F) :=
  ⟨rfl, rfl, List.nodup_nil, rfl, by simp [LoaderState.init]⟩

theorem goc_found (st : LoaderState F) (vi vti vni : Int) (idx : Nat)
    (h : remapFind st.vertexRemap (keyIn st vi vti vni) = some idx) :
    GetOrCreateVertexIndex st vi vti vni = (st, idx) := by
  simp only [keyIn, resolveIndex] at h
  simp only [GetOrCreateVertexIndex, h]

theorem goc_fresh_eq (st : LoaderState F) (vi vti vni : Int)
    (h : remapFind st.vertexRemap (keyIn st vi vti vni) = none) :
    GetOrCreateVertexIndex st vi vti vni =
      ({ st with
          out := { st.out with
            vertices := AppendVertex11 st.out.vertices
              (readPosition st.positions (keyIn st vi vti vni).v)
              (readTexcoord st.texcoords (keyIn st vi vti vni).vt)
              (readNormal st.normals (keyIn st vi vti vni).vn) }
          vertexRemap := st.vertexRemap ++
            [(keyIn st vi vti vni, st.out.vertices.length / kVertexStrideFloats)] },
        st.out.vertices.length / kVertexStrideFloats) := by
  simp only [keyIn, resolveIndex] at h
  simp only [GetOrCreateVertexIndex, h, keyIn, resolveIndex]

theorem goc_fresh (st : LoaderState F) (vi vti vni : Int)
    (h : remapFind st.vertexRemap (keyIn st vi vti vni) = none) :
    ∃ p uv n,
      GetOrCreateVertexIndex st vi vti vni =
        ({ st with
            out := { st.out with vertices := AppendVertex11 st.out.vertices p uv n }
            vertexRemap := st.vertexRemap ++
              [(keyIn st vi vti vni, st.out.vertices.length / kVertexStrideFloats)] },
          st.out.vertices.length / kVertexStrideFloats) :=
  ⟨_, _, _, goc_fresh_eq st vi vti vni h⟩

theorem Extends.refl (st : LoaderState F) : Extends st st :=
  ⟨⟨[], by simp⟩, ⟨[], by simp⟩, rfl, rfl, rfl, rfl⟩

theorem Extends.trans {a b c : LoaderState F} (h1 : Extends a b) (h2 : Extends b c) :
    Extends a c := by
  obtain ⟨e1, he1⟩ := h1.remap
  obtain ⟨e2, he2⟩ := h2.remap
  obtain ⟨v1, hv1⟩ := h1.verts
  obtain ⟨v2, hv2⟩ := h2.verts
  exact ⟨⟨e1 ++ e2, by rw [he2, he1, List.append_assoc]⟩,
    ⟨v1 ++ v2, by rw [hv2, hv1, List.append_assoc]⟩,
    h2.positions.trans h1.positions, h2.texcoords.trans h1.texcoords,
    h2.normals.trans h1.normals, h2.indices.trans h1.indices⟩

theorem keyIn_of_extends {a b : LoaderState F} (h : Extends a b) (vi vti vni : Int) :
    keyIn b vi vti vni = keyIn a vi vti vni := by
  simp only [keyIn, h.positions, h.texcoords, h.normals]

theorem goc_spec (st : LoaderState F) (h : WellFormed st) (vi vti vni : Int) :
    WellFormed (GetOrCreateVertexIndex st vi vti vni).1 ∧
    Extends st (GetOrCreateVertexIndex st vi vti vni).1 ∧
    (keyIn st vi vti vni, (GetOrCreateVertexIndex st vi vti vni).2) ∈
      (GetOrCreateVertexIndex st vi vti vni).1.vertexRemap ∧
    (∀ k, k ∈ (GetOrCreateVertexIndex st vi vti vni).1.vertexRemap.map Prod.fst ↔
      k ∈ st.vertexRemap.map Prod.fst ∨ k = keyIn st vi vti vni) := by
  cases hf : remapFind st.vertexRemap (keyIn st vi vti vni) with
  | some idx =>
    rw [goc_found st vi vti vni idx hf]
    have hm := remapFind_some_mem hf
    refine ⟨h, Extends.refl st, hm, fun k => ⟨Or.inl, fun hk => ?_⟩⟩
    rcases hk with hk | hk
    · exact hk
    · rw [hk]
      exact List.mem_map_of_mem Prod.fst hm
  | none =>
    obtain ⟨p, uv, n, he⟩ := goc_fresh st vi vti vni hf
    rw [he]
    have hfresh := remapFind_eq_none.mp hf
    have hL : st.out.vertices.length / kVertexStrideFloats = st.vertexRemap.length := by
      rw [h.len, kVertexStrideFloats]
      exact Nat.mul_div_cancel_left _ (by norm_num)
    refine ⟨⟨?_, ?_, ?_, h.idx3, ?_⟩, ⟨⟨_, rfl⟩, ⟨_, rfl⟩, rfl, rfl, rfl, rfl⟩, ?_, ?_⟩
    · simp only [AppendVertex11, List.length_append, h.len, List.length_cons, List.length_nil]
      ring
    · simp only [List.map_append, List.map_cons, List.map_nil, List.length_append,
        List.length_cons, List.length_nil, h.vals, hL, List.range_succ]
    · simp only [List.map_append, List.map_cons, List.map_nil]
      refine List.Nodup.append h.nodup (List.nodup_singleton _) ?_
      intro a ha ha2
      rw [List.mem_singleton] at ha2
      exact hfresh (ha2 ▸ ha)
    · intro i hi
      have := h.idxlt i hi
      simp only [List.length_append, List.length_cons, List.length_nil]
      omega
    · simp
    · intro k
      simp

theorem triangulateFan_eq (face : List Nat) :
    ∀ (n fuel i : Nat) (acc : List Nat), face.length - 1 - i = n → n ≤ fuel →
      triangulateFan face fuel i acc =
        acc ++ (List.range n).flatMap
          (fun j => [face.getD 0 0, face.getD (i + j) 0, face.getD (i + j + 1) 0]) := by
  intro n
  induction n with
  | zero =>
    intro fuel i acc hn _
    cases fuel with
    | zero => simp [triangulateFan]
    | succ fuel =>
      rw [triangulateFan, if_neg (by omega)]
      simp
  | succ n ih =>
    intro fuel i acc hn hfuel
    cases fuel with
    | zero => omega
    | succ fuel =>
      rw [triangulateFan, if_pos (by omega), ih fuel (i + 1) _ (by omega) (by omega),
        List.range_succ_eq_map]
      simp only [List.flatMap_cons, List.flatMap_map, Function.comp, Nat.add_zero,
        List.append_assoc]
      congr 2
      apply List.flatMap_congr
      intro j _
      rw [show i + 1 + j = i + (j + 1) by omega]

/-- The loop bound `face.size()` is enough fuel: the loop emits the whole fan. -/
theorem triangulateFan_one (face acc : List Nat) :
    triangulateFan face face.length 1 acc = acc ++ fanTriangles face := by
  rw [triangulateFan_eq face (face.length - 2) face.length 1 acc (by omega) (by omega),
    fanTriangles]
  congr 1
  apply List.flatMap_congr
  intro j _
  rw [show 1 + j = j + 1 by omega]

theorem fanTriangles_length (face : List Nat) :
    (fanTriangles face).length = 3 * (face.length - 2) := by
  rw [fanTriangles]
  generalize face.length - 2 = n
  induction n with
  | zero => simp
  | succ n ih =>
    rw [List.range_succ, List.flatMap_append, List.length_append, ih]
    simp
    omega

theorem fanTriangles_mem (face : List Nat) (i : Nat) (hi : i ∈ fanTriangles face) :
    i ∈ face := by
  simp only [fanTriangles, List.mem_flatMap, List.mem_range, List.mem_cons,
    List.mem_singleton, List.not_mem_nil, or_false] at hi
  obtain ⟨j, hj, hi⟩ := hi
  have h0 : 0 < face.length := by omega
  have h1 : j + 1 < face.length := by omega
  have h2 : j + 2 < face.length := by omega
  rcases hi with hi | hi | hi <;> rw [hi, List.getD_eq_getElem _ _ (by assumption)] <;>
    exact List.getElem_mem _

theorem tracks_init : Tracks (LoaderState.init : LoaderState F) [] [] :=
  ⟨fun k => by simp [LoaderState.init], List.Forall₂.nil⟩

theorem forall₂_mono_remap {a b : LoaderState F} (h : Extends a b)
    {refs : List ObjVertexKey} {idxs : List Nat}
    (hf : List.Forall₂ (fun k i => (k, i) ∈ a.vertexRemap) refs idxs) :
    List.Forall₂ (fun k i => (k, i) ∈ b.vertexRemap) refs idxs := by
  obtain ⟨ext, he⟩ := h.remap
  refine hf.imp (fun k i hki => ?_)
  rw [he]
  exact List.mem_append_left _ hki

theorem remap_val_lt {st : LoaderState F} (h : WellFormed st) {k : ObjVertexKey} {i : Nat}
    (hm : (k, i) ∈ st.vertexRemap) : i < st.vertexRemap.length := by
  have h1 : i ∈ st.vertexRemap.map Prod.snd := List.mem_map_of_mem Prod.snd hm
  rw [h.vals] at h1
  exact List.mem_range.mp h1

theorem buildFace_spec (toks : List (List Char)) :
    ∀ (st : LoaderState F) (face : List Nat) (refs : List ObjVertexKey) (idxs : List Nat),
      WellFormed st → Tracks st refs idxs →
      ∃ newIdx, (buildFace st face toks).2 = face ++ newIdx ∧
        WellFormed (buildFace st face toks).1 ∧
        Extends st (buildFace st face toks).1 ∧
        Tracks (buildFace st face toks).1
          (refs ++ faceTriples st.positions.length st.texcoords.length st.normals.length toks)
          (idxs ++ newIdx) ∧
        ∀ i ∈ newIdx, i < (buildFace st face toks).1.vertexRemap.length := by
  induction toks with
  | nil =>
    intro st face refs idxs hw ht
    refine ⟨[], by simp [buildFace], hw, Extends.refl st, ?_, by simp⟩
    simpa [faceTriples, buildFace] using ht
  | cons tok toks ih =>
    intro st face refs idxs hw ht
    cases hp : ParseFaceToken tok with
    | none =>
      obtain ⟨newIdx, h1, h2, h3, h4, h5⟩ := ih st face refs idxs hw ht
      refine ⟨newIdx, ?_, ?_, ?_, ?_, ?_⟩ <;> simp only [buildFace, hp]
      · exact h1
      · exact h2
      · exact h3
      · simpa [faceTriples, hp] using h4
      · exact h5
    | some r =>
      obtain ⟨vi, vti, vni⟩ := r
      obtain ⟨gw, ge, gm, gk⟩ := goc_spec st hw vi vti vni
      have ht2 : Tracks (GetOrCreateVertexIndex st vi vti vni).1
          (refs ++ [keyIn st vi vti vni]) (idxs ++ [(GetOrCreateVertexIndex st vi vti vni).2]) := by
        refine ⟨fun k => ?_, ?_⟩
        · rw [gk k, ht.1 k]
          simp
        · exact List.rel_append (forall₂_mono_remap ge ht.2)
            (List.Forall₂.cons gm List.Forall₂.nil)
      obtain ⟨newIdx, h1, h2, h3, h4, h5⟩ :=
        ih (GetOrCreateVertexIndex st vi vti vni).1
          (face ++ [(GetOrCreateVertexIndex st vi vti vni).2]) _ _ gw ht2
      refine ⟨(GetOrCreateVertexIndex st vi vti vni).2 :: newIdx, ?_, ?_, ?_, ?_, ?_⟩ <;>
        simp only [buildFace, hp]
      · rw [h1]
        simp
      · exact h2
      · exact ge.trans h3
      · rw [ge.positions, ge.texcoords, ge.normals] at h4
        simpa [faceTriples, hp, keyIn] using h4
      · intro i hi
        rcases List.mem_cons.mp hi with hi | hi
        · obtain ⟨ext, he⟩ := h3.remap
          have := remap_val_lt gw gm
          rw [hi, he, List.length_append]
          omega
        · exact h5 i hi

theorem processFace_spec (st : LoaderState F) (rest : List Char)
    (refs : List ObjVertexKey) (idxs : List Nat) (hw : WellFormed st) (ht : Tracks st refs idxs) :
    WellFormed (processFace st rest) ∧
    Tracks (processFace st rest)
      (refs ++ faceTriples st.positions.length st.texcoords.length st.normals.length
        (faceTokens rest))
      (idxs ++ (buildFace st [] (faceTokens rest)).2) ∧
    (∃ ext, (processFace st rest).out.vertices = st.out.vertices ++ ext) ∧
    (∃ ext, (processFace st rest).vertexRemap = st.vertexRemap ++ ext) ∧
    (processFace st rest).positions = st.positions ∧
    (processFace st rest).texcoords = st.texcoords ∧
    (processFace st rest).normals = st.normals ∧
    (processFace st rest).out.indices =
      st.out.indices ++ fanTriangles (buildFace st [] (faceTokens rest)).2 := by
  obtain ⟨newIdx, h1, h2, h3, h4, h5⟩ := buildFace_spec (faceTokens rest) st [] refs idxs hw ht
  rw [List.nil_append] at h1
  rw [← h1] at h4 h5
  refine ⟨⟨h2.len, h2.vals, h2.nodup, ?_, ?_⟩, h4, h3.verts, h3.remap, h3.positions,
    h3.texcoords, h3.normals, ?_⟩
  · simp only [processFace, triangulateFan_one, List.length_append, fanTriangles_length]
    have := h2.idx3
    omega
  · intro i hi
    simp only [processFace, triangulateFan_one, List.mem_append] at hi
    rcases hi with hi | hi
    · exact h2.idxlt i hi
    · exact h5 i (fanTriangles_mem _ i hi)
  · simp only [processFace, triangulateFan_one, h3.indices]

theorem processLines_spec (rd : FloatReader F) (lines : List (List Char)) :
    ∀ (st : LoaderState F) (refs : List ObjVertexKey) (idxs : List Nat),
      WellFormed st → Tracks st refs idxs →
      WellFormed (processLines rd st lines) ∧
      Tracks (processLines rd st lines)
        (refs ++ referencedTriples st.positions.length st.texcoords.length st.normals.length
          lines)
        (idxs ++ returnedIndices rd st lines) ∧
      (∃ ext, (processLines rd st lines).out.vertices = st.out.vertices ++ ext) ∧
      (∃ ext, (processLines rd st lines).vertexRemap = st.vertexRemap ++ ext) := by
  induction lines with
  | nil =>
    intro st refs idxs hw ht
    refine ⟨hw, ?_, ⟨[], by simp [processLines]⟩, ⟨[], by simp [processLines]⟩⟩
    simpa [referencedTriples, returnedIndices, processLines] using ht
  | cons line rest ih =>
    intro st refs idxs hw ht
    have hstep : processLines rd st (line :: rest) =
        processLines rd (processLine rd st line) rest := rfl
    rw [hstep]
    simp only [referencedTriples, returnedIndices]
    by_cases hs : line = [] ∨ line.head? = some '#'
    · simp only [processLine, faceOfLine, if_pos hs, List.nil_append]
      exact ih st refs idxs hw ht
    · simp only [processLine, faceOfLine, if_neg hs]
      by_cases hv : (extractToken line).1 = "v".toList
      · simp only [if_pos hv, List.nil_append]
        have := ih { st with positions := st.positions ++ [rd.readVec3 (extractToken line).2] }
          refs idxs ⟨hw.len, hw.vals, hw.nodup, hw.idx3, hw.idxlt⟩ ht
        simpa using this
      · simp only [if_neg hv]
        by_cases hvt : (extractToken line).1 = "vt".toList
        · simp only [if_pos hvt, List.nil_append]
          have := ih { st with texcoords := st.texcoords ++ [rd.readVec2 (extractToken line).2] }
            refs idxs ⟨hw.len, hw.vals, hw.nodup, hw.idx3, hw.idxlt⟩ ht
          simpa using this
        · simp only [if_neg hvt]
          by_cases hvn : (extractToken line).1 = "vn".toList
          · simp only [if_pos hvn, List.nil_append]
            have := ih { st with normals := st.normals ++ [rd.readVec3 (extractToken line).2] }
              refs idxs ⟨hw.len, hw.vals, hw.nodup, hw.idx3, hw.idxlt⟩ ht
            simpa using this
          · simp only [if_neg hvn]
            by_cases hf : (extractToken line).1 = "f".toList
            · simp only [if_pos hf]
              obtain ⟨p1, p2, ⟨v1, hv1⟩, ⟨r1, hr1⟩, p5, p6, p7, _⟩ :=
                processFace_spec st (extractToken line).2 refs idxs hw ht
              obtain ⟨q1, q2, ⟨v2, hv2⟩, ⟨r2, hr2⟩⟩ := ih (processFace st (extractToken line).2) _ _ p1 p2
              rw [p5, p6, p7] at q2
              refine ⟨q1, ?_, ⟨v1 ++ v2, ?_⟩, ⟨r1 ++ r2, ?_⟩⟩
              · simpa [List.append_assoc] using q2
              · rw [hv2, hv1, List.append_assoc]
              · rw [hr2, hr1, List.append_assoc]
            · simp only [if_neg hf, List.nil_append]
              exact ih st refs idxs hw ht

theorem loadOBJ_eq_loadLines (rd : FloatReader F) (file : Option (List Char)) :
    LoadOBJ rd file = LoadLines rd (fileLines file) := by
  cases file <;> rfl

theorem loadLines_spec (rd : FloatReader F) (lines : List (List Char)) :
    WellFormed (processLines rd LoaderState.init lines) ∧
    Tracks (processLines rd (LoaderState.init : LoaderState F) lines)
      (referencedTriples 0 0 0 lines) (returnedIndices rd LoaderState.init lines) := by
  obtain ⟨h1, h2, _, _⟩ :=
    processLines_spec rd lines LoaderState.init [] [] wellFormed_init tracks_init
  exact ⟨h1, by simpa [LoaderState.init] using h2⟩

theorem goc_indices (st : LoaderState F) (vi vti vni : Int) :
    (GetOrCreateVertexIndex st vi vti vni).1.out.indices = st.out.indices := by
  cases hf : remapFind st.vertexRemap (keyIn st vi vti vni) with
  | some idx => rw [goc_found st vi vti vni idx hf]
  | none =>
    obtain ⟨p, uv, n, he⟩ := goc_fresh st vi vti vni hf
    rw [he]

theorem buildFace_indices (toks : List (List Char)) :
    ∀ (st : LoaderState F) (face : List Nat),
      (buildFace st face toks).1.out.indices = st.out.indices ∧
      (buildFace st face toks).2.length =
        face.length + (toks.filterMap ParseFaceToken).length := by
  induction toks with
  | nil => intro st face; simp [buildFace]
  | cons tok toks ih =>
    intro st face
    cases hp : ParseFaceToken tok with
    | none =>
      simp only [buildFace, hp, List.filterMap_cons]
      exact ih st face
    | some r =>
      obtain ⟨vi, vti, vni⟩ := r
      simp only [buildFace, hp, List.filterMap_cons]
      obtain ⟨h1, h2⟩ := ih (GetOrCreateVertexIndex st vi vti vni).1
        (face ++ [(GetOrCreateVertexIndex st vi vti vni).2])
      rw [h1, h2, goc_indices]
      simp
      omega

theorem goc_extends (st : LoaderState F) (vi vti vni : Int) :
    Extends st (GetOrCreateVertexIndex st vi vti vni).1 := by
  cases hf : remapFind st.vertexRemap (keyIn st vi vti vni) with
  | some idx =>
    rw [goc_found st vi vti vni idx hf]
    exact Extends.refl st
  | none =>
    rw [goc_fresh_eq st vi vti vni hf]
    exact ⟨⟨_, rfl⟩, ⟨_, rfl⟩, rfl, rfl, rfl, rfl⟩

theorem buildFace_extends (toks : List (List Char)) :
    ∀ (st : LoaderState F) (face : List Nat),
      Extends st (buildFace st face toks).1 ∧
      ∃ newIdx, (buildFace st face toks).2 = face ++ newIdx := by
  induction toks with
  | nil => intro st face; exact ⟨Extends.refl st, [], by simp [buildFace]⟩
  | cons tok toks ih =>
    intro st face
    cases hp : ParseFaceToken tok with
    | none =>
      simp only [buildFace, hp]
      exact ih st face
    | some r =>
      obtain ⟨vi, vti, vni⟩ := r
      simp only [buildFace, hp]
      obtain ⟨h1, newIdx, h2⟩ := ih (GetOrCreateVertexIndex st vi vti vni).1
        (face ++ [(GetOrCreateVertexIndex st vi vti vni).2])
      exact ⟨(goc_extends st vi vti vni).trans h1,
        (GetOrCreateVertexIndex st vi vti vni).2 :: newIdx, by rw [h2]; simp⟩

theorem processLines_positions (rd : FloatReader F) (lines : List (List Char)) :
    ∀ st : LoaderState F,
      (processLines rd st lines).positions = st.positions ++ declaredPositions rd lines := by
  induction lines with
  | nil => intro st; simp [processLines, declaredPositions]
  | cons line rest ih =>
    intro st
    have hstep : processLines rd st (line :: rest) =
        processLines rd (processLine rd st line) rest := rfl
    rw [hstep, ih]
    simp only [declaredPositions]
    by_cases hs : line = [] ∨ line.head? = some '#'
    · simp only [processLine, if_pos hs]
    · simp only [processLine, if_neg hs]
      by_cases hv : (extractToken line).1 = "v".toList
      · simp only [if_pos hv, List.append_assoc, List.singleton_append]
      · have hvt : "vt".toList ≠ "v".toList := by decide
        have hvn : "vn".toList ≠ "v".toList := by decide
        simp only [if_neg hv]
        split_ifs with h1 h2 h3
        · rfl
        · rfl
        · exact congrArg (· ++ declaredPositions rd rest)
            (buildFace_extends _ st []).1.positions
        · rfl

theorem processLines_texcoords (rd : FloatReader F) (lines : List (List Char)) :
    ∀ st : LoaderState F,
      (processLines rd st lines).texcoords = st.texcoords ++ declaredTexcoords rd lines := by
  induction lines with
  | nil => intro st; simp [processLines, declaredTexcoords]
  | cons line rest ih =>
    intro st
    have hstep : processLines rd st (line :: rest) =
        processLines rd (processLine rd st line) rest := rfl
    rw [hstep, ih]
    simp only [declaredTexcoords]
    by_cases hs : line = [] ∨ line.head? = some '#'
    · simp only [processLine, if_pos hs]
    · simp only [processLine, if_neg hs]
      by_cases hv : (extractToken line).1 = "v".toList
      · have hne : ¬ (extractToken line).1 = "vt".toList := by
          rw [hv]
          decide
        simp only [if_pos hv, if_neg hne]
      · simp only [if_neg hv]
        by_cases hvt : (extractToken line).1 = "vt".toList
        · simp only [if_pos hvt, List.append_assoc, List.singleton_append]
        · simp only [if_neg hvt]
          split_ifs with h2 h3
          · rfl
          · exact congrArg (· ++ declaredTexcoords rd rest)
              (buildFace_extends _ st []).1.texcoords
          · rfl

theorem processLines_normals (rd : FloatReader F) (lines : List (List Char)) :
    ∀ st : LoaderState F,
      (processLines rd st lines).normals = st.normals ++ declaredNormals rd lines := by
  induction lines with
  | nil => intro st; simp [processLines, declaredNormals]
  | cons line rest ih =>
    intro st
    have hstep : processLines rd st (line :: rest) =
        processLines rd (processLine rd st line) rest := rfl
    rw [hstep, ih]
    simp only [declaredNormals]
    by_cases hs : line = [] ∨ line.head? = some '#'
    · simp only [processLine, if_pos hs]
    · simp only [processLine, if_neg hs]
      by_cases hv : (extractToken line).1 = "v".toList
      · have hne : ¬ (extractToken line).1 = "vn".toList := by
          rw [hv]
          decide
        simp only [if_pos hv, if_neg hne]
      · simp only [if_neg hv]
        by_cases hvt : (extractToken line).1 = "vt".toList
        · have hne : ¬ (extractToken line).1 = "vn".toList := by
            rw [hvt]
            decide
          simp only [if_pos hvt, if_neg hne]
        · simp only [if_neg hvt]
          by_cases hvn : (extractToken line).1 = "vn".toList
          · simp only [if_pos hvn, List.append_assoc, List.singleton_append]
          · simp only [if_neg hvn]
            split_ifs with h3
            · exact congrArg (· ++ declaredNormals rd rest)
                (buildFace_extends _ st []).1.normals
            · rfl

/-- The token loop of a face record never runs out of fuel: any two bounds above the
length of the text give the same tokens. -/
theorem streamTokens_fuel (fuel : Nat) :
    ∀ (s : List Char) (fuel' : Nat), s.length < fuel → s.length < fuel' →
      streamTokens fuel s = streamTokens fuel' s := by
  induction fuel with
  | zero => intro s fuel' h; omega
  | succ fuel ih =>
    intro s fuel' h h'
    cases fuel' with
    | zero => omega
    | succ fuel' =>
      have hlen : (extractToken s).1.length + (extractToken s).2.length ≤ s.length := by
        rw [extractToken, List.span_eq_take_drop, ← List.length_append,
          List.takeWhile_append_dropWhile]
        exact (List.dropWhile_sublist _).length_le
      cases ht : extractToken s with
      | mk tok rest =>
        rw [ht] at hlen
        cases tok with
        | nil => simp [streamTokens, ht]
        | cons c tok =>
          simp only [List.length_cons] at hlen
          simp only [streamTokens, ht]
          rw [ih rest fuel' (by omega) (by omega)]

end LoaderInvariant

section LoaderClaims

variable {F : Type} [Zero F] [One F]

/-- C1: the number of vertices `LoadOBJ` emits (`vertices.size()/11`) is the number of
distinct resolved (position, texcoord, normal) triples referenced by the face records,
and two references get the same output index exactly when they resolve to the same
triple, so a repeated triple reuses the index emitted for it the first time. -/
theorem loadOBJ_vertex_count_eq_distinct_triples (rd : FloatReader F)
    (file : Option (List Char)) :
    (LoadOBJ rd file).vertices.length / kVertexStrideFloats =
      (referencedTriples 0 0 0 (fileLines file)).toFinset.card ∧
    (returnedIndices rd LoaderState.init (fileLines file)).length =
      (referencedTriples 0 0 0 (fileLines file)).length ∧
    ∀ i j, i < (referencedTriples 0 0 0 (fileLines file)).length →
      j < (referencedTriples 0 0 0 (fileLines file)).length →
      ((referencedTriples 0 0 0 (fileLines file))[i]? =
          (referencedTriples 0 0 0 (fileLines file))[j]? ↔
        (returnedIndices rd LoaderState.init (fileLines file))[i]? =
          (returnedIndices rd LoaderState.init (fileLines file))[j]?) := by
  rw [loadOBJ_eq_loadLines]
  obtain ⟨hw, hk, hf⟩ := loadLines_spec rd (fileLines file)
  generalize referencedTriples 0 0 0 (fileLines file) = refs at hk hf ⊢
  generalize returnedIndices rd LoaderState.init (fileLines file) = idxs at hf ⊢
  have hlen := hf.length_eq
  refine ⟨?_, hlen.symm, ?_⟩
  · have h1 : (List.map Prod.fst (processLines rd LoaderState.init (fileLines file)).vertexRemap).toFinset
        = refs.toFinset := by
      ext k
      simp only [List.mem_toFinset]
      exact hk k
    rw [← h1, List.toFinset_card_of_nodup hw.nodup, List.length_map, LoadLines, hw.len,
      kVertexStrideFloats]
    exact Nat.mul_div_cancel_left _ (by norm_num)
  · intro i j hi hj
    have hi2 : i < idxs.length := hlen ▸ hi
    have hj2 : j < idxs.length := hlen ▸ hj
    have mi := (List.forall₂_iff_get.mp hf).2 i hi hi2
    have mj := (List.forall₂_iff_get.mp hf).2 j hj hj2
    simp only [List.get_eq_getElem] at mi mj
    rw [List.getElem?_eq_getElem hi, List.getElem?_eq_getElem hj,
      List.getElem?_eq_getElem hi2, List.getElem?_eq_getElem hj2]
    simp only [Option.some.injEq]
    constructor
    · intro h
      have := List.inj_on_of_nodup_map hw.nodup mi mj h
      exact congrArg Prod.snd this
    · intro h
      have hv : (List.map Prod.snd
          (processLines rd LoaderState.init (fileLines file)).vertexRemap).Nodup := by
        rw [hw.vals]
        exact List.nodup_range _
      have := List.inj_on_of_nodup_map hv mi mj h
      exact congrArg Prod.fst this

/-- C2: a face record whose `face` vector has `k` entries (one per well-formed vertex
reference) appends to the index buffer exactly the triangles
`(f[0], f[i], f[i+1])`, `i = 1 .. k-2`, that is `3 (k-2)` indices, each triangle
starting with the first referenced vertex; with fewer than 3 references nothing is
appended. -/
theorem face_record_fan_triangulation (rd : FloatReader F) (st : LoaderState F)
    (line : List Char) (hline : isFaceLine line = true) :
    (faceOfLine st line).length =
      ((faceTokens (extractToken line).2).filterMap ParseFaceToken).length ∧
    (processLine rd st line).out.indices =
      st.out.indices ++ (List.range ((faceOfLine st line).length - 2)).flatMap
        (fun j => [(faceOfLine st line).getD 0 0, (faceOfLine st line).getD (j + 1) 0,
          (faceOfLine st line).getD (j + 2) 0]) ∧
    (processLine rd st line).out.indices.length =
      st.out.indices.length + 3 * ((faceOfLine st line).length - 2) ∧
    ((faceOfLine st line).length < 3 →
      (processLine rd st line).out.indices = st.out.indices) := by
  simp only [isFaceLine, Bool.and_eq_true, Bool.not_eq_true', Bool.or_eq_false_iff,
    decide_eq_false_iff_not, decide_eq_true_eq] at hline
  obtain ⟨⟨hne, hc⟩, hf⟩ := hline
  have hs : ¬ (line = [] ∨ line.head? = some '#') := fun h => h.elim hne hc
  have hface : faceOfLine st line = (buildFace st [] (faceTokens (extractToken line).2)).2 := by
    simp [faceOfLine, hs, hf]
  have hproc : processLine rd st line = processFace st (extractToken line).2 := by
    simp [processLine, hs, hf]
  have hidx : (processLine rd st line).out.indices =
      st.out.indices ++ fanTriangles (faceOfLine st line) := by
    rw [hproc, hface]
    simp only [processFace, triangulateFan_one]
    rw [(buildFace_indices _ st []).1]
  refine ⟨?_, hidx, ?_, ?_⟩
  · rw [hface, (buildFace_indices _ st []).2]
    simp
  · rw [hidx, List.length_append, fanTriangles_length]
  · intro hk
    rw [hidx, fanTriangles, show (faceOfLine st line).length - 2 = 0 by omega]
    simp

/-- Witness for C2: the quad `f 1 2 3 4` on the empty state. -/
theorem face_record_fan_triangulation_witness :
    isFaceLine "f 1 2 3 4".toList = true ∧
    (processLine (F := Int) ⟨fun _ => ⟨0, 0, 0⟩, fun _ => ⟨0, 0⟩⟩ LoaderState.init
      "f 1 2 3 4".toList).out.indices = [0, 1, 2, 0, 2, 3] := by
  have h := face_record_fan_triangulation (F := Int) ⟨fun _ => ⟨0, 0, 0⟩, fun _ => ⟨0, 0⟩⟩
    LoaderState.init "f 1 2 3 4".toList (by decide)
  exact ⟨by decide, h.2.1.trans (by decide)⟩

/-- C4: for every input, the mesh returned by `LoadOBJ` has a scalar count that is a
multiple of 11, an index count that is a multiple of 3, and every index below the
vertex count `vertices.size()/11`. -/
theorem loadOBJ_mesh_invariant (rd : FloatReader F) (file : Option (List Char)) :
    (LoadOBJ rd file).vertices.length % kVertexStrideFloats = 0 ∧
    (LoadOBJ rd file).indices.length % 3 = 0 ∧
    ∀ i ∈ (LoadOBJ rd file).indices,
      i < (LoadOBJ rd file).vertices.length / kVertexStrideFloats := by
  rw [loadOBJ_eq_loadLines]
  obtain ⟨hw, _⟩ := loadLines_spec rd (fileLines file)
  simp only [LoadLines, kVertexStrideFloats]
  refine ⟨by rw [hw.len]; exact Nat.mul_mod_right _ _, hw.idx3, fun i hi => ?_⟩
  rw [hw.len, Nat.mul_div_cancel_left _ (by norm_num)]
  exact hw.idxlt i hi

end LoaderClaims

end ObjectLoader

namespace Picker

open Glm

section RayBoxLemmas

variable {K : Type} [LinearOrderedField K]

theorem glmMin_eq (x y : K) : glmMin x y = min x y := by
  simp only [glmMin, min_def]
  split_ifs <;> linarith

theorem glmMax_eq (x y : K) : glmMax x y = max x y := by
  simp only [glmMax, max_def]
  split_ifs <;> linarith

theorem stdMax3_eq (a b c : K) : stdMax3 a b c = max (max a b) c := by
  simp only [stdMax3, max_def]
  split_ifs <;> linarith

theorem stdMin3_eq (a b c : K) : stdMin3 a b c = min (min a b) c := by
  simp only [stdMin3, min_def]
  split_ifs <;> linarith

/-- On one axis with a non-zero direction component and a non-negative half-extent,
the ray parameter `t` puts the point in the slab exactly when it lies between the
per-axis entry and exit parameters. -/
theorem axis_slab_iff (o d c h t : K) (hd : d ≠ 0) (hh : 0 ≤ h) :
    (c - h ≤ o + t * d ∧ o + t * d ≤ c + h) ↔
      (min (tNear o d c h) (tFar o d c h) ≤ t ∧ t ≤ max (tNear o d c h) (tFar o d c h)) := by
  simp only [tNear, tFar, mul_one_div]
  rcases lt_or_gt_of_ne hd with hneg | hpos
  · have h1 : (c + h - o) / d ≤ (c - h - o) / d :=
      div_le_div_of_nonpos_of_le hneg.le (by linarith)
    rw [min_eq_right h1, max_eq_left h1, div_le_iff_of_neg hneg, le_div_iff_of_neg hneg]
    constructor <;> rintro ⟨a, b⟩ <;> constructor <;> linarith
  · have h1 : (c - h - o) / d ≤ (c + h - o) / d :=
      div_le_div_of_nonneg_right (by linarith) hpos.le
    rw [min_eq_left h1, max_eq_right h1, div_le_iff₀ hpos, le_div_iff₀ hpos]
    constructor <;> rintro ⟨a, b⟩ <;> constructor <;> linarith

/-- Strict form of `axis_slab_iff` at `t = 0`: the origin is strictly inside the slab
exactly when the per-axis entry parameter is negative and the exit parameter positive. -/
theorem axis_interior_iff (o d c h : K) (hd : d ≠ 0) (hh : 0 ≤ h) :
    (c - h < o ∧ o < c + h) ↔
      (min (tNear o d c h) (tFar o d c h) < 0 ∧ 0 < max (tNear o d c h) (tFar o d c h)) := by
  simp only [tNear, tFar, mul_one_div]
  rcases lt_or_gt_of_ne hd with hneg | hpos
  · have h1 : (c + h - o) / d ≤ (c - h - o) / d :=
      div_le_div_of_nonpos_of_le hneg.le (by linarith)
    rw [min_eq_right h1, max_eq_left h1, div_lt_iff_of_neg hneg, lt_div_iff_of_neg hneg]
    constructor <;> rintro ⟨a, b⟩ <;> constructor <;> linarith
  · have h1 : (c - h - o) / d ≤ (c + h - o) / d :=
      div_le_div_of_nonneg_right (by linarith) hpos.le
    rw [min_eq_left h1, max_eq_right h1, div_lt_iff₀ hpos, lt_div_iff₀ hpos]
    constructor <;> rintro ⟨a, b⟩ <;> constructor <;> linarith

theorem entryDistance_eq (o d c h : Vec3 K) :
    entryDistance o d c h =
      max (max (min (tNear o.x d.x c.x h.x) (tFar o.x d.x c.x h.x))
        (min (tNear o.y d.y c.y h.y) (tFar o.y d.y c.y h.y)))
        (min (tNear o.z d.z c.z h.z) (tFar o.z d.z c.z h.z)) := by
  simp only [entryDistance, stdMax3_eq, glmMin_eq]

theorem exitDistance_eq (o d c h : Vec3 K) :
    exitDistance o d c h =
      min (min (max (tNear o.x d.x c.x h.x) (tFar o.x d.x c.x h.x))
        (max (tNear o.y d.y c.y h.y) (tFar o.y d.y c.y h.y)))
        (max (tNear o.z d.z c.z h.z) (tFar o.z d.z c.z h.z)) := by
  simp only [exitDistance, stdMin3_eq, glmMax_eq]

/-- The point at parameter `t` is in the closed box exactly when `t` lies between the
entry and the exit distance. -/
theorem inBox_pointAt_iff (o d c h : Vec3 K) (t : K)
    (hdx : d.x ≠ 0) (hdy : d.y ≠ 0) (hdz : d.z ≠ 0)
    (hhx : 0 ≤ h.x) (hhy : 0 ≤ h.y) (hhz : 0 ≤ h.z) :
    InBox c h (pointAt o d t) ↔ entryDistance o d c h ≤ t ∧ t ≤ exitDistance o d c h := by
  simp only [InBox, pointAt, entryDistance_eq, exitDistance_eq, max_le_iff, le_min_iff,
    axis_slab_iff _ _ _ _ t hdx hhx, axis_slab_iff _ _ _ _ t hdy hhy,
    axis_slab_iff _ _ _ _ t hdz hhz]
  tauto

theorem pointAt_zero (o d : Vec3 K) : pointAt o d 0 = o := by
  simp [pointAt]

theorem inInterior_iff (o d c h : Vec3 K)
    (hdx : d.x ≠ 0) (hdy : d.y ≠ 0) (hdz : d.z ≠ 0)
    (hhx : 0 ≤ h.x) (hhy : 0 ≤ h.y) (hhz : 0 ≤ h.z) :
    InInterior c h o ↔ entryDistance o d c h < 0 ∧ 0 < exitDistance o d c h := by
  simp only [InInterior, entryDistance_eq, exitDistance_eq, max_lt_iff, lt_min_iff,
    axis_interior_iff _ _ _ _ hdx hhx, axis_interior_iff _ _ _ _ hdy hhy,
    axis_interior_iff _ _ _ _ hdz hhz]
  tauto

theorem rayAABB_flag_iff (o d c h : Vec3 K) (hit0 : K) :
    (RayAABB o d c h hit0).1 = true ↔
      0 ≤ exitDistance o d c h ∧ entryDistance o d c h ≤ exitDistance o d c h := by
  by_cases hc : exitDistance o d c h < 0 ∨ entryDistance o d c h > exitDistance o d c h
  · simp only [RayAABB, if_pos hc, Bool.false_eq_true, false_iff, not_and, not_le]
    intro h0
    rcases hc with hc | hc
    · exact absurd h0 (not_le.mpr hc)
    · exact hc
  · simp only [RayAABB, if_neg hc, true_iff]
    rw [not_or, not_lt, not_lt] at hc
    exact hc

theorem rayAABB_distance (o d c h : Vec3 K) (hit0 : K)
    (hhit : (RayAABB o d c h hit0).1 = true) :
    (RayAABB o d c h hit0).2 =
      if entryDistance o d c h ≥ 0 then entryDistance o d c h else exitDistance o d c h := by
  have hf := (rayAABB_flag_iff o d c h hit0).mp hhit
  unfold RayAABB
  rw [if_neg]
  rw [not_or, not_lt, not_lt]
  exact hf

end RayBoxLemmas

section RayBoxClaims

variable {K : Type} [LinearOrderedField K]

/-- C5: for a ray whose direction has no zero component and a box with non-negative
half-extents, in exact arithmetic, `RayAABB` returns true exactly when some point
`rayOrigin + t * rayDirection` with `t ≥ 0` lies in the closed box; equivalently
exactly when `exitDistance ≥ 0` and `entryDistance ≤ exitDistance`, where
`entryDistance` is the maximum over the axes of the per-axis entry parameter and
`exitDistance` the minimum over the axes of the per-axis exit parameter. -/
theorem rayAABB_true_iff_ray_meets_box (o d c h : Vec3 K) (hit0 : K)
    (hdx : d.x ≠ 0) (hdy : d.y ≠ 0) (hdz : d.z ≠ 0)
    (hhx : 0 ≤ h.x) (hhy : 0 ≤ h.y) (hhz : 0 ≤ h.z) :
    ((RayAABB o d c h hit0).1 = true ↔ ∃ t, 0 ≤ t ∧ InBox c h (pointAt o d t)) ∧
    ((RayAABB o d c h hit0).1 = true ↔
      0 ≤ exitDistance o d c h ∧ entryDistance o d c h ≤ exitDistance o d c h) ∧
    entryDistance o d c h =
      max (max (min (tNear o.x d.x c.x h.x) (tFar o.x d.x c.x h.x))
        (min (tNear o.y d.y c.y h.y) (tFar o.y d.y c.y h.y)))
        (min (tNear o.z d.z c.z h.z) (tFar o.z d.z c.z h.z)) ∧
    exitDistance o d c h =
      min (min (max (tNear o.x d.x c.x h.x) (tFar o.x d.x c.x h.x))
        (max (tNear o.y d.y c.y h.y) (tFar o.y d.y c.y h.y)))
        (max (tNear o.z d.z c.z h.z) (tFar o.z d.z c.z h.z)) := by
  refine ⟨?_, rayAABB_flag_iff o d c h hit0, entryDistance_eq o d c h, exitDistance_eq o d c h⟩
  rw [rayAABB_flag_iff]
  constructor
  · rintro ⟨h0, h1⟩
    refine ⟨max (entryDistance o d c h) 0, le_max_right _ _, ?_⟩
    rw [inBox_pointAt_iff o d c h _ hdx hdy hdz hhx hhy hhz]
    exact ⟨le_max_left _ _, max_le h1 h0⟩
  · rintro ⟨t, ht0, hbox⟩
    rw [inBox_pointAt_iff o d c h _ hdx hdy hdz hhx hhy hhz] at hbox
    exact ⟨ht0.trans hbox.2, hbox.1.trans hbox.2⟩

/-- Witness for C5: a ray from `(-3, 0, 0)` along `(1, 1/10, 1/10)` against the unit
box at the origin. -/
theorem rayAABB_true_iff_ray_meets_box_witness :
    (RayAABB (K := ℚ) ⟨-3, 0, 0⟩ ⟨1, 1 / 10, 1 / 10⟩ ⟨0, 0, 0⟩ ⟨1, 1, 1⟩ 0).1 = true ↔
      ∃ t : ℚ, 0 ≤ t ∧ InBox (⟨0, 0, 0⟩ : Vec3 ℚ) ⟨1, 1, 1⟩
        (pointAt ⟨-3, 0, 0⟩ ⟨1, 1 / 10, 1 / 10⟩ t) :=
  (rayAABB_true_iff_ray_meets_box (K := ℚ) ⟨-3, 0, 0⟩ ⟨1, 1 / 10, 1 / 10⟩ ⟨0, 0, 0⟩
    ⟨1, 1, 1⟩ 0 (by norm_num) (by norm_num) (by norm_num) (by norm_num) (by norm_num)
    (by norm_num)).1

/-- C6: when `RayAABB` reports a hit (direction components non-zero, half-extents
non-negative): with the ray origin outside the closed box the reported distance is
the entry distance, with the origin strictly inside the box it is the exit distance;
with the origin on the surface of the box it is 0.  In every case it is the entry
distance if that is non-negative and the exit distance otherwise. -/
theorem rayAABB_hit_distance (o d c h : Vec3 K) (hit0 : K)
    (hdx : d.x ≠ 0) (hdy : d.y ≠ 0) (hdz : d.z ≠ 0)
    (hhx : 0 ≤ h.x) (hhy : 0 ≤ h.y) (hhz : 0 ≤ h.z)
    (hhit : (RayAABB o d c h hit0).1 = true) :
    (¬ InBox c h o → (RayAABB o d c h hit0).2 = entryDistance o d c h) ∧
    (InInterior c h o → (RayAABB o d c h hit0).2 = exitDistance o d c h) ∧
    (InBox c h o → ¬ InInterior c h o → (RayAABB o d c h hit0).2 = 0) ∧
    (RayAABB o d c h hit0).2 =
      (if entryDistance o d c h ≥ 0 then entryDistance o d c h else exitDistance o d c h) := by
  have hf := (rayAABB_flag_iff o d c h hit0).mp hhit
  have hbox := inBox_pointAt_iff o d c h 0 hdx hdy hdz hhx hhy hhz
  rw [pointAt_zero] at hbox
  have hint := inInterior_iff o d c h hdx hdy hdz hhx hhy hhz
  rw [rayAABB_distance o d c h hit0 hhit]
  refine ⟨fun hout => ?_, fun hin => ?_, fun hin hnot => ?_, rfl⟩
  · rw [hbox, not_and_or, not_le, not_le] at hout
    rcases hout with h1 | h1
    · rw [if_pos h1.le]
    · exact absurd hf.1 (not_le.mpr h1)
  · rw [if_neg (not_le.mpr (hint.mp hin).1)]
  · rw [hbox] at hin
    rw [hint, not_and_or, not_lt, not_lt] at hnot
    split_ifs with h1
    · exact le_antisymm hin.1 h1
    · rcases hnot with h2 | h2
      · exact absurd h2 h1
      · exact le_antisymm h2 hin.2

/-- Witness for C6: the ray of the C5 witness enters the unit box at distance 2. -/
theorem rayAABB_hit_distance_witness :
    (RayAABB (K := ℚ) ⟨-3, 0, 0⟩ ⟨1, 1 / 10, 1 / 10⟩ ⟨0, 0, 0⟩ ⟨1, 1, 1⟩ 0).1 = true ∧
    ¬ InBox (⟨0, 0, 0⟩ : Vec3 ℚ) ⟨1, 1, 1⟩ ⟨-3, 0, 0⟩ ∧
    (RayAABB (K := ℚ) ⟨-3, 0, 0⟩ ⟨1, 1 / 10, 1 / 10⟩ ⟨0, 0, 0⟩ ⟨1, 1, 1⟩ 0).2 =
      entryDistance ⟨-3, 0, 0⟩ ⟨1, 1 / 10, 1 / 10⟩ ⟨0, 0, 0⟩ ⟨1, 1, 1⟩ := by
  have hhit : (RayAABB (K := ℚ) ⟨-3, 0, 0⟩ ⟨1, 1 / 10, 1 / 10⟩ ⟨0, 0, 0⟩ ⟨1, 1, 1⟩ 0).1 = true := by
    norm_num [RayAABB, exitDistance, entryDistance, stdMax3, stdMin3, glmMin, glmMax, tNear,
      tFar]
  have hout : ¬ InBox (⟨0, 0, 0⟩ : Vec3 ℚ) ⟨1, 1, 1⟩ ⟨-3, 0, 0⟩ := by norm_num [InBox]
  exact ⟨hhit, hout,
    (rayAABB_hit_distance (K := ℚ) ⟨-3, 0, 0⟩ ⟨1, 1 / 10, 1 / 10⟩ ⟨0, 0, 0⟩ ⟨1, 1, 1⟩ 0
      (by norm_num) (by norm_num) (by norm_num) (by norm_num) (by norm_num) (by norm_num)
      hhit).1 hout⟩

end RayBoxClaims

end Picker

namespace MeshSystem

open Glm

section RegistryLemmas

variable {F : Type} [Field F] [DecidableEq F]

theorem mapFind_append_fresh {κ ν : Type} [DecidableEq κ] (m : List (κ × ν)) (k : κ) (v : ν)
    (h : mapContains m k = false) : mapFind (m ++ [(k, v)]) k = some v := by
  induction m with
  | nil => simp [mapFind]
  | cons e m ih =>
    by_cases he : e.1 = k
    · simp [mapContains, mapFind, List.find?, he] at h
    · simp only [mapContains, mapFind, List.find?, he, decide_False, List.cons_append] at h ih ⊢
      exact ih h

theorem mapFind_mapAssign {κ ν : Type} [DecidableEq κ] (m : List (κ × ν)) (k : κ) (v : ν) :
    mapFind (mapAssign m k v) k = some v := by
  induction m with
  | nil => simp [mapFind, mapAssign]
  | cons e m ih =>
    by_cases he : e.1 = k
    · simp [mapFind, mapAssign, he]
    · simp only [mapAssign, he, if_false]
      simp only [mapFind, List.find?, he, decide_False] at ih ⊢
      exact ih

theorem addMesh_registered (s : MeshSystem F) (id : String) (d : CpuMeshData F)
    (h : mapContains s.meshById id = true) : AddMesh s id d = s := by
  simp [AddMesh, h]

theorem addMesh_fresh (s : MeshSystem F) (id : String) (d : CpuMeshData F)
    (h : mapContains s.meshById id = false) :
    AddMesh s id d =
      { s with
        meshes := s.meshes ++ [⟨d.vertices, d.indices, toGLsizei d.indices.length⟩]
        meshById := s.meshById ++ [(id, s.meshes.length)] } := by
  simp [AddMesh, mapEmplace, h]

theorem addTexture_registered (s : MeshSystem F) (id path : String) (format : Nat)
    (h : mapContains s.textureById id = true) : AddTexture s id path format = s := by
  simp [AddTexture, h]

theorem addTexture_fresh (s : MeshSystem F) (id path : String) (format : Nat)
    (h : mapContains s.textureById id = false) :
    AddTexture s id path format =
      { s with
        textures := s.textures ++ [⟨path, format⟩]
        textureById := s.textureById ++ [(id, s.textures.length)] } := by
  simp [AddTexture, mapEmplace, h]

theorem drawCounts_append (a b : List (GlCall F)) :
    drawCounts (a ++ b) = drawCounts a ++ drawCounts b := by
  simp [drawCounts]

theorem drawCounts_getShaderUniforms (env : GlEnv) (cache : List (Nat × ShaderUniforms))
    (sh : Nat) : drawCounts (GetShaderUniforms (F := F) env cache sh).2.2 = [] := by
  cases h : mapFind cache (env.programOf sh) <;>
    simp only [GetShaderUniforms, h] <;> rfl

theorem renderObject_drawCounts (env : GlEnv) (fm : FloatMath F) (s : MeshSystem F)
    (camPos : Vec3 F) (t : F) (st : RenderLoop F) (o : SceneObject F) :
    drawCounts (renderObject env fm s camPos t st o).calls =
      drawCounts st.calls ++ (drawOf s o).toList := by
  unfold renderObject drawOf
  cases hm : mapFind s.meshById o.meshId with
  | none => simp
  | some mi =>
    cases hs : mapFind s.shaderById o.shaderId with
    | none => simp
    | some sp =>
      cases sp with
      | none => simp
      | some sh =>
        have hdraw : drawCounts (match s.meshes[mi]? with
            | some m => [GlCall.bindVertexArray mi, GlCall.drawElements m.indexCount]
            | none => ([] : List (GlCall F))) =
            (Option.map (fun m => m.indexCount) s.meshes[mi]?).toList := by
          cases s.meshes[mi]? <;> simp [drawCounts]
        have htex : ∀ u : ShaderUniforms, drawCounts (if u.tex0 ≠ -1 then
            match mapFind s.textureById o.textureId with
            | some ti => [GlCall.activeTexture0, GlCall.bindTexture ti]
            | none => ([] : List (GlCall F)) else []) = [] := by
          intro u
          split_ifs
          · cases mapFind s.textureById o.textureId <;> simp [drawCounts]
          · simp [drawCounts]
        simp only [drawCounts_append, hdraw, htex]
        by_cases hcur : some sh ≠ st.current
        · simp only [if_pos hcur, drawCounts_append, drawCounts_getShaderUniforms]
          simp only [drawCounts, apply_ite (List.filterMap _)]
          simp
        · simp only [if_neg hcur]
          simp only [drawCounts, apply_ite (List.filterMap _)]
          simp

theorem foldl_renderObject_drawCounts (env : GlEnv) (fm : FloatMath F) (s : MeshSystem F)
    (camPos : Vec3 F) (t : F) (objs : List (SceneObject F)) :
    ∀ st : RenderLoop F,
      drawCounts (objs.foldl (renderObject env fm s camPos t) st).calls =
        drawCounts st.calls ++ objs.filterMap (drawOf s) := by
  induction objs with
  | nil => intro st; simp
  | cons o objs ih =>
    intro st
    rw [List.foldl_cons, ih, renderObject_drawCounts, List.append_assoc, List.filterMap_cons]
    cases drawOf s o <;> simp

/-- The draws of a frame: one per object whose mesh and shader resolve, in object
order, with the index count stored for the mesh. -/
theorem render_drawCounts (env : GlEnv) (fm : FloatMath F) (s : MeshSystem F)
    (camPos : Vec3 F) (t : F) :
    drawCounts (Render env fm s camPos t).2 = s.objects.filterMap (drawOf s) := by
  simp only [Render]
  rw [foldl_renderObject_drawCounts]
  simp [drawCounts]

end RegistryLemmas

end MeshSystem

namespace MeshSystem

open Glm

section RegistryClaims

variable {F : Type} [Field F] [DecidableEq F]

/-- C7: `AddMesh` (and `AddTexture`) with an id that is already registered is a no-op.
After registering `d1` and then `d2` under a new id, no second GPU mesh exists, the id
maps to the resource created from `d1`, and in every later state with the same mesh
registry a `Render` draws each object that uses the id (and whose shader resolves)
with the index count of `d1`. -/
theorem addMesh_addTexture_first_registration_wins (env : GlEnv) (fm : FloatMath F)
    (s : MeshSystem F) (id : String) (d1 d2 : CpuMeshData F) (camPos : Vec3 F) (t : F)
    (hfresh : mapContains s.meshById id = false) :
    AddMesh (AddMesh s id d1) id d2 = AddMesh s id d1 ∧
    (AddMesh (AddMesh s id d1) id d2).meshes =
      s.meshes ++ [⟨d1.vertices, d1.indices, toGLsizei d1.indices.length⟩] ∧
    mapFind (AddMesh (AddMesh s id d1) id d2).meshById id = some s.meshes.length ∧
    (∀ later : MeshSystem F,
      later.meshes = (AddMesh (AddMesh s id d1) id d2).meshes →
      later.meshById = (AddMesh (AddMesh s id d1) id d2).meshById →
      (∀ o : SceneObject F, o.meshId = id →
        (∃ sh, mapFind later.shaderById o.shaderId = some (some sh)) →
        drawOf later o = some (toGLsizei d1.indices.length)) ∧
      drawCounts (Render env fm later camPos t).2 = later.objects.filterMap (drawOf later)) ∧
    (∀ (s' : MeshSystem F) (d : CpuMeshData F),
      mapContains s'.meshById id = true → AddMesh s' id d = s') ∧
    (∀ (s' : MeshSystem F) (tid p : String) (f : Nat),
      mapContains s'.textureById tid = true → AddTexture s' tid p f = s') ∧
    (∀ (s' : MeshSystem F) (tid p1 p2 : String) (f1 f2 : Nat),
      mapContains s'.textureById tid = false →
      AddTexture (AddTexture s' tid p1 f1) tid p2 f2 = AddTexture s' tid p1 f1 ∧
      (AddTexture (AddTexture s' tid p1 f1) tid p2 f2).textures = s'.textures ++ [⟨p1, f1⟩] ∧
      mapFind (AddTexture (AddTexture s' tid p1 f1) tid p2 f2).textureById tid =
        some s'.textures.length) := by
  have h1 := addMesh_fresh s id d1 hfresh
  have hfind : mapFind (AddMesh s id d1).meshById id = some s.meshes.length := by
    rw [h1]
    exact mapFind_append_fresh _ _ _ hfresh
  have hreg : mapContains (AddMesh s id d1).meshById id = true := by
    simp [mapContains, hfind]
  have h2 := addMesh_registered (AddMesh s id d1) id d2 hreg
  have hmeshes : (AddMesh s id d1).meshes =
      s.meshes ++ [⟨d1.vertices, d1.indices, toGLsizei d1.indices.length⟩] := by
    rw [h1]
  refine ⟨h2, by rw [h2, hmeshes], by rw [h2, hfind], ?_, ?_, ?_, ?_⟩
  · intro later hm hb
    rw [h2] at hm hb
    refine ⟨?_, render_drawCounts env fm later camPos t⟩
    rintro o ho ⟨sh, hsh⟩
    simp only [drawOf, ho, hb, hfind, hsh, hm, hmeshes]
    simp
  · intro s' d h
    exact addMesh_registered s' id d h
  · intro s' tid p f h
    exact addTexture_registered s' tid p f h
  · intro s' tid p1 p2 f1 f2 h
    have t1 := addTexture_fresh s' tid p1 f1 h
    have tfind : mapFind (AddTexture s' tid p1 f1).textureById tid = some s'.textures.length := by
      rw [t1]
      exact mapFind_append_fresh _ _ _ h
    have treg : mapContains (AddTexture s' tid p1 f1).textureById tid = true := by
      simp [mapContains, tfind]
    have t2 := addTexture_registered (AddTexture s' tid p1 f1) tid p2 f2 treg
    refine ⟨t2, ?_, by rw [t2, tfind]⟩
    rw [t2, t1]

/-- Witness for C7: a triangle and then a quad registered as "cube" on the empty
registry; the id keeps the triangle. -/
theorem addMesh_addTexture_first_registration_wins_witness :
    mapContains (empty : MeshSystem ℚ).meshById "cube" = false ∧
    (AddMesh (AddMesh (empty : MeshSystem ℚ) "cube" ⟨[], [0, 1, 2]⟩) "cube"
        ⟨[], [0, 1, 2, 0, 2, 3]⟩).meshes = [⟨[], [0, 1, 2], 3⟩] :=
  ⟨by decide,
    (addMesh_addTexture_first_registration_wins (F := ℚ) ⟨fun _ => 0, fun _ _ => -1⟩
      ⟨id, id, id, id⟩ empty "cube" ⟨[], [0, 1, 2]⟩ ⟨[], [0, 1, 2, 0, 2, 3]⟩ ⟨0, 0, 0⟩ 0
      (by decide)).2.1⟩

/-- C8 fails as stated: after registering shader 1 and then shader 2 under "default",
the id resolves to shader 2, and the second call changed the registry. -/
theorem registerShaderProgram_first_wins_counterexample :
    mapFind (RegisterShaderProgram (RegisterShaderProgram (empty : MeshSystem ℚ) "default" 1)
        "default" 2).shaderById "default" = some (some 2) ∧
    mapFind (RegisterShaderProgram (RegisterShaderProgram (empty : MeshSystem ℚ) "default" 1)
        "default" 2).shaderById "default" ≠
      mapFind (RegisterShaderProgram (empty : MeshSystem ℚ) "default" 1).shaderById "default" := by
  decide

/-- C8 (amended): `RegisterShaderProgram` assigns, so the last registration wins: after
registering `a` and then `b` under one id the id resolves to `b`; nothing but the
shader registry changes. -/
theorem registerShaderProgram_last_registration_wins (s : MeshSystem F) (id : String)
    (a b : Nat) :
    mapFind (RegisterShaderProgram (RegisterShaderProgram s id a) id b).shaderById id =
      some (some b) ∧
    mapFind (RegisterShaderProgram s id a).shaderById id = some (some a) ∧
    (RegisterShaderProgram s id a).meshes = s.meshes ∧
    (RegisterShaderProgram s id a).meshById = s.meshById ∧
    (RegisterShaderProgram s id a).textures = s.textures ∧
    (RegisterShaderProgram s id a).textureById = s.textureById ∧
    (RegisterShaderProgram s id a).objects = s.objects :=
  ⟨mapFind_mapAssign _ _ _, mapFind_mapAssign _ _ _, rfl, rfl, rfl, rfl, rfl⟩

/-- C9 fails as stated: the lamp of `main` is instanced at `(1/2, 1/2, 1/2)` with motion
`None` and then moved in place to `(3/2, 1/2, 1/2)`; `GetWorldPos` returns the new
position, not the base position. -/
theorem getWorldPos_base_position_counterexample :
    (writePos (AddObjectInstance (empty : MeshSystem ℚ)
        ⟨"Lamp", "cube", "brick", "object", ⟨1 / 2, 1 / 2, 1 / 2⟩, ⟨1 / 5, 1 / 5, 1 / 5⟩,
          Motion.None, 0, 0, 0, ⟨0, 0, 0⟩⟩).1 0 ⟨3 / 2, 1 / 2, 1 / 2⟩).objects =
      [⟨"Lamp", "cube", "brick", "object", ⟨3 / 2, 1 / 2, 1 / 2⟩, ⟨1 / 5, 1 / 5, 1 / 5⟩,
          Motion.None, 0, 0, 0, ⟨1 / 2, 1 / 2, 1 / 2⟩⟩] ∧
    GetWorldPos (F := ℚ) ⟨id, id, id, id⟩
        ⟨"Lamp", "cube", "brick", "object", ⟨3 / 2, 1 / 2, 1 / 2⟩, ⟨1 / 5, 1 / 5, 1 / 5⟩,
          Motion.None, 0, 0, 0, ⟨1 / 2, 1 / 2, 1 / 2⟩⟩ 7 ≠
      (⟨1 / 2, 1 / 2, 1 / 2⟩ : Vec3 ℚ) := by
  constructor
  · rfl
  · have hm : Motion.None ≠ Motion.BobY := by decide
    norm_num [GetWorldPos, hm]

/-- C9 (amended): for an object whose motion is not `BobY`, `GetWorldPos` returns the
current `pos` field at every time.  The object stored by `AddObjectInstance` has
`basePos = pos`, so the result is the base position until `pos` is changed, and after
a write of `v` to `pos` it is `v`. -/
theorem getWorldPos_non_bob_is_current_pos (fm : FloatMath F) (s : MeshSystem F)
    (obj : SceneObject F) (t : F) (h : obj.motion ≠ Motion.BobY) :
    GetWorldPos fm obj t = obj.pos ∧
    ∃ o, (AddObjectInstance s obj).1.objects[(AddObjectInstance s obj).2]? = some o ∧
      o.basePos = obj.pos ∧ GetWorldPos fm o t = o.basePos ∧
      ∀ v, GetWorldPos fm { o with pos := v } t = v := by
  refine ⟨by simp [GetWorldPos, h], { obj with basePos := obj.pos }, ?_, rfl, ?_, ?_⟩
  · simp [AddObjectInstance]
  · simp [GetWorldPos, h]
  · intro v
    simp [GetWorldPos, h]

/-- Witness for C9 (amended): the lamp of `main`. -/
theorem getWorldPos_non_bob_is_current_pos_witness :
    GetWorldPos (F := ℚ) ⟨id, id, id, id⟩
        ⟨"Lamp", "cube", "brick", "object", ⟨3 / 2, 1 / 2, 1 / 2⟩, ⟨1 / 5, 1 / 5, 1 / 5⟩,
          Motion.None, 0, 0, 0, ⟨1 / 2, 1 / 2, 1 / 2⟩⟩ 7 = ⟨3 / 2, 1 / 2, 1 / 2⟩ :=
  (getWorldPos_non_bob_is_current_pos (F := ℚ) ⟨id, id, id, id⟩ empty
    ⟨"Lamp", "cube", "brick", "object", ⟨3 / 2, 1 / 2, 1 / 2⟩, ⟨1 / 5, 1 / 5, 1 / 5⟩,
      Motion.None, 0, 0, 0, ⟨1 / 2, 1 / 2, 1 / 2⟩⟩ 7 (by decide)).1

/-- C10: for a `BobY` object, in exact arithmetic, `GetWorldPos o t` is
`basePos + (0, bobAmp * sin (t * bobFreq), 0)`; it is the same for any two `BobY`
objects that agree on `basePos`, `bobAmp` and `bobFreq` (whatever their `pos`), and at
`t = 0` it is exactly `basePos` (given `sin 0 = 0`).  `GetWorldPos` reads no registry
state, so earlier calls cannot influence it. -/
theorem getWorldPos_bob (fm : FloatMath F) (o : SceneObject F) (t : F)
    (h : o.motion = Motion.BobY) :
    GetWorldPos fm o t =
      ⟨o.basePos.x, o.basePos.y + o.bobAmp * fm.sin (t * o.bobFreq), o.basePos.z⟩ ∧
    (∀ o2 : SceneObject F, o2.motion = Motion.BobY → o2.basePos = o.basePos →
      o2.bobAmp = o.bobAmp → o2.bobFreq = o.bobFreq →
      GetWorldPos fm o2 t = GetWorldPos fm o t) ∧
    (fm.sin 0 = 0 → GetWorldPos fm o 0 = o.basePos) := by
  refine ⟨by simp [GetWorldPos, h], ?_, ?_⟩
  · intro o2 h2 hb ha hf
    simp [GetWorldPos, h, h2, hb, ha, hf]
  · intro hsin
    simp [GetWorldPos, h, hsin]

/-- Witness for C10: `Triangle1` of `main` (amplitude 1/2, frequency 2), moved away
from its base position, at `t = 0`. -/
theorem getWorldPos_bob_witness :
    GetWorldPos (F := ℚ) ⟨id, id, id, id⟩
        ⟨"Triangle1", "triangle", "brick", "default", ⟨9, 9, 9⟩, ⟨4 / 5, 4 / 5, 4 / 5⟩,
          Motion.BobY, 0, 1 / 2, 2, ⟨3 / 2, 0, 0⟩⟩ 0 = ⟨3 / 2, 0, 0⟩ :=
  (getWorldPos_bob (F := ℚ) ⟨id, id, id, id⟩
    ⟨"Triangle1", "triangle", "brick", "default", ⟨9, 9, 9⟩, ⟨4 / 5, 4 / 5, 4 / 5⟩,
      Motion.BobY, 0, 1 / 2, 2, ⟨3 / 2, 0, 0⟩⟩ 0 rfl).2.2 rfl

end RegistryClaims

end MeshSystem

namespace MeshSystem

open Glm

section RenderLemmas

variable {F : Type} [Field F] [DecidableEq F]

theorem mapFind_some_mem {κ ν : Type} [DecidableEq κ] {m : List (κ × ν)} {k : κ} {v : ν}
    (h : mapFind m k = some v) : (k, v) ∈ m := by
  induction m with
  | nil => simp [mapFind] at h
  | cons e m ih =>
    by_cases he : e.1 = k
    · obtain ⟨a, b⟩ := e
      simp only at he
      subst he
      simp [mapFind, List.find?] at h
      subst h
      exact List.mem_cons_self _ _
    · simp only [mapFind, List.find?, he, decide_False] at h ih
      exact List.mem_cons_of_mem _ (ih h)

theorem registryInv_empty : RegistryInv (empty : MeshSystem F) := by
  constructor
  · intro e he
    simp [empty] at he
  · intro m hm
    simp [empty] at hm

theorem registryInv_addMesh (s : MeshSystem F) (id : String) (d : CpuMeshData F)
    (h : RegistryInv s) : RegistryInv (AddMesh s id d) := by
  cases hc : mapContains s.meshById id with
  | true => rw [addMesh_registered s id d hc]; exact h
  | false =>
    rw [addMesh_fresh s id d hc]
    constructor
    · intro e he
      simp only [List.mem_append, List.mem_singleton] at he
      simp only [List.length_append, List.length_singleton]
      rcases he with he | he
      · have := h.1 e he
        omega
      · rw [he]
        exact Nat.lt_succ_self _
    · intro m hm
      simp only [List.mem_append, List.mem_singleton] at hm
      rcases hm with hm | hm
      · exact h.2 m hm
      · rw [hm]

theorem renderObject_skip (env : GlEnv) (fm : FloatMath F) (s : MeshSystem F)
    (camPos : Vec3 F) (t : F) (st : RenderLoop F) (o : SceneObject F)
    (h : resolvedShader s o = none) : renderObject env fm s camPos t st o = st := by
  unfold resolvedShader at h
  unfold renderObject
  cases hm : mapFind s.meshById o.meshId with
  | none => rfl
  | some mi =>
    cases hs : mapFind s.shaderById o.shaderId with
    | none => rfl
    | some sp =>
      cases sp with
      | none => rfl
      | some sh => simp [hm, hs] at h

theorem foldl_renderObject_filter (env : GlEnv) (fm : FloatMath F) (s : MeshSystem F)
    (camPos : Vec3 F) (t : F) (objs : List (SceneObject F)) :
    ∀ st : RenderLoop F,
      objs.foldl (renderObject env fm s camPos t) st =
        (objs.filter (fun o => (resolvedShader s o).isSome)).foldl
          (renderObject env fm s camPos t) st := by
  induction objs with
  | nil => intro st; rfl
  | cons o objs ih =>
    intro st
    cases h : resolvedShader s o with
    | none =>
      rw [List.foldl_cons, renderObject_skip env fm s camPos t st o h, ih,
        List.filter_cons_of_neg (by simp [h])]
    | some sh =>
      rw [List.foldl_cons, ih, List.filter_cons_of_pos (by simp [h]), List.foldl_cons]

theorem drawOf_of_resolved (s : MeshSystem F) (o : SceneObject F) (hinv : RegistryInv s)
    (sh : Nat) (h : resolvedShader s o = some sh) :
    ∃ mi m, mapFind s.meshById o.meshId = some mi ∧ s.meshes[mi]? = some m ∧
      drawOf s o = some m.indexCount ∧ m.indexCount = toGLsizei m.ebo.length := by
  unfold resolvedShader at h
  cases hm : mapFind s.meshById o.meshId with
  | none => simp [hm] at h
  | some mi =>
    cases hs : mapFind s.shaderById o.shaderId with
    | none => simp [hm, hs] at h
    | some sp =>
      cases sp with
      | none => simp [hm, hs] at h
      | some sh2 =>
        have hlt : mi < s.meshes.length := hinv.1 _ (mapFind_some_mem hm)
        refine ⟨mi, s.meshes[mi], rfl, List.getElem?_eq_getElem hlt, ?_,
          hinv.2 _ (List.getElem_mem hlt)⟩
        simp [drawOf, hm, hs, List.getElem?_eq_getElem hlt]

theorem drawOf_of_unresolved (s : MeshSystem F) (o : SceneObject F)
    (h : resolvedShader s o = none) : drawOf s o = none := by
  unfold resolvedShader at h
  unfold drawOf
  cases hm : mapFind s.meshById o.meshId with
  | none => rfl
  | some mi =>
    cases hs : mapFind s.shaderById o.shaderId with
    | none => rfl
    | some sp =>
      cases sp with
      | none => rfl
      | some sh => simp [hm, hs] at h

theorem filterMap_drawOf_forall₂ (s : MeshSystem F) (hinv : RegistryInv s)
    (objs : List (SceneObject F)) :
    List.Forall₂
      (fun o n => ∃ mi m, mapFind s.meshById o.meshId = some mi ∧ s.meshes[mi]? = some m ∧
        n = m.indexCount ∧ m.indexCount = toGLsizei m.ebo.length)
      (objs.filter (fun o => (resolvedShader s o).isSome)) (objs.filterMap (drawOf s)) := by
  induction objs with
  | nil => exact List.Forall₂.nil
  | cons o objs ih =>
    cases h : resolvedShader s o with
    | none =>
      rw [List.filter_cons_of_neg (by simp [h]), List.filterMap_cons,
        drawOf_of_unresolved s o h]
      exact ih
    | some sh =>
      obtain ⟨mi, m, h1, h2, h3, h4⟩ := drawOf_of_resolved s o hinv sh h
      rw [List.filter_cons_of_pos (by simp [h]), List.filterMap_cons, h3]
      exact List.Forall₂.cons ⟨mi, m, h1, h2, rfl, h4⟩ ih

end RenderLemmas

section RenderClaims

variable {F : Type} [Field F] [DecidableEq F]

/-- C11: in a registry built by `AddMesh`, `Render` issues exactly one `glDrawElements`
per object whose mesh id and shader id resolve, in registration order, with the index
count stored for (and uploaded to) that mesh.  An object whose mesh or shader id does
not resolve issues no call at all (no draw, no uniform write) and leaves the loop state
untouched, so the pass is the one of the registry without the unresolved objects. -/
theorem render_one_draw_per_resolved_object (env : GlEnv) (fm : FloatMath F)
    (s : MeshSystem F) (camPos : Vec3 F) (t : F) (hinv : RegistryInv s) :
    List.Forall₂
      (fun o n => ∃ mi m, mapFind s.meshById o.meshId = some mi ∧ s.meshes[mi]? = some m ∧
        n = m.indexCount ∧ m.indexCount = toGLsizei m.ebo.length)
      (s.objects.filter (fun o => (resolvedShader s o).isSome))
      (drawCounts (Render env fm s camPos t).2) ∧
    (drawCounts (Render env fm s camPos t).2).length =
      (s.objects.filter (fun o => (resolvedShader s o).isSome)).length ∧
    (∀ (st : RenderLoop F) (o : SceneObject F), resolvedShader s o = none →
      renderObject env fm s camPos t st o = st) ∧
    (Render env fm s camPos t).2 =
      (Render env fm
        { s with objects := s.objects.filter (fun o => (resolvedShader s o).isSome) }
        camPos t).2 := by
  have h1 := filterMap_drawOf_forall₂ s hinv s.objects
  rw [← render_drawCounts env fm s camPos t] at h1
  refine ⟨h1, h1.length_eq.symm, fun st o h => renderObject_skip env fm s camPos t st o h, ?_⟩
  simp only [Render]
  rw [foldl_renderObject_filter]
  rfl

end RenderClaims

end MeshSystem

namespace MeshSystem

open Glm

/-- Witness for C11: a triangle mesh "cube", a shader "default", one object that
resolves and one whose mesh id is unknown; one draw is issued. -/
theorem render_one_draw_per_resolved_object_witness :
    (drawCounts (Render (F := ℚ) ⟨fun _ => 0, fun _ _ => -1⟩ ⟨id, id, id, id⟩
      (AddObjectInstance (AddObjectInstance
        (RegisterShaderProgram (AddMesh empty "cube" ⟨[], [0, 1, 2]⟩) "default" 1)
        ⟨"A", "cube", "brick", "default", ⟨0, 0, 0⟩, ⟨1, 1, 1⟩, Motion.None, 0, 0, 0,
          ⟨0, 0, 0⟩⟩).1
        ⟨"B", "missing", "brick", "default", ⟨0, 0, 0⟩, ⟨1, 1, 1⟩, Motion.None, 0, 0, 0,
          ⟨0, 0, 0⟩⟩).1 ⟨0, 0, 2⟩ 0).2).length = 1 :=
  (render_one_draw_per_resolved_object (F := ℚ) ⟨fun _ => 0, fun _ _ => -1⟩ ⟨id, id, id, id⟩
    (AddObjectInstance (AddObjectInstance
      (RegisterShaderProgram (AddMesh empty "cube" ⟨[], [0, 1, 2]⟩) "default" 1)
      ⟨"A", "cube", "brick", "default", ⟨0, 0, 0⟩, ⟨1, 1, 1⟩, Motion.None, 0, 0, 0,
        ⟨0, 0, 0⟩⟩).1
      ⟨"B", "missing", "brick", "default", ⟨0, 0, 0⟩, ⟨1, 1, 1⟩, Motion.None, 0, 0, 0,
        ⟨0, 0, 0⟩⟩).1 ⟨0, 0, 2⟩ 0
    (registryInv_addMesh empty "cube" ⟨[], [0, 1, 2]⟩ registryInv_empty)).2.1.trans
    (by decide)

end MeshSystem

namespace MeshSystem

open Glm

section SwitchLemmas

variable {F : Type} [Field F] [DecidableEq F]

theorem activations_append (a b : List (GlCall F)) :
    activations (a ++ b) = activations a ++ activations b := by
  simp [activations]

theorem cameraCalls_append (a b : List (GlCall F)) :
    cameraCalls (a ++ b) = cameraCalls a ++ cameraCalls b := by
  simp [cameraCalls]

theorem activations_getShaderUniforms (env : GlEnv) (cache : List (Nat × ShaderUniforms))
    (sh : Nat) :
    activations (GetShaderUniforms (F := F) env cache sh).2.2 = [] ∧
    cameraCalls (GetShaderUniforms (F := F) env cache sh).2.2 = [] := by
  cases h : mapFind cache (env.programOf sh) <;>
    simp only [GetShaderUniforms, h] <;> exact ⟨rfl, rfl⟩

/-- The per-object part of the trace (uniform writes, texture bind, draw) holds no
activation and no camera call. -/
theorem renderObject_switch (env : GlEnv) (fm : FloatMath F) (s : MeshSystem F)
    (camPos : Vec3 F) (t : F) (st : RenderLoop F) (o : SceneObject F) (sh : Nat)
    (h : resolvedShader s o = some sh) :
    (renderObject env fm s camPos t st o).current = some sh ∧
    activations (renderObject env fm s camPos t st o).calls =
      activations st.calls ++ (if some sh ≠ st.current then [sh] else []) ∧
    cameraCalls (renderObject env fm s camPos t st o).calls =
      cameraCalls st.calls ++ (if some sh ≠ st.current then [sh] else []) := by
  unfold resolvedShader at h
  cases hm : mapFind s.meshById o.meshId with
  | none => simp [hm] at h
  | some mi =>
    cases hs : mapFind s.shaderById o.shaderId with
    | none => simp [hm, hs] at h
    | some sp =>
      cases sp with
      | none => simp [hm, hs] at h
      | some sh2 =>
        simp only [hm, hs, Option.some.injEq] at h
        subst h
        unfold renderObject
        simp only [hm, hs]
        by_cases hcur : some sh2 ≠ st.current
        · simp only [if_pos hcur, activations_append, cameraCalls_append,
            (activations_getShaderUniforms env st.cache sh2).1,
            (activations_getShaderUniforms env st.cache sh2).2]
          cases s.meshes[mi]? <;> cases mapFind s.textureById o.textureId <;>
            simp [activations, cameraCalls, apply_ite (List.filterMap _)]
        · have hc2 : st.current = some sh2 := by
            by_contra hne
            exact hcur (fun h => hne h.symm)
          simp only [if_neg hcur, activations_append, cameraCalls_append]
          cases s.meshes[mi]? <;> cases mapFind s.textureById o.textureId <;>
            simp [activations, cameraCalls, apply_ite (List.filterMap _), hc2]

end SwitchLemmas

end MeshSystem

namespace MeshSystem

open Glm

section SwitchFold

variable {F : Type} [Field F] [DecidableEq F]

theorem foldl_renderObject_switches (env : GlEnv) (fm : FloatMath F) (s : MeshSystem F)
    (camPos : Vec3 F) (t : F) (objs : List (SceneObject F)) :
    ∀ st : RenderLoop F,
      activations (objs.foldl (renderObject env fm s camPos t) st).calls =
        activations st.calls ++
          shaderSwitches st.current (objs.filterMap (resolvedShader s)) ∧
      cameraCalls (objs.foldl (renderObject env fm s camPos t) st).calls =
        cameraCalls st.calls ++
          shaderSwitches st.current (objs.filterMap (resolvedShader s)) := by
  induction objs with
  | nil => intro st; simp [shaderSwitches]
  | cons o objs ih =>
    intro st
    cases h : resolvedShader s o with
    | none =>
      rw [List.foldl_cons, renderObject_skip env fm s camPos t st o h, List.filterMap_cons, h]
      exact ih st
    | some sh =>
      obtain ⟨h1, h2, h3⟩ := renderObject_switch env fm s camPos t st o sh h
      rw [List.foldl_cons, List.filterMap_cons, h]
      obtain ⟨i1, i2⟩ := ih (renderObject env fm s camPos t st o)
      rw [i1, i2, h1, h2, h3]
      by_cases hcur : some sh ≠ st.current
      · simp [shaderSwitches, hcur]
      · have hc2 : st.current = some sh := by
          by_contra hne
          exact hcur (fun h => hne h.symm)
        simp [shaderSwitches, hc2]

theorem destutter'_head_tail (a : Nat) (l : List Nat) :
    List.destutter' (· ≠ ·) a l = a :: (List.destutter' (· ≠ ·) a l).tail := by
  induction l with
  | nil => rfl
  | cons b l ih =>
    by_cases h : a ≠ b
    · rw [List.destutter'_cons_pos _ h]
      rfl
    · rw [List.destutter'_cons_neg _ h]
      exact ih

theorem shaderSwitches_some (l : List Nat) :
    ∀ c : Nat, shaderSwitches (some c) l = (List.destutter' (· ≠ ·) c l).tail := by
  induction l with
  | nil => intro c; rfl
  | cons h l ih =>
    intro c
    by_cases hc : c = h
    · subst hc
      have hn : ¬ (fun x y : Nat => x ≠ y) c c := fun h => h rfl
      rw [List.destutter'_cons_neg _ hn]
      simp only [shaderSwitches, ne_eq, not_true_eq_false, if_false]
      exact ih c
    · have hp : (fun x y : Nat => x ≠ y) c h := hc
      have hne : some h ≠ some c := fun e => hc (Option.some.inj e).symm
      rw [List.destutter'_cons_pos _ hp]
      simp only [shaderSwitches, if_pos hne, List.tail_cons]
      rw [ih h, ← destutter'_head_tail]

theorem shaderSwitches_none (l : List Nat) :
    shaderSwitches none l = List.destutter (· ≠ ·) l := by
  cases l with
  | nil => rfl
  | cons h l =>
    have hne : some h ≠ (none : Option Nat) := by simp
    simp only [shaderSwitches, if_pos hne, List.destutter_cons']
    rw [shaderSwitches_some, ← destutter'_head_tail]

theorem destutter_all_eq (sh : Nat) (l : List Nat) (hall : ∀ x ∈ l, x = sh) (hne : l ≠ []) :
    List.destutter (· ≠ ·) l = [sh] := by
  cases l with
  | nil => exact absurd rfl hne
  | cons h l =>
    have hh : h = sh := hall h (List.mem_cons_self _ _)
    subst hh
    rw [List.destutter_cons']
    have : ∀ l : List Nat, (∀ x ∈ l, x = h) → List.destutter' (· ≠ ·) h l = [h] := by
      intro l
      induction l with
      | nil => intro _; rfl
      | cons b l ih =>
        intro hb
        have e : b = h := hb b (List.mem_cons_self _ _)
        subst e
        rw [List.destutter'_cons_neg _ (fun hn => hn rfl)]
        exact ih (fun x hx => hb x (List.mem_cons_of_mem _ hx))
    exact this l (fun x hx => hall x (List.mem_cons_of_mem _ hx))

end SwitchFold

section SwitchClaims

variable {F : Type} [Field F] [DecidableEq F]

/-- C12: in one `Render` pass the shader activations (each followed by its camera
matrix) are the sequence of resolved shaders of the drawn objects with consecutive
repeats collapsed, one per maximal run of equal shaders.  While drawing an object a
shader is activated exactly when it differs from the one bound for the previously drawn
object or none is bound yet; consecutive objects sharing a shader cause a single
activation and skipped objects cause none. -/
theorem render_activations_are_shader_runs (env : GlEnv) (fm : FloatMath F)
    (s : MeshSystem F) (camPos : Vec3 F) (t : F) :
    activations (Render env fm s camPos t).2 =
      List.destutter (· ≠ ·) (s.objects.filterMap (resolvedShader s)) ∧
    cameraCalls (Render env fm s camPos t).2 =
      List.destutter (· ≠ ·) (s.objects.filterMap (resolvedShader s)) ∧
    (activations (Render env fm s camPos t).2).length =
      (List.destutter (· ≠ ·) (s.objects.filterMap (resolvedShader s))).length ∧
    (∀ (st : RenderLoop F) (o : SceneObject F) (sh : Nat), resolvedShader s o = some sh →
      (renderObject env fm s camPos t st o).current = some sh ∧
      activations (renderObject env fm s camPos t st o).calls =
        activations st.calls ++ (if some sh ≠ st.current then [sh] else [])) ∧
    (∀ (st : RenderLoop F) (o : SceneObject F), resolvedShader s o = none →
      renderObject env fm s camPos t st o = st) ∧
    (∀ sh : Nat, (∀ x ∈ s.objects.filterMap (resolvedShader s), x = sh) →
      s.objects.filterMap (resolvedShader s) ≠ [] →
      activations (Render env fm s camPos t).2 = [sh]) := by
  obtain ⟨h1, h2⟩ := foldl_renderObject_switches env fm s camPos t s.objects
    { current := none, u := {}, cache := s.uniformsByProgram, calls := [] }
  have ha : activations (Render env fm s camPos t).2 =
      List.destutter (· ≠ ·) (s.objects.filterMap (resolvedShader s)) := by
    simp only [Render]
    rw [h1, shaderSwitches_none]
    rfl
  have hc : cameraCalls (Render env fm s camPos t).2 =
      List.destutter (· ≠ ·) (s.objects.filterMap (resolvedShader s)) := by
    simp only [Render]
    rw [h2, shaderSwitches_none]
    rfl
  refine ⟨ha, hc, by rw [ha], ?_, ?_, ?_⟩
  · intro st o sh h
    obtain ⟨a, b, _⟩ := renderObject_switch env fm s camPos t st o sh h
    exact ⟨a, b⟩
  · intro st o h
    exact renderObject_skip env fm s camPos t st o h
  · intro sh hall hne
    rw [ha]
    exact destutter_all_eq sh _ hall hne

end SwitchClaims

end MeshSystem

namespace MeshSystem

open Glm

section SceneLemmas

variable {F : Type} [Field F] [DecidableEq F]

theorem modelMatrices_append (a b : List (GlCall F)) :
    modelMatrices (a ++ b) = modelMatrices a ++ modelMatrices b := by
  simp [modelMatrices]

theorem modelMatrices_getShaderUniforms (env : GlEnv) (cache : List (Nat × ShaderUniforms))
    (sh : Nat) : modelMatrices (GetShaderUniforms (F := F) env cache sh).2.2 = [] := by
  cases h : mapFind cache (env.programOf sh) <;>
    simp only [GetShaderUniforms, h] <;> rfl

/-- The only matrix an object uploads is its model matrix. -/
theorem renderObject_modelMatrices (env : GlEnv) (fm : FloatMath F) (s : MeshSystem F)
    (camPos : Vec3 F) (t : F) (st : RenderLoop F) (o : SceneObject F) :
    ∀ m ∈ modelMatrices (renderObject env fm s camPos t st o).calls,
      m ∈ modelMatrices st.calls ∨ m = BuildModelMatrix fm o t := by
  have e0 : modelMatrices ([] : List (GlCall F)) = [] := rfl
  have e1 : ∀ a b, modelMatrices [(GlCall.uniform1i a b : GlCall F)] = [] := fun _ _ => rfl
  have e2 : ∀ a b, modelMatrices [(GlCall.uniform4f a b : GlCall F)] = [] := fun _ _ => rfl
  have e3 : ∀ a b, modelMatrices [(GlCall.uniform3f a b : GlCall F)] = [] := fun _ _ => rfl
  have e4 : ∀ a b, modelMatrices [(GlCall.uniformMatrix4fv a b : GlCall F)] = [b] :=
    fun _ _ => rfl
  have e5 : ∀ a, modelMatrices [(GlCall.activate a : GlCall F), GlCall.cameraMatrix a] = [] :=
    fun _ => rfl
  have e6 : ∀ a, modelMatrices [(GlCall.activeTexture0 : GlCall F), GlCall.bindTexture a] = [] :=
    fun _ => rfl
  have e7 : ∀ a b, modelMatrices [(GlCall.bindVertexArray a : GlCall F),
      GlCall.drawElements b] = [] := fun _ _ => rfl
  unfold renderObject
  cases hm : mapFind s.meshById o.meshId with
  | none => intro m h; exact Or.inl h
  | some mi =>
    cases hs : mapFind s.shaderById o.shaderId with
    | none => intro m h; exact Or.inl h
    | some sp =>
      cases sp with
      | none => intro m h; exact Or.inl h
      | some sh =>
        simp only
        by_cases hcur : some sh ≠ st.current
        · simp only [if_pos hcur, modelMatrices_append, modelMatrices_getShaderUniforms]
          cases s.meshes[mi]? <;> cases mapFind s.textureById o.textureId <;>
            simp only [apply_ite modelMatrices, e0, e1, e2, e3, e4, e5, e6, e7, ite_self,
              List.append_nil] <;>
            intro m h <;> split_ifs at h <;> simp at h <;> tauto
        · simp only [if_neg hcur, modelMatrices_append]
          cases s.meshes[mi]? <;> cases mapFind s.textureById o.textureId <;>
            simp only [apply_ite modelMatrices, e0, e1, e2, e3, e4, e5, e6, e7, ite_self,
              List.append_nil] <;>
            intro m h <;> split_ifs at h <;> simp at h <;> tauto

theorem buildModelMatrix_identity (fm : FloatMath F) (o : SceneObject F)
    (hm : o.motion = Motion.None) (hp : o.pos = ⟨0, 0, 0⟩) (hs : o.scale = ⟨1, 1, 1⟩) :
    BuildModelMatrix fm o 0 = Mat4.identity := by
  simp [BuildModelMatrix, GetWorldPos, hm, hp, hs, Glm.translate, Glm.scale, Mat4.identity,
    Vec4.scaleBy, Vec4.add]

end SceneLemmas

end MeshSystem

namespace MeshSystem

open Glm

section SceneClaims

variable {F : Type} [Field F] [DecidableEq F]

theorem cube_indices_length : (Shapes.Cube : Shapes.MeshData F).indices.length = 36 := rfl

/-- C13 fails as stated: on a fresh registry with only the cube registered and one
object instanced, no shader id resolves, so the object is skipped and rendering at
`t = 0` issues no draw call. -/
theorem cube_scene_without_shader_counterexample :
    drawCounts (Render (F := ℚ) ⟨fun _ => 0, fun _ _ => 0⟩ ⟨id, id, id, id⟩
      (AddObjectInstance
        (AddPrimitiveMesh ⟨id, id, id, id⟩ empty "cube" Shapes.ShapeType.Cube)
        ⟨"Cube1", "cube", "brick", "default", ⟨0, 0, 0⟩, ⟨1, 1, 1⟩, Motion.None, 0, 0, 0,
          ⟨0, 0, 0⟩⟩).1 ⟨0, 0, 2⟩ 0).2 = [] := by
  rfl

/-- C13 (amended): on a fresh registry, after registering the cube primitive and a
shader program under the object's shader id and instancing one object at the origin
with unit scale and motion `None` that uses that mesh, rendering at `t = 0` issues
exactly one draw call (of the 36 cube indices); the model matrix computed for the
object is the 4x4 identity, and it is the only matrix the pass can upload. -/
theorem cube_scene_renders_once_with_identity (env : GlEnv) (fm : FloatMath F)
    (mid sid name tex : String) (sh : Nat) (rot amp freq : F) (base camPos : Vec3 F) :
    drawCounts (Render env fm
      (AddObjectInstance
        (RegisterShaderProgram (AddPrimitiveMesh fm empty mid Shapes.ShapeType.Cube) sid sh)
        ⟨name, mid, tex, sid, ⟨0, 0, 0⟩, ⟨1, 1, 1⟩, Motion.None, rot, amp, freq, base⟩).1
      camPos 0).2 = [36] ∧
    BuildModelMatrix fm
      ⟨name, mid, tex, sid, ⟨0, 0, 0⟩, ⟨1, 1, 1⟩, Motion.None, rot, amp, freq, ⟨0, 0, 0⟩⟩ 0 =
      Mat4.identity ∧
    (AddObjectInstance
        (RegisterShaderProgram (AddPrimitiveMesh fm empty mid Shapes.ShapeType.Cube) sid sh)
        ⟨name, mid, tex, sid, ⟨0, 0, 0⟩, ⟨1, 1, 1⟩, Motion.None, rot, amp, freq, base⟩).1.objects =
      [⟨name, mid, tex, sid, ⟨0, 0, 0⟩, ⟨1, 1, 1⟩, Motion.None, rot, amp, freq, ⟨0, 0, 0⟩⟩] ∧
    ∀ m ∈ modelMatrices (Render env fm
      (AddObjectInstance
        (RegisterShaderProgram (AddPrimitiveMesh fm empty mid Shapes.ShapeType.Cube) sid sh)
        ⟨name, mid, tex, sid, ⟨0, 0, 0⟩, ⟨1, 1, 1⟩, Motion.None, rot, amp, freq, base⟩).1
      camPos 0).2, m = Mat4.identity := by
  have hid := buildModelMatrix_identity fm
    ⟨name, mid, tex, sid, ⟨0, 0, 0⟩, ⟨1, 1, 1⟩, Motion.None, rot, amp, freq, ⟨0, 0, 0⟩⟩
    rfl rfl rfl
  have hobjs : (AddObjectInstance
        (RegisterShaderProgram (AddPrimitiveMesh fm empty mid Shapes.ShapeType.Cube) sid sh)
        ⟨name, mid, tex, sid, ⟨0, 0, 0⟩, ⟨1, 1, 1⟩, Motion.None, rot, amp, freq, base⟩).1.objects =
      [⟨name, mid, tex, sid, ⟨0, 0, 0⟩, ⟨1, 1, 1⟩, Motion.None, rot, amp, freq, ⟨0, 0, 0⟩⟩] := rfl
  refine ⟨?_, hid, hobjs, ?_⟩
  · rw [render_drawCounts, hobjs]
    have hmesh : mapFind (AddPrimitiveMesh fm (empty : MeshSystem F) mid
        Shapes.ShapeType.Cube).meshById mid = some 0 := by
      simp [AddPrimitiveMesh, AddMesh, mapContains, mapEmplace, mapFind, empty]
    have hm0 : (AddPrimitiveMesh fm (empty : MeshSystem F) mid
        Shapes.ShapeType.Cube).meshes[0]? =
        some ⟨(Shapes.Cube : Shapes.MeshData F).vertices,
          (Shapes.Cube : Shapes.MeshData F).indices, 36⟩ := by
      have hg : Shapes.Get fm Shapes.ShapeType.Cube = (Shapes.Cube : Shapes.MeshData F) := rfl
      have hc : mapContains (empty : MeshSystem F).meshById mid = false := rfl
      have he : (empty : MeshSystem F).meshes = [] := rfl
      have h36 : toGLsizei 36 = 36 := by decide
      simp only [AddPrimitiveMesh, AddMesh, hg, hc, he, cube_indices_length, h36,
        Bool.false_eq_true, if_false, List.nil_append, List.getElem?_cons_zero]
    have hsh : mapFind (RegisterShaderProgram (AddPrimitiveMesh fm (empty : MeshSystem F) mid
        Shapes.ShapeType.Cube) sid sh).shaderById sid = some (some sh) :=
      mapFind_mapAssign _ _ _
    have hd : drawOf (AddObjectInstance
        (RegisterShaderProgram (AddPrimitiveMesh fm empty mid Shapes.ShapeType.Cube) sid sh)
        ⟨name, mid, tex, sid, ⟨0, 0, 0⟩, ⟨1, 1, 1⟩, Motion.None, rot, amp, freq, base⟩).1
        ⟨name, mid, tex, sid, ⟨0, 0, 0⟩, ⟨1, 1, 1⟩, Motion.None, rot, amp, freq, ⟨0, 0, 0⟩⟩ =
        some 36 := by
      have e1 : (AddObjectInstance
          (RegisterShaderProgram (AddPrimitiveMesh fm empty mid Shapes.ShapeType.Cube) sid sh)
          ⟨name, mid, tex, sid, ⟨0, 0, 0⟩, ⟨1, 1, 1⟩, Motion.None, rot, amp, freq, base⟩).1.meshById =
          (AddPrimitiveMesh fm (empty : MeshSystem F) mid Shapes.ShapeType.Cube).meshById := rfl
      have e2 : (AddObjectInstance
          (RegisterShaderProgram (AddPrimitiveMesh fm empty mid Shapes.ShapeType.Cube) sid sh)
          ⟨name, mid, tex, sid, ⟨0, 0, 0⟩, ⟨1, 1, 1⟩, Motion.None, rot, amp, freq, base⟩).1.meshes =
          (AddPrimitiveMesh fm (empty : MeshSystem F) mid Shapes.ShapeType.Cube).meshes := rfl
      have e3 : (AddObjectInstance
          (RegisterShaderProgram (AddPrimitiveMesh fm empty mid Shapes.ShapeType.Cube) sid sh)
          ⟨name, mid, tex, sid, ⟨0, 0, 0⟩, ⟨1, 1, 1⟩, Motion.None, rot, amp, freq, base⟩).1.shaderById =
          (RegisterShaderProgram (AddPrimitiveMesh fm (empty : MeshSystem F) mid
            Shapes.ShapeType.Cube) sid sh).shaderById := rfl
      simp only [drawOf, e1, e2, e3, hmesh, hsh, hm0, Option.map_some']
    simp [hd]
  · intro m hm
    simp only [Render, hobjs, List.foldl_cons, List.foldl_nil] at hm
    rcases renderObject_modelMatrices _ _ _ _ _ _ _ m hm with h | h
    · simp [modelMatrices] at h
    · rw [h]
      exact hid

/-- C14: `AddObjectInstance` appends a copy of the object with `basePos` set to its
`pos`, returns the object count before the call, touches nothing else, and leaves the
earlier objects at their indices; after any further calls of the registry's methods
the returned index still denotes the stored object. -/
theorem addObjectInstance_appends_stable_index (s : MeshSystem F) (obj : SceneObject F) :
    (AddObjectInstance s obj).1.objects = s.objects ++ [{ obj with basePos := obj.pos }] ∧
    (AddObjectInstance s obj).2 = s.objects.length ∧
    (∀ i, i < s.objects.length → (AddObjectInstance s obj).1.objects[i]? = s.objects[i]?) ∧
    (AddObjectInstance s obj).1 = { s with objects := (AddObjectInstance s obj).1.objects } ∧
    (∀ calls : List (RegistryCall F),
      (calls.foldl RegistryCall.apply (AddObjectInstance s obj).1).objects[
        (AddObjectInstance s obj).2]? = some { obj with basePos := obj.pos }) := by
  have hobjs : (AddObjectInstance s obj).1.objects =
      s.objects ++ [{ obj with basePos := obj.pos }] := rfl
  have hidx : (AddObjectInstance s obj).2 = s.objects.length := by
    simp [AddObjectInstance]
  have hstep : ∀ (c : RegistryCall F) (s' : MeshSystem F),
      ∃ ext, (RegistryCall.apply s' c).objects = s'.objects ++ ext := by
    intro c s'
    cases c with
    | addMesh id data =>
      refine ⟨[], ?_⟩
      simp only [RegistryCall.apply, AddMesh]
      split_ifs <;> simp
    | addPrimitiveMesh fm id type =>
      refine ⟨[], ?_⟩
      simp only [RegistryCall.apply, AddPrimitiveMesh, AddMesh]
      split_ifs <;> simp
    | addTexture id p f =>
      refine ⟨[], ?_⟩
      simp only [RegistryCall.apply, AddTexture]
      split_ifs <;> simp
    | registerShaderProgram id sh => exact ⟨[], by simp [RegistryCall.apply, RegisterShaderProgram]⟩
    | setLightParams c p => exact ⟨[], by simp [RegistryCall.apply, SetLightParams]⟩
    | addObjectInstance o => exact ⟨[{ o with basePos := o.pos }], rfl⟩
    | render env fm cam t => exact ⟨[], by simp [RegistryCall.apply, Render]⟩
  have hfold : ∀ (calls : List (RegistryCall F)) (s' : MeshSystem F),
      ∃ ext, (calls.foldl RegistryCall.apply s').objects = s'.objects ++ ext := by
    intro calls
    induction calls with
    | nil => intro s'; exact ⟨[], by simp⟩
    | cons c calls ih =>
      intro s'
      obtain ⟨e1, h1⟩ := hstep c s'
      obtain ⟨e2, h2⟩ := ih (RegistryCall.apply s' c)
      exact ⟨e1 ++ e2, by rw [List.foldl_cons, h2, h1, List.append_assoc]⟩
  refine ⟨hobjs, hidx, ?_, rfl, ?_⟩
  · intro i hi
    rw [hobjs, List.getElem?_append_left hi]
  · intro calls
    obtain ⟨ext, he⟩ := hfold calls (AddObjectInstance s obj).1
    rw [he, hidx, hobjs, List.append_assoc,
      List.getElem?_append_right (Nat.le_refl _)]
    simp

/-- C15: `FindObject` returns the first object, in registration order, whose name is
the argument: the result is null exactly when no object has that name, and it denotes
slot `i` exactly when slot `i` holds an object of that name and no earlier slot does. -/
theorem findObject_first_match (s : MeshSystem F) (name : String) :
    (FindObject s name = none ↔ ∀ o ∈ s.objects, o.name ≠ name) ∧
    ∀ i, FindObject s name = some i ↔
      (∃ o, s.objects[i]? = some o ∧ o.name = name) ∧
        ∀ j, j < i → ∀ o, s.objects[j]? = some o → o.name ≠ name := by
  constructor
  · simp [FindObject]
  · intro i
    simp only [FindObject, List.findIdx?_eq_some_iff_getElem, decide_eq_true_eq]
    constructor
    · rintro ⟨h, hn, hlt⟩
      refine ⟨⟨s.objects[i], List.getElem?_eq_getElem h, hn⟩, fun j hj o ho => ?_⟩
      have hjl : j < s.objects.length := Nat.lt_trans hj h
      rw [List.getElem?_eq_getElem hjl, Option.some.injEq] at ho
      rw [← ho]
      exact hlt j hj
    · rintro ⟨⟨o, ho, hn⟩, hlt⟩
      have h : i < s.objects.length := by
        by_contra hge
        rw [List.getElem?_eq_none (Nat.le_of_not_lt hge)] at ho
        exact Option.noConfusion ho
      rw [List.getElem?_eq_getElem h, Option.some.injEq] at ho
      refine ⟨h, by rw [ho]; exact hn, fun j hj => ?_⟩
      exact hlt j hj _ (List.getElem?_eq_getElem (Nat.lt_trans hj h))

end SceneClaims

end MeshSystem

namespace ObjectLoader

open Glm

section IgnoredLines

variable {F : Type} [Zero F] [One F]

theorem processLine_ignored (rd : FloatReader F) (st : LoaderState F) (line : List Char)
    (h : isIgnoredLine line = true) : processLine rd st line = st := by
  simp only [isIgnoredLine, Bool.or_eq_true, decide_eq_true_eq, Bool.not_eq_true',
    Bool.or_eq_false_iff, decide_eq_false_iff_not] at h
  by_cases hs : line = [] ∨ line.head? = some '#'
  · simp only [processLine, if_pos hs]
  · rcases h with (h | h) | ⟨⟨⟨h1, h2⟩, h3⟩, h4⟩
    · exact absurd (Or.inl h) hs
    · exact absurd (Or.inr h) hs
    · simp only [processLine, if_neg hs, if_neg h1, if_neg h2, if_neg h3, if_neg h4]

theorem processLines_append (rd : FloatReader F) (st : LoaderState F)
    (a b : List (List Char)) :
    processLines rd st (a ++ b) = processLines rd (processLines rd st a) b := by
  simp [processLines, List.foldl_append]

theorem loadLines_ignored (rd : FloatReader F) (pre post : List (List Char))
    (line : List Char) (h : isIgnoredLine line = true) :
    LoadLines rd (pre ++ line :: post) = LoadLines rd (pre ++ post) := by
  simp only [LoadLines, processLines_append]
  have : processLines rd (processLines rd LoaderState.init pre) (line :: post) =
      processLines rd (processLine rd (processLines rd LoaderState.init pre) line) post := rfl
  rw [this, processLine_ignored rd _ line h]

theorem getLines_newline (rest : List Char) :
    ∀ (pre cur : List Char),
      getLines cur (pre ++ Char.ofNat 10 :: rest) =
        getLines cur (pre ++ [Char.ofNat 10]) ++ getLines [] rest := by
  intro pre
  induction pre with
  | nil =>
    intro cur
    simp [getLines]
  | cons c pre ih =>
    intro cur
    rw [List.cons_append, List.cons_append, getLines, getLines]
    by_cases hc : c.toNat = 10
    · rw [if_pos hc, if_pos hc, ih, List.cons_append]
    · rw [if_neg hc, if_neg hc, ih]

theorem getLines_line (line post : List Char) (hl : ∀ c ∈ line, c.toNat ≠ 10) :
    ∀ cur : List Char,
      getLines cur (line ++ Char.ofNat 10 :: post) = (cur.reverse ++ line) :: getLines [] post := by
  induction line with
  | nil => intro cur; simp [getLines]
  | cons c line ih =>
    intro cur
    have hc : c.toNat ≠ 10 := hl c (List.mem_cons_self _ _)
    rw [List.cons_append, getLines, if_neg hc,
      ih (fun x hx => hl x (List.mem_cons_of_mem _ hx))]
    simp

/-- Inserting a whole line `line ++ "\n"` at the start of a line of the text inserts
`line` into the list of lines read. -/
theorem getLines_insert (a line b : List Char)
    (ha : a = [] ∨ ∃ a0, a = a0 ++ [Char.ofNat 10]) (hl : ∀ c ∈ line, c.toNat ≠ 10) :
    getLines [] (a ++ (line ++ Char.ofNat 10 :: b)) =
      getLines [] a ++ line :: getLines [] b ∧
    getLines [] (a ++ b) = getLines [] a ++ getLines [] b := by
  rcases ha with ha | ⟨a0, ha⟩
  · subst ha
    simp only [List.nil_append]
    rw [getLines_line line b hl []]
    simp [getLines]
  · subst ha
    simp only [List.append_assoc, List.singleton_append]
    rw [getLines_newline, getLines_newline b a0, getLines_line line b hl []]
    simp

end IgnoredLines

section IgnoredClaims

variable {F : Type} [Zero F] [One F]

/-- C20: a comment line (first character `#`), an empty line and a line whose tag is
none of `v`, `vt`, `vn`, `f` leave the loader state unchanged, so inserting or removing
such a line anywhere does not change the mesh `LoadOBJ` returns: stated on the list of
lines read and on the text, where the line with its newline is inserted at the start of
a line. -/
theorem ignored_lines_do_not_change_mesh (rd : FloatReader F) (line : List Char)
    (hline : isIgnoredLine line = true) :
    (∀ st : LoaderState F, processLine rd st line = st) ∧
    (∀ pre post : List (List Char),
      LoadLines rd (pre ++ line :: post) = LoadLines rd (pre ++ post)) ∧
    (∀ a b : List Char, (a = [] ∨ ∃ a0, a = a0 ++ [Char.ofNat 10]) →
      (∀ c ∈ line, c.toNat ≠ 10) →
      LoadOBJ rd (some (a ++ (line ++ Char.ofNat 10 :: b))) = LoadOBJ rd (some (a ++ b))) := by
  refine ⟨fun st => processLine_ignored rd st line hline,
    fun pre post => loadLines_ignored rd pre post line hline, ?_⟩
  intro a b ha hl
  obtain ⟨h1, h2⟩ := getLines_insert a line b ha hl
  simp only [LoadOBJ, h1, h2]
  exact loadLines_ignored rd _ _ line hline

/-- Witness for C20: the line `o cube` (an object-name record) inserted between two
position records. -/
theorem ignored_lines_do_not_change_mesh_witness :
    isIgnoredLine "o cube".toList = true ∧
    LoadLines (F := Int) ⟨fun r => ⟨r.length, 0, 0⟩, fun _ => ⟨0, 0⟩⟩
        (["v 1".toList] ++ "o cube".toList :: ["v 22".toList, "f 1 2 2".toList]) =
      LoadLines (F := Int) ⟨fun r => ⟨r.length, 0, 0⟩, fun _ => ⟨0, 0⟩⟩
        (["v 1".toList] ++ ["v 22".toList, "f 1 2 2".toList]) :=
  ⟨by decide,
    (ignored_lines_do_not_change_mesh (F := Int) ⟨fun r => ⟨r.length, 0, 0⟩, fun _ => ⟨0, 0⟩⟩
      "o cube".toList (by decide)).2.1 ["v 1".toList] ["v 22".toList, "f 1 2 2".toList]⟩

end IgnoredClaims

end ObjectLoader

namespace ObjectLoader

open Glm

section TokenLemmas

variable {F : Type} [Zero F] [One F]

theorem buildFace_wellFormed (toks : List (List Char)) :
    ∀ (st : LoaderState F) (face : List Nat),
      buildFace st face toks = buildFace st face (wellFormedTokens toks) := by
  induction toks with
  | nil => intro st face; rfl
  | cons tok toks ih =>
    intro st face
    cases hp : ParseFaceToken tok with
    | none =>
      have hw : wellFormedTokens (tok :: toks) = wellFormedTokens toks := by
        simp [wellFormedTokens, hp]
      rw [hw, ← ih]
      simp only [buildFace, hp]
    | some r =>
      obtain ⟨vi, vti, vni⟩ := r
      have hw : wellFormedTokens (tok :: toks) = tok :: wellFormedTokens toks := by
        simp [wellFormedTokens, hp]
      rw [hw]
      simp only [buildFace, hp]
      exact ih _ _

theorem takeWhile_token (p : Char → Bool) (tok rest : List Char)
    (h1 : ∀ c ∈ tok, p c = true) (h2 : rest = [] ∨ ∃ c r, rest = c :: r ∧ p c = false) :
    (tok ++ rest).takeWhile p = tok ∧ (tok ++ rest).dropWhile p = rest := by
  induction tok with
  | nil =>
    rcases h2 with h2 | ⟨c, r, h2, hc⟩
    · subst h2; simp
    · subst h2; simp [List.takeWhile, List.dropWhile, hc]
  | cons a tok ih =>
    have ha : p a = true := h1 a (List.mem_cons_self _ _)
    obtain ⟨i1, i2⟩ := ih (fun c hc => h1 c (List.mem_cons_of_mem _ hc))
    simp [List.takeWhile, List.dropWhile, ha, i1, i2]

theorem extractToken_token (tok rest : List Char) (ht : isToken tok = true)
    (h2 : rest = [] ∨ ∃ r, rest = ' ' :: r) :
    extractToken (' ' :: (tok ++ rest)) = (tok, rest) := by
  simp only [isToken, Bool.and_eq_true, Bool.not_eq_true', List.all_eq_true] at ht
  obtain ⟨hne, hall⟩ := ht
  cases tok with
  | nil => simp at hne
  | cons a tok =>
    have ha : isSpace a = false := by simpa using hall a (List.mem_cons_self _ _)
    have hsp : isSpace ' ' = true := by decide
    have hd : (' ' :: (a :: tok ++ rest)).dropWhile isSpace = a :: tok ++ rest := by
      simp [List.dropWhile, hsp, ha]
    have h3 : rest = [] ∨ ∃ c r, rest = c :: r ∧ (fun c => !isSpace c) c = false := by
      rcases h2 with h2 | ⟨r, h2⟩
      · exact Or.inl h2
      · exact Or.inr ⟨' ', r, h2, by simp [hsp]⟩
    obtain ⟨t1, t2⟩ := takeWhile_token (fun c => !isSpace c) (a :: tok) rest
      (fun c hc => by simpa using hall c hc) h3
    rw [extractToken, hd, List.span_eq_take_drop, t1, t2]

theorem flatMap_space_head (toks : List (List Char)) :
    toks.flatMap (fun tok => ' ' :: tok) = [] ∨
      ∃ r, toks.flatMap (fun tok => ' ' :: tok) = ' ' :: r := by
  cases toks with
  | nil => exact Or.inl rfl
  | cons t ts => exact Or.inr ⟨_, rfl⟩

theorem streamTokens_flatMap (toks : List (List Char)) :
    ∀ fuel : Nat, (toks.flatMap (fun tok => ' ' :: tok)).length < fuel →
      (∀ tok ∈ toks, isToken tok = true) →
      streamTokens fuel (toks.flatMap (fun tok => ' ' :: tok)) = toks := by
  induction toks with
  | nil =>
    intro fuel hf _
    cases fuel with
    | zero => omega
    | succ fuel => rfl
  | cons tok toks ih =>
    intro fuel hf hall
    cases fuel with
    | zero => omega
    | succ fuel =>
      have ht := hall tok (List.mem_cons_self _ _)
      have he := extractToken_token tok (toks.flatMap (fun tok => ' ' :: tok)) ht
        (flatMap_space_head toks)
      have hflat : (tok :: toks).flatMap (fun tok => ' ' :: tok) =
          ' ' :: (tok ++ toks.flatMap (fun tok => ' ' :: tok)) := by
        simp [List.flatMap_cons]
      rw [hflat] at hf ⊢
      simp only [List.length_cons, List.length_append] at hf
      cases tok with
      | nil => simp [isToken] at ht
      | cons a tok =>
        simp only [streamTokens, he]
        rw [ih fuel (by omega) (fun t h => hall t (List.mem_cons_of_mem _ h))]

theorem streamTokens_isToken (fuel : Nat) :
    ∀ (s : List Char), ∀ tok ∈ streamTokens fuel s, isToken tok = true := by
  induction fuel with
  | zero => intro s tok h; simp [streamTokens] at h
  | succ fuel ih =>
    intro s tok h
    cases he : extractToken s with
    | mk t rest =>
      cases t with
      | nil => simp [streamTokens, he] at h
      | cons a t =>
        simp only [streamTokens, he, List.mem_cons] at h
        rcases h with h | h
        · subst h
          have h1 : (extractToken s).1 = a :: t := by rw [he]
          rw [extractToken, List.span_eq_take_drop] at h1
          simp only [isToken, List.isEmpty_cons, Bool.not_false, Bool.true_and,
            List.all_eq_true]
          intro c hc
          rw [← h1] at hc
          have hc2 : c ∈ List.takeWhile (fun c => !isSpace c) (List.dropWhile isSpace s) := hc
          have := List.mem_takeWhile_imp hc2
          simpa using this
        · exact ih rest tok h

theorem faceLineOf_tokens (toks : List (List Char)) (hall : ∀ tok ∈ toks, isToken tok = true) :
    isFaceLine (faceLineOf toks) = true ∧
    faceTokens (extractToken (faceLineOf toks)).2 = toks := by
  have hf : isSpace 'f' = false := by decide
  have hsp : isSpace ' ' = true := by decide
  have h3 : toks.flatMap (fun tok => ' ' :: tok) = [] ∨
      ∃ c r, toks.flatMap (fun tok => ' ' :: tok) = c :: r ∧ (fun c => !isSpace c) c = false := by
    rcases flatMap_space_head toks with h | ⟨r, h⟩
    · exact Or.inl h
    · exact Or.inr ⟨' ', r, h, by simp [hsp]⟩
  obtain ⟨t1, t2⟩ := takeWhile_token (fun c => !isSpace c) ['f']
    (toks.flatMap (fun tok => ' ' :: tok)) (by simp [hf]) h3
  have he : extractToken (faceLineOf toks) = (['f'], toks.flatMap (fun tok => ' ' :: tok)) := by
    have hd : (faceLineOf toks).dropWhile isSpace = ['f'] ++ toks.flatMap (fun tok => ' ' :: tok) := by
      simp [faceLineOf, List.dropWhile, hf]
    rw [extractToken, hd, List.span_eq_take_drop, t1, t2]
  constructor
  · have h1 : (extractToken (faceLineOf toks)).1 = "f".toList := by rw [he]; rfl
    have h2 : ¬ faceLineOf toks = [] := by simp [faceLineOf]
    have h3 : ¬ (faceLineOf toks).head? = some '#' := by simp [faceLineOf]
    simp only [isFaceLine, h1, h2, h3, decide_False, decide_True, Bool.or_self, Bool.not_false,
      Bool.and_self]
  · rw [he, faceTokens]
    exact streamTokens_flatMap toks _ (Nat.lt_succ_self _) hall

end TokenLemmas

end ObjectLoader

namespace ObjectLoader

open Glm

section VertexData

variable {F : Type} [Zero F] [One F]

theorem vertexAt_append_left (vs ext : List F) (ia ib : List Nat) (i : Nat)
    (h : kVertexStrideFloats * i + kVertexStrideFloats ≤ vs.length) :
    vertexAt (⟨vs ++ ext, ia⟩ : CpuMeshData F) i = vertexAt ⟨vs, ib⟩ i := by
  simp only [vertexAt]
  rw [List.drop_append_of_le_length (by omega),
    List.take_append_of_le_length (by rw [List.length_drop]; omega)]

theorem vertexAt_append_new (vs x ext : List F) (ia : List Nat) (L : Nat)
    (hvs : vs.length = kVertexStrideFloats * L) (hx : x.length = kVertexStrideFloats) :
    vertexAt (⟨vs ++ (x ++ ext), ia⟩ : CpuMeshData F) L = x := by
  simp only [vertexAt]
  rw [← hvs, List.drop_left, ← hx, List.take_left]

theorem tracks_self (st : LoaderState F) :
    Tracks st (st.vertexRemap.map Prod.fst) (st.vertexRemap.map Prod.snd) := by
  refine ⟨fun k => Iff.rfl, ?_⟩
  have : ∀ (l m : List (ObjVertexKey × Nat)), (∀ e ∈ l, e ∈ m) →
      List.Forall₂ (fun k i => (k, i) ∈ m) (l.map Prod.fst) (l.map Prod.snd) := by
    intro l m
    induction l with
    | nil => intro _; exact List.Forall₂.nil
    | cons e l ih =>
      intro h
      exact List.Forall₂.cons (h e (List.mem_cons_self _ _))
        (ih (fun x hx => h x (List.mem_cons_of_mem _ hx)))
  exact this _ _ (fun e he => he)

theorem readPosition_prefix (P D : List (Vec3 F)) (v : Int) (hp : P <+: D) (h0 : 0 < v)
    (h1 : v ≤ (P.length : Int)) : readPosition P v = D.getD (v - 1).toNat ⟨0, 0, 0⟩ := by
  obtain ⟨ext, he⟩ := hp
  rw [readPosition, if_pos ⟨h0, h1⟩, ← he, List.getD_append _ _ _ _ (by omega)]

theorem readTexcoord_prefix (T D : List (Vec2 F)) (v : Int) (hp : T <+: D) (h0 : 0 < v)
    (h1 : v ≤ (T.length : Int)) : readTexcoord T v = D.getD (v - 1).toNat ⟨0, 0⟩ := by
  obtain ⟨ext, he⟩ := hp
  rw [readTexcoord, if_pos ⟨h0, h1⟩, ← he, List.getD_append _ _ _ _ (by omega)]

theorem readNormal_prefix (N D : List (Vec3 F)) (v : Int) (hp : N <+: D) (h0 : 0 < v)
    (h1 : v ≤ (N.length : Int)) : readNormal N v = D.getD (v - 1).toNat ⟨0, 0, 1⟩ := by
  obtain ⟨ext, he⟩ := hp
  rw [readNormal, if_pos ⟨h0, h1⟩, ← he, List.getD_append _ _ _ _ (by omega)]

end VertexData

end ObjectLoader

namespace MainLoop

theorem frameEdges_length (frames : List Bool) :
    ∀ was : Bool, (frameEdges was frames).length = frames.length := by
  induction frames with
  | nil => intro was; rfl
  | cons d ds ih => intro was; simp [frameEdges, ih]

theorem frameEdges_getD (frames : List Bool) :
    ∀ (was : Bool) (i : Nat), i < frames.length →
      (frameEdges was frames).getD i false =
        (frames.getD i false && !(if i = 0 then was else frames.getD (i - 1) false)) := by
  induction frames with
  | nil => intro was i hi; simp at hi
  | cons d ds ih =>
    intro was i hi
    cases i with
    | zero => simp [frameEdges, ConsumeRmbEdge]
    | succ i =>
      simp only [List.length_cons, Nat.add_lt_add_iff_right] at hi
      simp only [frameEdges, List.getD_cons_succ, ih _ i hi, ConsumeRmbEdge,
        Nat.add_one_ne_zero, if_false, Nat.add_sub_cancel]
      cases i with
      | zero => simp
      | succ j => simp

/-- C19: with the button initially not held, `ConsumeRmbEdge` is true in a frame
exactly when the button is down in that frame and was up in the frame before (up
before the first frame); it is never true in two consecutive frames, and while the
button stays held it is false in every frame after the first. -/
theorem consumeRmbEdge_fires_on_press_edge (frames : List Bool) :
    (frameEdges false frames).length = frames.length ∧
    (∀ i, i < frames.length →
      (frameEdges false frames).getD i false =
        (frames.getD i false && !(if i = 0 then false else frames.getD (i - 1) false))) ∧
    (∀ i, ¬ ((frameEdges false frames).getD i false = true ∧
      (frameEdges false frames).getD (i + 1) false = true)) ∧
    (∀ a n, (∀ k, k ≤ n → frames.getD (a + k) false = true) →
      ∀ k, 0 < k → k ≤ n → (frameEdges false frames).getD (a + k) false = false) := by
  have hlen := frameEdges_length frames false
  have hget := frameEdges_getD frames false
  have hout : ∀ i, frames.length ≤ i → (frameEdges false frames).getD i false = false := by
    intro i hi
    exact List.getD_eq_default _ _ (by rw [hlen]; exact hi)
  refine ⟨hlen, hget, ?_, ?_⟩
  · rintro i ⟨h1, h2⟩
    by_cases hi : i + 1 < frames.length
    · rw [hget (i + 1) hi] at h2
      rw [hget i (by omega)] at h1
      simp only [Nat.add_one_ne_zero, if_false, Nat.add_sub_cancel, Bool.and_eq_true,
        Bool.not_eq_true'] at h1 h2
      rw [h1.1] at h2
      exact Bool.noConfusion h2.2
    · rw [hout (i + 1) (by omega)] at h2
      exact Bool.noConfusion h2
  · intro a n hheld k hk0 hkn
    by_cases hi : a + k < frames.length
    · rw [hget (a + k) hi]
      have hprev := hheld (k - 1) (by omega)
      have hne : a + k ≠ 0 := by omega
      rw [if_neg hne, show a + k - 1 = a + (k - 1) by omega, hprev]
      simp
    · exact hout _ (by omega)

end MainLoop

namespace Camera

open Glm

section CameraClaims

variable {K : Type} [LinearOrderedField K]

/-- C18: in a held-mouse update the pitch is accepted or rejected as a whole.  When
the test on the angle between the pitched orientation and `Up` fails, the new
orientation is `normalize(rotate(old Orientation, radians(-rotY), Up))`, the same for
every vertical cursor position that is rejected; when it holds, the new orientation is
`normalize(rotate(pitched, radians(-rotY), Up))`.  With `radians` linear the test says
that the angle lies in `[radians 5, radians 175]`. -/
theorem pitch_accepted_or_rejected_as_a_whole (fm : FloatMath K) (acos : K → K)
    (cam : Camera K) (win : InputState K) (hheld : win.lmbDown = true) :
    (¬ pitchAccepted fm acos cam win →
      (Inputs fm acos cam win).1.Orientation =
        normalize fm (rotateVec fm cam.Orientation (fm.radians (-(rotY cam win))) cam.Up)) ∧
    (pitchAccepted fm acos cam win →
      (Inputs fm acos cam win).1.Orientation =
        normalize fm
          (rotateVec fm (pitched fm cam win) (fm.radians (-(rotY cam win))) cam.Up)) ∧
    (∀ y : K, ¬ pitchAccepted fm acos cam win →
      ¬ pitchAccepted fm acos cam { win with cursorY := y } →
      (Inputs fm acos cam { win with cursorY := y }).1.Orientation =
        (Inputs fm acos cam win).1.Orientation) ∧
    (∀ c : K, (∀ x, fm.radians x = x * c) →
      (pitchAccepted fm acos cam win ↔
        fm.radians 5 ≤ angle acos (pitched fm cam win) cam.Up ∧
          angle acos (pitched fm cam win) cam.Up ≤ fm.radians 175)) := by
  have hrej : ∀ w : InputState K, w.lmbDown = true → ¬ pitchAccepted fm acos cam w →
      (Inputs fm acos cam w).1.Orientation =
        normalize fm (rotateVec fm cam.Orientation (fm.radians (-(rotY cam w))) cam.Up) := by
    intro w hw hn
    simp [Inputs, hw, hn]
  refine ⟨hrej win hheld, ?_, ?_, ?_⟩
  · intro ha
    simp [Inputs, hheld, ha]
  · intro y h1 h2
    have hy : rotY cam { win with cursorY := y } = rotY cam win := by
      simp only [rotY, mouse]
      split_ifs <;> rfl
    rw [hrej win hheld h1, hrej { win with cursorY := y } hheld h2, hy]
  · intro c hc
    simp only [pitchAccepted, kMaxPitchDeg, hc, abs_le]
    constructor
    · rintro ⟨h1, h2⟩
      constructor <;> linarith
    · rintro ⟨h1, h2⟩
      constructor <;> linarith

/-- Witness for C18: a camera looking down `-z` with the left button held and the
cursor 100 pixels below the centre; with the identity standing in for the library
functions the angle test fails, so only the yaw applies. -/
theorem pitch_accepted_or_rejected_as_a_whole_witness :
    ¬ pitchAccepted (K := ℚ) ⟨id, id, id, id⟩ id
        ⟨800, 800, ⟨0, 0, 2⟩, ⟨0, 0, -1⟩, ⟨0, 1, 0⟩, 1 / 10, 100, false⟩
        ⟨false, false, false, false, false, false, false, true, 400, 500, true⟩ ∧
      (Inputs (K := ℚ) ⟨id, id, id, id⟩ id
        ⟨800, 800, ⟨0, 0, 2⟩, ⟨0, 0, -1⟩, ⟨0, 1, 0⟩, 1 / 10, 100, false⟩
        ⟨false, false, false, false, false, false, false, true, 400, 500, true⟩).1.Orientation =
        normalize ⟨id, id, id, id⟩ (rotateVec ⟨id, id, id, id⟩ ⟨0, 0, -1⟩
          ((⟨id, id, id, id⟩ : FloatMath ℚ).radians
            (-(rotY ⟨800, 800, ⟨0, 0, 2⟩, ⟨0, 0, -1⟩, ⟨0, 1, 0⟩, 1 / 10, 100, false⟩
              ⟨false, false, false, false, false, false, false, true, 400, 500, true⟩)))
          ⟨0, 1, 0⟩) := by
  have hn : ¬ pitchAccepted (K := ℚ) ⟨id, id, id, id⟩ id
      ⟨800, 800, ⟨0, 0, 2⟩, ⟨0, 0, -1⟩, ⟨0, 1, 0⟩, 1 / 10, 100, false⟩
      ⟨false, false, false, false, false, false, false, true, 400, 500, true⟩ := by
    simp only [pitchAccepted, angle, clamp, id, kMaxPitchDeg]
    intro h
    have h1 := (abs_le.mp h).1
    have h2 := min_le_right (max (dot (pitched (K := ℚ) ⟨id, id, id, id⟩
      ⟨800, 800, ⟨0, 0, 2⟩, ⟨0, 0, -1⟩, ⟨0, 1, 0⟩, 1 / 10, 100, false⟩
      ⟨false, false, false, false, false, false, false, true, 400, 500, true⟩) ⟨0, 1, 0⟩)
      (-1)) (1 : ℚ)
    linarith
  exact ⟨hn, (pitch_accepted_or_rejected_as_a_whole (K := ℚ) ⟨id, id, id, id⟩ id
    ⟨800, 800, ⟨0, 0, 2⟩, ⟨0, 0, -1⟩, ⟨0, 1, 0⟩, 1 / 10, 100, false⟩
    ⟨false, false, false, false, false, false, false, true, 400, 500, true⟩ rfl).1 hn⟩

end CameraClaims

end Camera

namespace Picker

open Glm

section RayBoxHitPoint

variable {K : Type} [LinearOrderedField K]

/-- C27: for a ray whose direction has no zero component and a box with non-negative
half-extents, in exact arithmetic: when `RayAABB` returns true, the reported
`hitDistance` is non-negative and the point `rayOrigin + hitDistance * rayDirection`
lies in the closed box; when it returns false, `hitDistance` keeps the value it had
before the call. -/
theorem rayAABB_hit_point_in_box (o d c h : Vec3 K) (hit0 : K)
    (hdx : d.x ≠ 0) (hdy : d.y ≠ 0) (hdz : d.z ≠ 0)
    (hhx : 0 ≤ h.x) (hhy : 0 ≤ h.y) (hhz : 0 ≤ h.z) :
    ((RayAABB o d c h hit0).1 = true →
      0 ≤ (RayAABB o d c h hit0).2 ∧
        InBox c h (pointAt o d (RayAABB o d c h hit0).2)) ∧
    ((RayAABB o d c h hit0).1 = false → (RayAABB o d c h hit0).2 = hit0) := by
  constructor
  · intro hhit
    have hf := (rayAABB_flag_iff o d c h hit0).mp hhit
    rw [rayAABB_distance o d c h hit0 hhit,
      inBox_pointAt_iff o d c h _ hdx hdy hdz hhx hhy hhz]
    by_cases h1 : entryDistance o d c h ≥ 0
    · rw [if_pos h1]
      exact ⟨h1, le_refl _, hf.2⟩
    · rw [if_neg h1]
      exact ⟨hf.1, (not_le.mp h1).le.trans hf.1, le_refl _⟩
  · intro hmiss
    by_cases hc : exitDistance o d c h < 0 ∨ entryDistance o d c h > exitDistance o d c h
    · simp only [RayAABB, if_pos hc]
    · simp only [RayAABB, if_neg hc] at hmiss
      exact absurd hmiss (by simp)

/-- Witness for C27: from inside the unit box the ray `(0,0,0) + t (1, 2, 4)` leaves
through the face `z = 1` at distance `1/4`; a ray pointing away from the box leaves
the previous value 7 in place. -/
theorem rayAABB_hit_point_in_box_witness :
    ((RayAABB (K := ℚ) ⟨0, 0, 0⟩ ⟨1, 2, 4⟩ ⟨0, 0, 0⟩ ⟨1, 1, 1⟩ 7).1 = true →
      0 ≤ (RayAABB (K := ℚ) ⟨0, 0, 0⟩ ⟨1, 2, 4⟩ ⟨0, 0, 0⟩ ⟨1, 1, 1⟩ 7).2 ∧
        InBox (⟨0, 0, 0⟩ : Vec3 ℚ) ⟨1, 1, 1⟩
          (pointAt ⟨0, 0, 0⟩ ⟨1, 2, 4⟩
            (RayAABB (K := ℚ) ⟨0, 0, 0⟩ ⟨1, 2, 4⟩ ⟨0, 0, 0⟩ ⟨1, 1, 1⟩ 7).2)) ∧
    ((RayAABB (K := ℚ) ⟨0, 0, 0⟩ ⟨1, 2, 4⟩ ⟨0, 0, 0⟩ ⟨1, 1, 1⟩ 7).1 = false →
      (RayAABB (K := ℚ) ⟨0, 0, 0⟩ ⟨1, 2, 4⟩ ⟨0, 0, 0⟩ ⟨1, 1, 1⟩ 7).2 = 7) :=
  rayAABB_hit_point_in_box (K := ℚ) ⟨0, 0, 0⟩ ⟨1, 2, 4⟩ ⟨0, 0, 0⟩ ⟨1, 1, 1⟩ 7
    (by norm_num) (by norm_num) (by norm_num) (by norm_num) (by norm_num) (by norm_num)

end RayBoxHitPoint

end Picker

namespace Shapes

section CircleLemmas

variable {F : Type} [Field F]

/-- A loop that appends a block per counter value produces the blocks in order. -/
theorem foldl_range_append {α : Type} (f : Nat → List α) (init : List α) (n : Nat) :
    (List.range n).foldl (fun acc i => acc ++ f i) init =
      init ++ (List.range n).flatMap f := by
  induction n with
  | zero => simp
  | succ k ih =>
    rw [List.range_succ, List.foldl_append, ih, List.flatMap_append]
    simp

theorem flatMap_triple_length (f : Nat → List Nat) (hf : ∀ i, (f i).length = 3)
    (l : List Nat) : (l.flatMap f).length = 3 * l.length := by
  induction l with
  | nil => rfl
  | cons a t ih =>
    rw [List.flatMap_cons, List.length_append, hf, ih, List.length_cons]
    ring

theorem foldl_push_length {α : Type} (f : List F → α → List F)
    (hf : ∀ v i, (f v i).length = v.length + 11) (l : List α) (v0 : List F) :
    (l.foldl f v0).length = v0.length + 11 * l.length := by
  induction l generalizing v0 with
  | nil => rfl
  | cons a t ih =>
    rw [List.foldl_cons, ih, hf, List.length_cons]
    ring

theorem circle_segments (segments : Int) :
    (if segments < 3 then (3 : Int) else segments) = max segments 3 := by
  rw [max_def]
  split_ifs <;> omega

theorem circle_indices (fm : FloatMath F) (radius : F) (segments : Int) (inXZ : Bool) :
    (Circle fm radius segments inXZ).indices =
      (List.range (max segments 3).toNat).flatMap
        (fun i => [0, 1 + i, 1 + (i + 1) % (max segments 3).toNat]) := by
  simp only [Circle, circle_segments]
  rw [foldl_range_append (fun i => [0, 1 + i, 1 + (i + 1) % (max segments 3).toNat])]
  rfl

theorem circle_vertices_length (fm : FloatMath F) (radius : F) (segments : Int)
    (inXZ : Bool) :
    (Circle fm radius segments inXZ).vertices.length = 11 * ((max segments 3).toNat + 1) := by
  simp only [Circle, circle_segments]
  rw [foldl_push_length _ (fun v i => by simp [PushV])]
  have hl : (do let a ← List.range (max segments 3).toNat; pure (a : F) : List F).length =
      (max segments 3).toNat := by
    simp [Function.comp_def]
  rw [hl]
  simp only [PushV, List.nil_append, List.length_cons, List.length_nil]
  ring

theorem foldl_push_prefix {α : Type} (f : List F → α → List F)
    (hf : ∀ v i, ∃ w, f v i = v ++ w ∧ w.length = 11) (l : List α) (v0 : List F) (n : Nat)
    (hn : l.length = n) :
    ∃ rim, l.foldl f v0 = v0 ++ rim ∧ rim.length = 11 * n := by
  subst hn
  induction l generalizing v0 with
  | nil => exact ⟨[], by simp, rfl⟩
  | cons a t ih =>
    obtain ⟨w, hw, hwl⟩ := hf v0 a
    obtain ⟨rim, hr, hrl⟩ := ih (f v0 a)
    refine ⟨w ++ rim, ?_, ?_⟩
    · rw [List.foldl_cons, hr, hw, List.append_assoc]
    · rw [List.length_append, hwl, hrl, List.length_cons]
      ring

/-- The vertex buffer of `Circle`: the center vertex, then 11 scalars per rim vertex. -/
theorem circle_vertices (fm : FloatMath F) (radius : F) (segments : Int) (inXZ : Bool) :
    ∃ rim, (Circle fm radius segments inXZ).vertices =
        [0, 0, 0, 1, 1, 1, 1 / 2, 1 / 2, 0, if inXZ then 1 else 0, if inXZ then 0 else 1] ++
          rim ∧
      rim.length = 11 * (max segments 3).toNat := by
  have hl : (do let a ← List.range (max segments 3).toNat; pure (a : F) : List F).length =
      (max segments 3).toNat := by
    simp [Function.comp_def]
  simp only [Circle, circle_segments]
  refine foldl_push_prefix (F := F) _ ?_ _ _ _ hl
  intro v i
  exact ⟨_, rfl, rfl⟩

end CircleLemmas

section CircleClaims

variable {F : Type} [Field F]

/-- C21: with `n = max(segments, 3)`, `Shapes::Circle` emits `n + 1` vertices of 11
scalars each, the center vertex first, and `3 n` indices, which are the triangles
`(0, 1 + i, 1 + ((i + 1) mod n))` for `i = 0 .. n - 1` in order; every index is at
most `n`, the last triangle is `(0, n, 1)` and so closes the rim back to vertex 1,
and a segment count below 3 gives the mesh of segment count 3. -/
theorem circle_is_closed_triangle_fan (fm : FloatMath F) (radius : F) (segments : Int)
    (inXZ : Bool) :
    (Circle fm radius segments inXZ).vertices.length = 11 * ((max segments 3).toNat + 1) ∧
    (∃ rim, (Circle fm radius segments inXZ).vertices =
        [0, 0, 0, 1, 1, 1, 1 / 2, 1 / 2, 0, if inXZ then 1 else 0, if inXZ then 0 else 1] ++
          rim ∧
      rim.length = 11 * (max segments 3).toNat) ∧
    (Circle fm radius segments inXZ).indices.length = 3 * (max segments 3).toNat ∧
    (Circle fm radius segments inXZ).indices =
      (List.range (max segments 3).toNat).flatMap
        (fun i => [0, 1 + i, 1 + (i + 1) % (max segments 3).toNat]) ∧
    (∀ x ∈ (Circle fm radius segments inXZ).indices, x ≤ (max segments 3).toNat) ∧
    (Circle fm radius segments inXZ).indices.drop (3 * ((max segments 3).toNat - 1)) =
      [0, (max segments 3).toNat, 1] ∧
    Circle fm radius segments inXZ = Circle fm radius (max segments 3) inXZ := by
  have hn : 3 ≤ (max segments 3).toNat := by
    have : (3 : Int) ≤ max segments 3 := le_max_right _ _
    omega
  refine ⟨circle_vertices_length fm radius segments inXZ,
    circle_vertices fm radius segments inXZ, ?_, circle_indices fm radius segments inXZ,
    ?_, ?_, ?_⟩
  · rw [circle_indices, flatMap_triple_length
      (fun i => [0, 1 + i, 1 + (i + 1) % (max segments 3).toNat]) (fun _ => rfl),
      List.length_range]
  · intro x hx
    rw [circle_indices, List.mem_flatMap] at hx
    obtain ⟨i, hi, hx⟩ := hx
    rw [List.mem_range] at hi
    have hmod : (i + 1) % (max segments 3).toNat < (max segments 3).toNat :=
      Nat.mod_lt _ (by omega)
    simp only [List.mem_cons, List.mem_singleton, List.not_mem_nil, or_false] at hx
    rcases hx with h | h | h <;> omega
  · rw [circle_indices]
    obtain ⟨k, hk⟩ : ∃ k, (max segments 3).toNat = k + 1 := ⟨(max segments 3).toNat - 1, by omega⟩
    rw [hk, List.range_succ, List.flatMap_append, Nat.add_sub_cancel]
    have hlen : ((List.range k).flatMap
        (fun i => [0, 1 + i, 1 + (i + 1) % (k + 1)])).length = 3 * k := by
      rw [flatMap_triple_length (fun i => [0, 1 + i, 1 + (i + 1) % (k + 1)])
        (fun _ => rfl), List.length_range]
    rw [List.drop_left' hlen]
    simp [Nat.add_comm]
  · have h3 : max (max segments 3) 3 = max segments 3 := max_eq_left (le_max_right _ _)
    simp only [Circle, circle_segments, h3]

end CircleClaims

end Shapes

namespace MeshSystem

open Glm

section UniformCacheLemmas

variable {F : Type} [Field F] [DecidableEq F]

theorem mapFind_append_of_some {κ ν : Type} [DecidableEq κ] (m l : List (κ × ν)) (k : κ)
    (v : ν) (h : mapFind m k = some v) : mapFind (m ++ l) k = some v := by
  induction m with
  | nil => simp [mapFind] at h
  | cons e m ih =>
    by_cases he : e.1 = k
    · simpa [mapFind, List.find?, he] using h
    · simp only [mapFind, List.find?, he, decide_False, List.cons_append] at h ih ⊢
      exact ih h

theorem lookupsOf_append (a b : List (GlCall F)) :
    lookupsOf (a ++ b) = lookupsOf a ++ lookupsOf b := by
  simp [lookupsOf]

/-- A cache hit: the stored locations are returned, nothing is looked up and the cache
is left as it is. -/
theorem getShaderUniforms_hit (env : GlEnv) (cache : List (Nat × ShaderUniforms)) (sh : Nat)
    (u : ShaderUniforms) (h : mapFind cache (env.programOf sh) = some u) :
    GetShaderUniforms (F := F) env cache sh = (cache, u, []) := by
  simp only [GetShaderUniforms, h]

/-- A cache miss: the five locations are looked up and stored under the program id. -/
theorem getShaderUniforms_miss (env : GlEnv) (cache : List (Nat × ShaderUniforms)) (sh : Nat)
    (h : mapFind cache (env.programOf sh) = none) :
    GetShaderUniforms (F := F) env cache sh =
      (cache ++ [(env.programOf sh,
          ⟨env.uniformLocation (env.programOf sh) "model",
            env.uniformLocation (env.programOf sh) "tex0",
            env.uniformLocation (env.programOf sh) "lightColor",
            env.uniformLocation (env.programOf sh) "lightPos",
            env.uniformLocation (env.programOf sh) "camPos"⟩)],
        ⟨env.uniformLocation (env.programOf sh) "model",
          env.uniformLocation (env.programOf sh) "tex0",
          env.uniformLocation (env.programOf sh) "lightColor",
          env.uniformLocation (env.programOf sh) "lightPos",
          env.uniformLocation (env.programOf sh) "camPos"⟩,
        [.getUniformLocation (env.programOf sh) "model",
          .getUniformLocation (env.programOf sh) "tex0",
          .getUniformLocation (env.programOf sh) "lightColor",
          .getUniformLocation (env.programOf sh) "lightPos",
          .getUniformLocation (env.programOf sh) "camPos"]) := by
  simp only [GetShaderUniforms, h, mapEmplace, mapContains, Option.isSome_none,
    Bool.false_eq_true, if_false]

/-- Entries of the cache are never replaced or removed by `GetShaderUniforms`. -/
theorem getShaderUniforms_cache_mono (env : GlEnv) (cache : List (Nat × ShaderUniforms))
    (sh : Nat) (k : Nat) (v : ShaderUniforms) (h : mapFind cache k = some v) :
    mapFind (GetShaderUniforms (F := F) env cache sh).1 k = some v := by
  cases hc : mapFind cache (env.programOf sh) with
  | some u => rw [getShaderUniforms_hit env cache sh u hc]; exact h
  | none =>
    rw [getShaderUniforms_miss env cache sh hc]
    exact mapFind_append_of_some _ _ _ _ h

/-- After the call the cache holds the returned locations under the program id. -/
theorem getShaderUniforms_stored (env : GlEnv) (cache : List (Nat × ShaderUniforms))
    (sh : Nat) :
    mapFind (GetShaderUniforms (F := F) env cache sh).1 (env.programOf sh) =
      some (GetShaderUniforms (F := F) env cache sh).2.1 := by
  cases hc : mapFind cache (env.programOf sh) with
  | some u => rw [getShaderUniforms_hit env cache sh u hc]; exact hc
  | none =>
    rw [getShaderUniforms_miss env cache sh hc]
    exact mapFind_append_fresh _ _ _ (by simp [mapContains, hc])

/-- Only programs absent from the cache are looked up. -/
theorem getShaderUniforms_lookups (env : GlEnv) (cache : List (Nat × ShaderUniforms))
    (sh : Nat) :
    ∀ p ∈ lookupsOf (GetShaderUniforms (F := F) env cache sh).2.2, mapFind cache p.1 = none := by
  cases hc : mapFind cache (env.programOf sh) with
  | some u =>
    rw [getShaderUniforms_hit env cache sh u hc]
    intro p hp
    simp [lookupsOf] at hp
  | none =>
    rw [getShaderUniforms_miss env cache sh hc]
    intro p hp
    simp only [lookupsOf, List.filterMap_cons, List.filterMap_nil, List.mem_cons,
      List.mem_singleton, List.not_mem_nil, or_false] at hp
    rcases hp with h | h | h | h | h <;> rw [h] <;> exact hc

theorem foldl_getShaderUniforms_cache_mono (later : List (GlEnv × Nat))
    (cache : List (Nat × ShaderUniforms)) (k : Nat) (v : ShaderUniforms)
    (h : mapFind cache k = some v) :
    mapFind (later.foldl (fun c p => (GetShaderUniforms (F := F) p.1 c p.2).1) cache) k =
      some v := by
  induction later generalizing cache with
  | nil => exact h
  | cons p rest ih =>
    rw [List.foldl_cons]
    exact ih _ (getShaderUniforms_cache_mono p.1 cache p.2 k v h)

/-- One loop iteration of `Render` keeps the cache entries and looks up only programs
that are absent from the cache. -/
theorem renderObject_cache (env : GlEnv) (fm : FloatMath F) (s : MeshSystem F)
    (camPos : Vec3 F) (t : F) (st : RenderLoop F) (o : SceneObject F) :
    (∀ k v, mapFind st.cache k = some v →
      mapFind (renderObject env fm s camPos t st o).cache k = some v) ∧
    ∀ p ∈ lookupsOf (renderObject env fm s camPos t st o).calls,
      p ∈ lookupsOf st.calls ∨ mapFind st.cache p.1 = none := by
  have e0 : lookupsOf ([] : List (GlCall F)) = [] := rfl
  have e1 : ∀ a b, lookupsOf [(GlCall.uniform1i a b : GlCall F)] = [] := fun _ _ => rfl
  have e2 : ∀ a b, lookupsOf [(GlCall.uniform4f a b : GlCall F)] = [] := fun _ _ => rfl
  have e3 : ∀ a b, lookupsOf [(GlCall.uniform3f a b : GlCall F)] = [] := fun _ _ => rfl
  have e4 : ∀ a b, lookupsOf [(GlCall.uniformMatrix4fv a b : GlCall F)] = [] :=
    fun _ _ => rfl
  have e5 : ∀ a, lookupsOf [(GlCall.activate a : GlCall F), GlCall.cameraMatrix a] = [] :=
    fun _ => rfl
  have e6 : ∀ a, lookupsOf [(GlCall.activeTexture0 : GlCall F), GlCall.bindTexture a] = [] :=
    fun _ => rfl
  have e7 : ∀ a b, lookupsOf [(GlCall.bindVertexArray a : GlCall F),
      GlCall.drawElements b] = [] := fun _ _ => rfl
  unfold renderObject
  cases hm : mapFind s.meshById o.meshId with
  | none => exact ⟨fun _ _ h => h, fun _ h => Or.inl h⟩
  | some mi =>
    cases hs : mapFind s.shaderById o.shaderId with
    | none => exact ⟨fun _ _ h => h, fun _ h => Or.inl h⟩
    | some sp =>
      cases sp with
      | none => exact ⟨fun _ _ h => h, fun _ h => Or.inl h⟩
      | some sh =>
        simp only
        by_cases hcur : some sh ≠ st.current
        · simp only [if_pos hcur, lookupsOf_append]
          refine ⟨fun k v h => getShaderUniforms_cache_mono env st.cache sh k v h, ?_⟩
          have hl := getShaderUniforms_lookups (F := F) env st.cache sh
          cases s.meshes[mi]? <;> cases mapFind s.textureById o.textureId <;>
            simp only [apply_ite lookupsOf, e0, e1, e2, e3, e4, e5, e6, e7, ite_self,
              List.append_nil] <;>
            intro p h <;> rw [List.mem_append] at h <;>
            exact h.imp id (hl p)
        · simp only [if_neg hcur, lookupsOf_append]
          refine ⟨fun k v h => h, ?_⟩
          cases s.meshes[mi]? <;> cases mapFind s.textureById o.textureId <;>
            simp only [apply_ite lookupsOf, e0, e1, e2, e3, e4, e5, e6, e7, ite_self,
              List.append_nil] <;>
            intro p h <;> exact Or.inl h

theorem foldl_renderObject_cache (env : GlEnv) (fm : FloatMath F) (s : MeshSystem F)
    (camPos : Vec3 F) (t : F) (objs : List (SceneObject F)) (st : RenderLoop F) :
    (∀ k v, mapFind st.cache k = some v →
      mapFind (objs.foldl (renderObject env fm s camPos t) st).cache k = some v) ∧
    ∀ p ∈ lookupsOf (objs.foldl (renderObject env fm s camPos t) st).calls,
      p ∈ lookupsOf st.calls ∨ mapFind st.cache p.1 = none := by
  induction objs generalizing st with
  | nil => exact ⟨fun _ _ h => h, fun _ h => Or.inl h⟩
  | cons o rest ih =>
    rw [List.foldl_cons]
    obtain ⟨h1, h2⟩ := renderObject_cache env fm s camPos t st o
    obtain ⟨i1, i2⟩ := ih (renderObject env fm s camPos t st o)
    refine ⟨fun k v h => i1 k v (h1 k v h), fun p hp => ?_⟩
    rcases i2 p hp with h | h
    · exact h2 p h
    · right
      cases hc : mapFind st.cache p.1 with
      | none => rfl
      | some v => rw [h1 p.1 v hc] at h; exact absurd h (by simp)

/-- A `Render` pass keeps the entries of the uniform cache and looks up only programs
that were absent from it when the pass began. -/
theorem render_cache (env : GlEnv) (fm : FloatMath F) (s : MeshSystem F) (camPos : Vec3 F)
    (t : F) :
    (∀ k v, mapFind s.uniformsByProgram k = some v →
      mapFind (Render env fm s camPos t).1.uniformsByProgram k = some v) ∧
    ∀ p ∈ lookupsOf (Render env fm s camPos t).2, mapFind s.uniformsByProgram p.1 = none := by
  obtain ⟨h1, h2⟩ := foldl_renderObject_cache env fm s camPos t s.objects
    { current := none, u := {}, cache := s.uniformsByProgram, calls := [] }
  refine ⟨h1, fun p hp => ?_⟩
  rcases h2 p hp with h | h
  · simp [lookupsOf] at h
  · exact h

/-- Every registry call keeps the entries of the uniform cache. -/
theorem apply_cache_mono (s : MeshSystem F) (c : RegistryCall F) (k : Nat)
    (v : ShaderUniforms) (h : mapFind s.uniformsByProgram k = some v) :
    mapFind (c.apply s).uniformsByProgram k = some v := by
  cases c with
  | addMesh id data =>
    simp only [RegistryCall.apply, AddMesh]
    split_ifs <;> exact h
  | addPrimitiveMesh fm id type =>
    simp only [RegistryCall.apply, AddPrimitiveMesh, AddMesh]
    split_ifs <;> exact h
  | addTexture id filePath format =>
    simp only [RegistryCall.apply, AddTexture]
    split_ifs <;> exact h
  | registerShaderProgram id shader => exact h
  | setLightParams color pos => exact h
  | addObjectInstance obj => exact h
  | render env fm camPos t => exact (render_cache env fm s camPos t).1 k v h

theorem foldl_apply_cache_mono (calls : List (RegistryCall F)) (s : MeshSystem F) (k : Nat)
    (v : ShaderUniforms) (h : mapFind s.uniformsByProgram k = some v) :
    mapFind (calls.foldl RegistryCall.apply s).uniformsByProgram k = some v := by
  induction calls generalizing s with
  | nil => exact h
  | cons c rest ih =>
    rw [List.foldl_cons]
    exact ih _ (apply_cache_mono s c k v h)

end UniformCacheLemmas

section UniformCacheClaims

variable {F : Type} [Field F] [DecidableEq F]

/-- C22: `GetShaderUniforms` memoizes by program ID.  A call for an ID that is not in
the cache performs exactly the five `glGetUniformLocation` lookups and stores the
result; a call for a cached ID returns the stored locations with no lookup.  After a
call for an ID, every later call for the same ID returns the same five locations with
no lookup and an unchanged cache, whatever shader object carries the ID and whatever
OpenGL would now answer: after any further `GetShaderUniforms` calls (the same
`Render` pass), and after any further registry calls short of `Shutdown`, whole
`Render` passes included, in which no lookup for that ID occurs either. -/
theorem getShaderUniforms_memoized_by_program (env : GlEnv)
    (cache : List (Nat × ShaderUniforms)) (sh : Nat) :
    (mapFind cache (env.programOf sh) = none →
      (GetShaderUniforms (F := F) env cache sh).2.2 =
        [.getUniformLocation (env.programOf sh) "model",
          .getUniformLocation (env.programOf sh) "tex0",
          .getUniformLocation (env.programOf sh) "lightColor",
          .getUniformLocation (env.programOf sh) "lightPos",
          .getUniformLocation (env.programOf sh) "camPos"] ∧
      (GetShaderUniforms (F := F) env cache sh).2.1 =
        ⟨env.uniformLocation (env.programOf sh) "model",
          env.uniformLocation (env.programOf sh) "tex0",
          env.uniformLocation (env.programOf sh) "lightColor",
          env.uniformLocation (env.programOf sh) "lightPos",
          env.uniformLocation (env.programOf sh) "camPos"⟩) ∧
    (∀ u, mapFind cache (env.programOf sh) = some u →
      GetShaderUniforms (F := F) env cache sh = (cache, u, [])) ∧
    (∀ (later : List (GlEnv × Nat)) (env2 : GlEnv) (sh2 : Nat),
      env2.programOf sh2 = env.programOf sh →
      GetShaderUniforms (F := F) env2
          (later.foldl (fun c p => (GetShaderUniforms (F := F) p.1 c p.2).1)
            (GetShaderUniforms (F := F) env cache sh).1) sh2 =
        (later.foldl (fun c p => (GetShaderUniforms (F := F) p.1 c p.2).1)
            (GetShaderUniforms (F := F) env cache sh).1,
          (GetShaderUniforms (F := F) env cache sh).2.1, [])) ∧
    (∀ (s : MeshSystem F) (calls : List (RegistryCall F)) (env2 : GlEnv) (sh2 : Nat),
      s.uniformsByProgram = (GetShaderUniforms (F := F) env cache sh).1 →
      env2.programOf sh2 = env.programOf sh →
      GetShaderUniforms (F := F) env2
          (calls.foldl RegistryCall.apply s).uniformsByProgram sh2 =
        ((calls.foldl RegistryCall.apply s).uniformsByProgram,
          (GetShaderUniforms (F := F) env cache sh).2.1, []) ∧
      ∀ (fm : FloatMath F) (camPos : Vec3 F) (t : F) (name : String),
        (env.programOf sh, name) ∉
          lookupsOf (Render env2 fm (calls.foldl RegistryCall.apply s) camPos t).2) := by
  refine ⟨fun h => ?_, fun u h => getShaderUniforms_hit env cache sh u h,
    fun later env2 sh2 hid => ?_, fun s calls env2 sh2 hs hid => ?_⟩
  · rw [getShaderUniforms_miss env cache sh h]
    exact ⟨rfl, rfl⟩
  · apply getShaderUniforms_hit
    rw [hid]
    exact foldl_getShaderUniforms_cache_mono later _ _ _
      (getShaderUniforms_stored env cache sh)
  · have hst : mapFind (calls.foldl RegistryCall.apply s).uniformsByProgram
        (env.programOf sh) = some (GetShaderUniforms (F := F) env cache sh).2.1 := by
      apply foldl_apply_cache_mono
      rw [hs]
      exact getShaderUniforms_stored env cache sh
    refine ⟨?_, fun fm camPos t name hmem => ?_⟩
    · apply getShaderUniforms_hit
      rw [hid]
      exact hst
    · have := (render_cache env2 fm _ camPos t).2 _ hmem
      rw [hst] at this
      exact absurd this (by simp)

end UniformCacheClaims

end MeshSystem

namespace MeshSystem

open Glm

section LifecycleLemmas

variable {F : Type} [Field F] [DecidableEq F]

/-- The `Delete()` calls of `Shutdown`: three per mesh slot in slot order, then one per
texture slot in slot order. -/
theorem shutdown_calls (s : MeshSystem F) :
    (Shutdown s).2 =
      (List.range s.meshes.length).flatMap (fun i =>
        [ReleaseCall.deleteVertexArray i, .deleteVertexBuffer i, .deleteElementBuffer i]) ++
      (List.range s.textures.length).map ReleaseCall.deleteTexture := by
  simp only [Shutdown]
  rw [Shapes.foldl_range_append (fun i =>
      [ReleaseCall.deleteVertexArray i, .deleteVertexBuffer i, .deleteElementBuffer i]),
    Shapes.foldl_range_append (fun j => [ReleaseCall.deleteTexture j]), List.nil_append]
  congr 1
  induction (List.range s.textures.length) with
  | nil => rfl
  | cons a t ih => rw [List.flatMap_cons, List.map_cons, ih]; rfl

theorem shutdown_calls_nodup (s : MeshSystem F) : (Shutdown s).2.Nodup := by
  rw [shutdown_calls, List.nodup_append]
  refine ⟨?_, ?_, ?_⟩
  · rw [List.nodup_flatMap]
    refine ⟨fun i _ => by simp, ?_⟩
    refine (List.nodup_range _).imp ?_
    intro a b hab
    simp only [Function.onFun, List.disjoint_cons_left, List.mem_cons, List.mem_singleton,
      ReleaseCall.deleteVertexArray.injEq, ReleaseCall.deleteVertexBuffer.injEq,
      ReleaseCall.deleteElementBuffer.injEq, reduceCtorEq, or_false, false_or,
      List.disjoint_nil_left, and_true, List.not_mem_nil]
    exact ⟨hab, hab, hab⟩
  · exact (List.nodup_range _).map (fun a b h => by injection h)
  · intro c h1 h2
    rw [List.mem_flatMap] at h1
    rw [List.mem_map] at h2
    obtain ⟨i, _, hi⟩ := h1
    obtain ⟨j, _, hj⟩ := h2
    subst hj
    simp at hi

end LifecycleLemmas

section LifecycleClaims

variable {F : Type} [Field F] [DecidableEq F]

/-- C23: `Shutdown` calls `Delete()` on the vertex array, vertex buffer and element
buffer of every mesh slot and on every texture slot, each exactly once (the calls are
listed in order and none is repeated), and on no shader object; it clears the meshes,
textures, objects, shader references, both id maps and the uniform cache, keeping only
the light parameters.  Afterwards `FindObject` returns null for every name, a `Render`
pass issues no call at all (so no draw), and a second `Shutdown` deletes nothing.  The
shaders are deleted by `main` itself. -/
theorem shutdown_releases_owned_and_clears (s : MeshSystem F) :
    (Shutdown s).2 =
      (List.range s.meshes.length).flatMap (fun i =>
        [ReleaseCall.deleteVertexArray i, .deleteVertexBuffer i, .deleteElementBuffer i]) ++
      (List.range s.textures.length).map ReleaseCall.deleteTexture ∧
    (Shutdown s).2.Nodup ∧
    (∀ i, i < s.meshes.length →
      ReleaseCall.deleteVertexArray i ∈ (Shutdown s).2 ∧
      ReleaseCall.deleteVertexBuffer i ∈ (Shutdown s).2 ∧
      ReleaseCall.deleteElementBuffer i ∈ (Shutdown s).2) ∧
    (∀ j, j < s.textures.length → ReleaseCall.deleteTexture j ∈ (Shutdown s).2) ∧
    (∀ sh, ReleaseCall.deleteShader sh ∉ (Shutdown s).2) ∧
    (Shutdown s).1 =
      { meshes := [], meshById := [], textures := [], textureById := [], objects := [],
        shaderById := [], uniformsByProgram := [],
        lightColor := s.lightColor, lightPos := s.lightPos } ∧
    (∀ name, FindObject (Shutdown s).1 name = none) ∧
    (∀ (env : GlEnv) (fm : FloatMath F) (camPos : Vec3 F) (t : F),
      (Render env fm (Shutdown s).1 camPos t).2 = [] ∧
      drawCounts (Render env fm (Shutdown s).1 camPos t).2 = []) ∧
    (Shutdown (Shutdown s).1).2 = [] ∧
    ∀ defaultShader objectShader : Nat,
      (MainLoop.teardown s defaultShader objectShader).2 =
        (Shutdown s).2 ++ [.deleteShader defaultShader, .deleteShader objectShader] := by
  refine ⟨shutdown_calls s, shutdown_calls_nodup s, fun i hi => ?_, fun j hj => ?_,
    fun sh h => ?_, rfl, fun name => rfl, fun env fm camPos t => ⟨rfl, rfl⟩, rfl,
    fun _ _ => rfl⟩
  · rw [shutdown_calls]
    have hm : i ∈ List.range s.meshes.length := List.mem_range.mpr hi
    refine ⟨?_, ?_, ?_⟩ <;>
      exact List.mem_append_left _ (List.mem_flatMap.mpr ⟨i, hm, by simp⟩)
  · rw [shutdown_calls]
    exact List.mem_append_right _ (List.mem_map.mpr ⟨j, List.mem_range.mpr hj, rfl⟩)
  · rw [shutdown_calls, List.mem_append, List.mem_flatMap, List.mem_map] at h
    rcases h with ⟨i, _, hi⟩ | ⟨j, _, hj⟩
    · simp at hi
    · exact absurd hj (by simp)

end LifecycleClaims

end MeshSystem

namespace MeshSystem

open Glm

section ModelMatrixLemmas

variable {F : Type} [Field F] [DecidableEq F]

/-- The call `glm::translate(m, v)` multiplies `m` on the right by the translation. -/
theorem translate_eq_mul (m : Mat4 F) (v : Vec3 F) :
    Glm.translate m v = m.mul (ModelMatrixSpec.Translate v) := by
  obtain ⟨⟨a0, a1, a2, a3⟩, ⟨b0, b1, b2, b3⟩, ⟨c0, c1, c2, c3⟩, ⟨d0, d1, d2, d3⟩⟩ := m
  simp only [Glm.translate, Mat4.mul, Mat4.mulVec, ModelMatrixSpec.Translate, Vec4.add,
    Vec4.scaleBy, Mat4.mk.injEq, Vec4.mk.injEq]
  refine ⟨⟨?_, ?_, ?_, ?_⟩, ⟨?_, ?_, ?_, ?_⟩, ⟨?_, ?_, ?_, ?_⟩, ⟨?_, ?_, ?_, ?_⟩⟩ <;> ring

/-- The call `glm::scale(m, v)` multiplies `m` on the right by the scaling. -/
theorem scale_eq_mul (m : Mat4 F) (v : Vec3 F) :
    Glm.scale m v = m.mul (ModelMatrixSpec.Scale v) := by
  obtain ⟨⟨a0, a1, a2, a3⟩, ⟨b0, b1, b2, b3⟩, ⟨c0, c1, c2, c3⟩, ⟨d0, d1, d2, d3⟩⟩ := m
  simp only [Glm.scale, Mat4.mul, Mat4.mulVec, ModelMatrixSpec.Scale, Vec4.scaleBy,
    Mat4.mk.injEq, Vec4.mk.injEq]
  refine ⟨⟨?_, ?_, ?_, ?_⟩, ⟨?_, ?_, ?_, ?_⟩, ⟨?_, ?_, ?_, ?_⟩, ⟨?_, ?_, ?_, ?_⟩⟩ <;> ring

/-- The call `glm::rotate(m, radians(deg), (1, 0, 0))` multiplies `m` on the right by
the rotation about the x axis. -/
theorem rotate_x_eq_mul (fm : FloatMath F) (hone : fm.inversesqrt 1 = 1) (m : Mat4 F)
    (deg : F) :
    Glm.rotate fm m (fm.radians deg) ⟨1, 0, 0⟩ = m.mul (ModelMatrixSpec.RotX fm deg) := by
  have e : (1 : F) * 1 + 0 * 0 + 0 * 0 = 1 := by ring
  obtain ⟨⟨a0, a1, a2, a3⟩, ⟨b0, b1, b2, b3⟩, ⟨c0, c1, c2, c3⟩, ⟨d0, d1, d2, d3⟩⟩ := m
  simp only [Glm.rotate, Glm.normalize, Mat4.mul, Mat4.mulVec, ModelMatrixSpec.RotX,
    Vec4.add, Vec4.scaleBy, e, hone, Mat4.mk.injEq, Vec4.mk.injEq]
  refine ⟨⟨?_, ?_, ?_, ?_⟩, ⟨?_, ?_, ?_, ?_⟩, ⟨?_, ?_, ?_, ?_⟩, ⟨?_, ?_, ?_, ?_⟩⟩ <;> ring

/-- The call `glm::rotate(m, radians(deg), (0, 1, 0))` multiplies `m` on the right by
the rotation about the y axis. -/
theorem rotate_y_eq_mul (fm : FloatMath F) (hone : fm.inversesqrt 1 = 1) (m : Mat4 F)
    (deg : F) :
    Glm.rotate fm m (fm.radians deg) ⟨0, 1, 0⟩ = m.mul (ModelMatrixSpec.RotY fm deg) := by
  have e : (0 : F) * 0 + 1 * 1 + 0 * 0 = 1 := by ring
  obtain ⟨⟨a0, a1, a2, a3⟩, ⟨b0, b1, b2, b3⟩, ⟨c0, c1, c2, c3⟩, ⟨d0, d1, d2, d3⟩⟩ := m
  simp only [Glm.rotate, Glm.normalize, Mat4.mul, Mat4.mulVec, ModelMatrixSpec.RotY,
    Vec4.add, Vec4.scaleBy, e, hone, Mat4.mk.injEq, Vec4.mk.injEq]
  refine ⟨⟨?_, ?_, ?_, ?_⟩, ⟨?_, ?_, ?_, ?_⟩, ⟨?_, ?_, ?_, ?_⟩, ⟨?_, ?_, ?_, ?_⟩⟩ <;> ring

theorem mat4_mul_assoc (a b c : Mat4 F) : (a.mul b).mul c = a.mul (b.mul c) := by
  simp only [Mat4.mul, Mat4.mulVec, Mat4.mk.injEq, Vec4.mk.injEq]
  refine ⟨⟨?_, ?_, ?_, ?_⟩, ⟨?_, ?_, ?_, ?_⟩, ⟨?_, ?_, ?_, ?_⟩, ⟨?_, ?_, ?_, ?_⟩⟩ <;> ring

theorem mat4_identity_mul (a : Mat4 F) : (Mat4.identity : Mat4 F).mul a = a := by
  obtain ⟨⟨a0, a1, a2, a3⟩, ⟨b0, b1, b2, b3⟩, ⟨c0, c1, c2, c3⟩, ⟨d0, d1, d2, d3⟩⟩ := a
  simp only [Mat4.mul, Mat4.mulVec, Mat4.identity, Mat4.mk.injEq, Vec4.mk.injEq]
  refine ⟨⟨?_, ?_, ?_, ?_⟩, ⟨?_, ?_, ?_, ?_⟩, ⟨?_, ?_, ?_, ?_⟩, ⟨?_, ?_, ?_, ?_⟩⟩ <;> ring

theorem mat4_mul_identity (a : Mat4 F) : a.mul (Mat4.identity : Mat4 F) = a := by
  obtain ⟨⟨a0, a1, a2, a3⟩, ⟨b0, b1, b2, b3⟩, ⟨c0, c1, c2, c3⟩, ⟨d0, d1, d2, d3⟩⟩ := a
  simp only [Mat4.mul, Mat4.mulVec, Mat4.identity, Mat4.mk.injEq, Vec4.mk.injEq]
  refine ⟨⟨?_, ?_, ?_, ?_⟩, ⟨?_, ?_, ?_, ?_⟩, ⟨?_, ?_, ?_, ?_⟩, ⟨?_, ?_, ?_, ?_⟩⟩ <;> ring

end ModelMatrixLemmas

section ModelMatrixClaims

variable {F : Type} [Field F] [DecidableEq F]

/-- C24: in exact arithmetic, with `glm::inversesqrt(1) = 1`, `BuildModelMatrix(o, t)`
is the product `Translate(GetWorldPos(o, t)) * R * Scale(o.scale)`, where `R` is the
identity for `None` and `BobY`, `RotX(t * rotSpeedDeg)` for `RotateX`,
`RotY(t * rotSpeedDeg)` for `RotateY` and
`RotX(t * rotSpeedDeg) * RotY(0.7 * t * rotSpeedDeg)` for `RotateXY`, the angles in
degrees.  The matrix is a function of the object and of `t` only: a `Render` pass at
any earlier time leaves the objects, and with them every later matrix, as they were. -/
theorem buildModelMatrix_is_translate_rotate_scale (fm : FloatMath F)
    (hone : fm.inversesqrt 1 = 1) (o : SceneObject F) (t : F) :
    BuildModelMatrix fm o t =
      ((ModelMatrixSpec.Translate (GetWorldPos fm o t)).mul
        (ModelMatrixSpec.rotation fm o.motion o.rotSpeedDeg t)).mul
        (ModelMatrixSpec.Scale o.scale) ∧
    ∀ (env : GlEnv) (s : MeshSystem F) (camPos : Vec3 F) (t0 : F),
      (Render env fm s camPos t0).1.objects = s.objects := by
  refine ⟨?_, fun _ _ _ _ => rfl⟩
  have h7 : t * o.rotSpeedDeg * (7 / 10) = 7 / 10 * t * o.rotSpeedDeg := by ring
  unfold BuildModelMatrix
  simp only [scale_eq_mul, translate_eq_mul, mat4_identity_mul]
  cases hm : o.motion <;>
    simp only [ModelMatrixSpec.rotation, reduceCtorEq, if_false, if_true,
      rotate_x_eq_mul fm hone, rotate_y_eq_mul fm hone, mat4_mul_identity, mat4_mul_assoc, h7]

/-- Witness for C24: an object spinning about both axes, with library functions that
satisfy `inversesqrt 1 = 1`. -/
theorem buildModelMatrix_is_translate_rotate_scale_witness :
    BuildModelMatrix (F := ℚ) ⟨fun _ => 0, fun _ => 1, fun _ => 1, id⟩
        ⟨"o", "m", "t", "s", ⟨1, 2, 3⟩, ⟨2, 2, 2⟩, Motion.RotateXY, 90, 0, 0, ⟨0, 0, 0⟩⟩ 1 =
      ((ModelMatrixSpec.Translate (GetWorldPos (F := ℚ) ⟨fun _ => 0, fun _ => 1, fun _ => 1, id⟩
          ⟨"o", "m", "t", "s", ⟨1, 2, 3⟩, ⟨2, 2, 2⟩, Motion.RotateXY, 90, 0, 0, ⟨0, 0, 0⟩⟩ 1)).mul
        (ModelMatrixSpec.rotation ⟨fun _ => 0, fun _ => 1, fun _ => 1, id⟩ Motion.RotateXY
          90 1)).mul (ModelMatrixSpec.Scale ⟨2, 2, 2⟩) :=
  (buildModelMatrix_is_translate_rotate_scale (F := ℚ) ⟨fun _ => 0, fun _ => 1, fun _ => 1, id⟩
    rfl ⟨"o", "m", "t", "s", ⟨1, 2, 3⟩, ⟨2, 2, 2⟩, Motion.RotateXY, 90, 0, 0, ⟨0, 0, 0⟩⟩ 1).1

end ModelMatrixClaims

end MeshSystem

namespace ObjectLoader

open Glm

section CheckedReadLemmas

variable {F : Type} [Zero F] [One F]

/-- Under the guard of the loader the checked subscript succeeds and reads what the
loader reads. -/
theorem subscript_guarded {α : Type} (v : List α) (i : Int) (d : α)
    (h : 0 < i ∧ i ≤ (v.length : Int)) :
    subscript v (i - 1) = some (v.getD (i - 1).toNat d) := by
  have h1 : ¬ (i - 1 < 0) := by omega
  have h3 : (i - 1).toNat < v.length := by omega
  rw [subscript, if_neg h1, List.getD_eq_getElem?_getD, List.getElem?_eq_getElem h3]
  rfl

theorem readPositionChecked_eq (positions : List (Vec3 F)) (vi : Int) :
    readPositionChecked positions vi = some (readPosition positions vi) := by
  unfold readPositionChecked readPosition
  split_ifs with h
  · exact subscript_guarded positions vi _ h
  · rfl

theorem readTexcoordChecked_eq (texcoords : List (Vec2 F)) (vti : Int) :
    readTexcoordChecked texcoords vti = some (readTexcoord texcoords vti) := by
  unfold readTexcoordChecked readTexcoord
  split_ifs with h
  · exact subscript_guarded texcoords vti _ h
  · rfl

theorem readNormalChecked_eq (normals : List (Vec3 F)) (vni : Int) :
    readNormalChecked normals vni = some (readNormal normals vni) := by
  unfold readNormalChecked readNormal
  split_ifs with h
  · exact subscript_guarded normals vni _ h
  · rfl

theorem goc_checked_eq (st : LoaderState F) (vi vti vni : Int) :
    GetOrCreateVertexIndexChecked st vi vti vni =
      some (GetOrCreateVertexIndex st vi vti vni) := by
  cases h : remapFind st.vertexRemap (keyIn st vi vti vni) with
  | some idx =>
    rw [goc_found st vi vti vni idx h]
    simp only [keyIn, resolveIndex] at h
    simp only [GetOrCreateVertexIndexChecked, h]
  | none =>
    rw [goc_fresh_eq st vi vti vni h]
    simp only [keyIn, resolveIndex] at h
    simp only [GetOrCreateVertexIndexChecked, h, readPositionChecked_eq,
      readTexcoordChecked_eq, readNormalChecked_eq, keyIn, resolveIndex]

theorem buildFace_checked_eq (toks : List (List Char)) :
    ∀ (st : LoaderState F) (face : List Nat),
      buildFaceChecked st face toks = some (buildFace st face toks) := by
  induction toks with
  | nil => intro st face; rfl
  | cons tok toks ih =>
    intro st face
    unfold buildFaceChecked buildFace
    cases hp : ParseFaceToken tok with
    | none => exact ih st face
    | some r =>
      obtain ⟨vi, vti, vni⟩ := r
      simp only [goc_checked_eq]
      exact ih _ _

theorem processLine_checked_eq (rd : FloatReader F) (st : LoaderState F) (line : List Char) :
    processLineChecked rd st line = some (processLine rd st line) := by
  unfold processLineChecked processLine processFaceChecked processFace
  simp only [buildFace_checked_eq]
  split_ifs <;> rfl

theorem processLines_checked_eq (rd : FloatReader F) (lines : List (List Char)) :
    ∀ st : LoaderState F,
      processLinesChecked rd st lines = some (processLines rd st lines) := by
  induction lines with
  | nil => intro st; rfl
  | cons line rest ih =>
    intro st
    unfold processLinesChecked
    simp only [processLine_checked_eq]
    exact ih _

/-- An index that is not in `1 .. count` leaves the component at its default. -/
theorem read_default (positions : List (Vec3 F)) (texcoords : List (Vec2 F))
    (normals : List (Vec3 F)) (i : Int) :
    (¬ (0 < i ∧ i ≤ (positions.length : Int)) → readPosition positions i = ⟨0, 0, 0⟩) ∧
    (¬ (0 < i ∧ i ≤ (texcoords.length : Int)) → readTexcoord texcoords i = ⟨0, 0⟩) ∧
    (¬ (0 < i ∧ i ≤ (normals.length : Int)) → readNormal normals i = ⟨0, 0, 1⟩) :=
  ⟨fun h => if_neg h, fun h => if_neg h, fun h => if_neg h⟩

end CheckedReadLemmas

section CheckedReadClaims

variable {F : Type} [Zero F] [One F]

/-- C25: `LoadOBJ` never reads `positions`, `texcoords` or `normals` out of bounds: on
every input the loader with every subscript into the three sequences checked runs to
the end and returns the mesh of `LoadOBJ`, and so does each single call of
`GetOrCreateVertexIndex` in every state.  An index that after negative-index
resolution is 0 or negative, or greater than the number of records declared so far,
leaves the component at its default (position `(0,0,0)`, texcoord `(0,0)`, normal
`(0,0,1)`), as `-5` does with two positions declared; and the call for a triple not
seen before still emits one vertex of 11 scalars. -/
theorem loadOBJ_reads_in_bounds (rd : FloatReader F) :
    (∀ file, LoadOBJChecked rd file = some (LoadOBJ rd file)) ∧
    (∀ (st : LoaderState F) (vi vti vni : Int),
      GetOrCreateVertexIndexChecked st vi vti vni =
        some (GetOrCreateVertexIndex st vi vti vni)) ∧
    (∀ (st : LoaderState F) (vi vti vni : Int),
      ((keyIn st vi vti vni).v ≤ 0 ∨ (st.positions.length : Int) < (keyIn st vi vti vni).v →
        readPosition st.positions (keyIn st vi vti vni).v = ⟨0, 0, 0⟩) ∧
      ((keyIn st vi vti vni).vt ≤ 0 ∨ (st.texcoords.length : Int) < (keyIn st vi vti vni).vt →
        readTexcoord st.texcoords (keyIn st vi vti vni).vt = ⟨0, 0⟩) ∧
      ((keyIn st vi vti vni).vn ≤ 0 ∨ (st.normals.length : Int) < (keyIn st vi vti vni).vn →
        readNormal st.normals (keyIn st vi vti vni).vn = ⟨0, 0, 1⟩) ∧
      (remapFind st.vertexRemap (keyIn st vi vti vni) = none →
        (GetOrCreateVertexIndex st vi vti vni).1.out.vertices =
          st.out.vertices ++ vertexOf st.positions st.texcoords st.normals
            (keyIn st vi vti vni) ∧
        (GetOrCreateVertexIndex st vi vti vni).2 =
          st.out.vertices.length / kVertexStrideFloats)) ∧
    (∀ p1 p2 : Vec3 F, readPosition [p1, p2] (resolveIndex 2 (-5)) = ⟨0, 0, 0⟩) := by
  refine ⟨fun file => ?_, goc_checked_eq, fun st vi vti vni => ⟨fun h => ?_, fun h => ?_,
    fun h => ?_, fun h => ?_⟩, fun p1 p2 => rfl⟩
  · cases file with
    | none => rfl
    | some text =>
      simp only [LoadOBJChecked, LoadOBJ, LoadLines, processLines_checked_eq, Option.map_some']
  · exact (read_default st.positions st.texcoords st.normals _).1 (by omega)
  · exact (read_default st.positions st.texcoords st.normals _).2.1 (by omega)
  · exact (read_default st.positions st.texcoords st.normals _).2.2 (by omega)
  · rw [goc_fresh_eq st vi vti vni h]
    exact ⟨rfl, rfl⟩

end CheckedReadClaims

end ObjectLoader

namespace ObjectLoader

open Glm

section FrozenLemmas

variable {F : Type} [Zero F] [One F]

theorem referencesOf_keys (lines : List (List Char)) :
    ∀ np nt nn : Nat,
      (referencesOf np nt nn lines).map FaceRef.key = referencedTriples np nt nn lines := by
  induction lines with
  | nil => intro np nt nn; rfl
  | cons line rest ih =>
    intro np nt nn
    simp only [referencesOf, referencedTriples]
    split_ifs <;> simp [ih, Function.comp_def]

theorem firstReference_append_of_some (refs more : List FaceRef) (k : ObjVertexKey)
    (r : FaceRef) (h : firstReference refs k = some r) :
    firstReference (refs ++ more) k = some r := by
  simp only [firstReference, List.find?_append] at h ⊢
  rw [h]
  rfl

theorem firstReference_eq_none (refs : List FaceRef) (k : ObjVertexKey) :
    firstReference refs k = none ↔ k ∉ refs.map FaceRef.key := by
  simp only [firstReference, List.find?_eq_none, decide_eq_true_eq, List.mem_map, not_exists,
    not_and]

theorem firstReference_append_of_none (refs more : List FaceRef) (k : ObjVertexKey)
    (h : firstReference refs k = none) :
    firstReference (refs ++ more) k = firstReference more k := by
  simp only [firstReference, List.find?_append] at h ⊢
  rw [h]
  rfl

theorem firstReference_key (refs : List FaceRef) (k : ObjVertexKey) (r : FaceRef)
    (h : firstReference refs k = some r) : r.key = k ∧ r ∈ refs := by
  refine ⟨?_, List.mem_of_find?_eq_some h⟩
  have := List.find?_some h
  simpa using this

theorem frozen_init : Frozen (LoaderState.init : LoaderState F) [] := by
  intro k i h
  simp [LoaderState.init] at h

/-- Declaring records and appending references keeps the frozen-data invariant as long
as the remap and the vertex buffer stay as they are. -/
theorem frozen_mono (st st' : LoaderState F) (refs more : List FaceRef)
    (hr : st'.vertexRemap = st.vertexRemap) (hv : st'.out.vertices = st.out.vertices)
    (hp : st.positions <+: st'.positions) (ht : st.texcoords <+: st'.texcoords)
    (hn : st.normals <+: st'.normals) (hd : Frozen st refs) : Frozen st' (refs ++ more) := by
  intro k i h
  rw [hr] at h
  obtain ⟨r, h0, h1, h2, h3, h4⟩ := hd k i h
  obtain ⟨e1, he1⟩ := hp
  obtain ⟨e2, he2⟩ := ht
  obtain ⟨e3, he3⟩ := hn
  refine ⟨r, firstReference_append_of_some refs more k r h0, ?_, ?_, ?_, ?_⟩
  · rw [← he1, List.length_append]; omega
  · rw [← he2, List.length_append]; omega
  · rw [← he3, List.length_append]; omega
  · rw [← he1, ← he2, ← he3, List.take_append_of_le_length h1,
      List.take_append_of_le_length h2, List.take_append_of_le_length h3, ← h4]
    simp only [vertexAt, hv]

theorem frozen_goc (st : LoaderState F) (refs : List FaceRef) (hw : WellFormed st)
    (hk : ∀ k, k ∈ st.vertexRemap.map Prod.fst ↔ k ∈ refs.map FaceRef.key)
    (hd : Frozen st refs) (vi vti vni : Int) :
    Frozen (GetOrCreateVertexIndex st vi vti vni).1
      (refs ++ [⟨keyIn st vi vti vni, st.positions.length, st.texcoords.length,
        st.normals.length⟩]) := by
  cases hf : remapFind st.vertexRemap (keyIn st vi vti vni) with
  | some idx =>
    rw [goc_found st vi vti vni idx hf]
    exact frozen_mono st st refs _ rfl rfl (List.prefix_refl _) (List.prefix_refl _)
      (List.prefix_refl _) hd
  | none =>
    rw [goc_fresh_eq st vi vti vni hf]
    have hL : st.out.vertices.length / kVertexStrideFloats = st.vertexRemap.length := by
      rw [hw.len, kVertexStrideFloats]
      exact Nat.mul_div_cancel_left _ (by norm_num)
    intro k i h
    simp only [List.mem_append, List.mem_singleton, Prod.mk.injEq] at h
    rcases h with h | ⟨hk1, hi⟩
    · obtain ⟨r, h0, h1, h2, h3, h4⟩ := hd k i h
      refine ⟨r, firstReference_append_of_some refs _ k r h0, h1, h2, h3, ?_⟩
      rw [← h4]
      have hlt := remap_val_lt hw h
      have hlen := hw.len
      exact vertexAt_append_left _ _ _ _ i (by rw [hlen, kVertexStrideFloats]; omega)
    · have hnone : firstReference refs k = none := by
        rw [firstReference_eq_none, ← hk k, hk1, ← remapFind_eq_none]
        exact hf
      refine ⟨⟨keyIn st vi vti vni, st.positions.length, st.texcoords.length,
        st.normals.length⟩, ?_, le_refl _, le_refl _, le_refl _, ?_⟩
      · rw [firstReference_append_of_none refs _ k hnone, hk1]
        simp [firstReference]
      · rw [hk1, hi, hL]
        simp only [List.take_length]
        have := vertexAt_append_new st.out.vertices
          (vertexOf st.positions st.texcoords st.normals (keyIn st vi vti vni)) []
          st.out.indices st.vertexRemap.length (by rw [hw.len, kVertexStrideFloats]) rfl
        rw [List.append_nil] at this
        exact this

theorem frozen_buildFace (toks : List (List Char)) :
    ∀ (st : LoaderState F) (face : List Nat) (refs : List FaceRef), WellFormed st →
      (∀ k, k ∈ st.vertexRemap.map Prod.fst ↔ k ∈ refs.map FaceRef.key) → Frozen st refs →
      Frozen (buildFace st face toks).1
        (refs ++ (faceTriples st.positions.length st.texcoords.length st.normals.length
          toks).map (fun k => (⟨k, st.positions.length, st.texcoords.length,
            st.normals.length⟩ : FaceRef))) := by
  induction toks with
  | nil =>
    intro st face refs _ _ hd
    simpa [buildFace, faceTriples] using hd
  | cons tok toks ih =>
    intro st face refs hw hk hd
    cases hp : ParseFaceToken tok with
    | none =>
      have := ih st face refs hw hk hd
      simpa [buildFace, faceTriples, hp] using this
    | some r =>
      obtain ⟨vi, vti, vni⟩ := r
      obtain ⟨gw, ge, _, gk⟩ := goc_spec st hw vi vti vni
      have hk2 : ∀ k, k ∈ (GetOrCreateVertexIndex st vi vti vni).1.vertexRemap.map Prod.fst ↔
          k ∈ (refs ++ [(⟨keyIn st vi vti vni, st.positions.length, st.texcoords.length,
            st.normals.length⟩ : FaceRef)]).map FaceRef.key := by
        intro k
        rw [gk k, hk k]
        simp
      have := ih (GetOrCreateVertexIndex st vi vti vni).1
        (face ++ [(GetOrCreateVertexIndex st vi vti vni).2]) _ gw hk2
        (frozen_goc st refs hw hk hd vi vti vni)
      rw [ge.positions, ge.texcoords, ge.normals] at this
      simpa [buildFace, faceTriples, hp, keyIn] using this

/-- The references of a list of lines split at its first line. -/
theorem referencesOf_cons (rd : FloatReader F) (st : LoaderState F) (line : List Char)
    (rest : List (List Char)) :
    referencesOf st.positions.length st.texcoords.length st.normals.length (line :: rest) =
      referencesOf st.positions.length st.texcoords.length st.normals.length [line] ++
        referencesOf (processLine rd st line).positions.length
          (processLine rd st line).texcoords.length (processLine rd st line).normals.length
          rest := by
  have hb := (buildFace_extends (faceTokens (extractToken line).2) st []).1
  simp only [referencesOf, processLine, processFace]
  split_ifs <;>
    simp [referencesOf, hb.positions, hb.texcoords, hb.normals]

theorem frozen_processLine (rd : FloatReader F) (st : LoaderState F) (line : List Char)
    (refs : List FaceRef) (hw : WellFormed st)
    (hk : ∀ k, k ∈ st.vertexRemap.map Prod.fst ↔ k ∈ refs.map FaceRef.key)
    (hd : Frozen st refs) :
    Frozen (processLine rd st line)
      (refs ++ referencesOf st.positions.length st.texcoords.length st.normals.length
        [line]) := by
  by_cases hs : line = [] ∨ line.head? = some '#'
  · simp only [processLine, referencesOf, if_pos hs, List.append_nil]
    exact hd
  · simp only [processLine, referencesOf, if_neg hs]
    split_ifs with h1 h2 h3 h4
    · exact frozen_mono st _ refs [] rfl rfl (List.prefix_append _ _) (List.prefix_refl _)
        (List.prefix_refl _) hd
    · exact frozen_mono st _ refs [] rfl rfl (List.prefix_refl _) (List.prefix_append _ _)
        (List.prefix_refl _) hd
    · exact frozen_mono st _ refs [] rfl rfl (List.prefix_refl _) (List.prefix_refl _)
        (List.prefix_append _ _) hd
    · have hb := frozen_buildFace (faceTokens (extractToken line).2) st [] refs hw hk hd
      rw [List.append_nil]
      have := frozen_mono (buildFace st [] (faceTokens (extractToken line).2)).1
        (processFace st (extractToken line).2) _ [] rfl rfl (List.prefix_refl _)
        (List.prefix_refl _) (List.prefix_refl _) hb
      rw [List.append_nil] at this
      exact this
    · rw [List.append_nil]
      exact hd

theorem frozen_processLines (rd : FloatReader F) (lines : List (List Char)) :
    ∀ (st : LoaderState F) (refs : List FaceRef) (idxs : List Nat), WellFormed st →
      Tracks st (refs.map FaceRef.key) idxs → Frozen st refs →
      Frozen (processLines rd st lines)
        (refs ++ referencesOf st.positions.length st.texcoords.length st.normals.length
          lines) := by
  induction lines with
  | nil =>
    intro st refs idxs _ _ hd
    simpa [processLines, referencesOf] using hd
  | cons line rest ih =>
    intro st refs idxs hw ht hd
    have hstep : processLines rd st (line :: rest) =
        processLines rd (processLine rd st line) rest := rfl
    obtain ⟨w1, t1, _, _⟩ := processLines_spec rd [line] st _ _ hw ht
    have e1 : processLines rd st [line] = processLine rd st line := rfl
    rw [e1, ← referencesOf_keys, ← List.map_append] at t1
    have := ih (processLine rd st line) _ _ w1 t1
      (frozen_processLine rd st line refs hw ht.1 hd)
    rw [hstep, referencesOf_cons rd st line rest, ← List.append_assoc]
    exact this

/-- The loader state after any lines holds, for every emitted vertex, the data of its
triple frozen at the first reference. -/
theorem loadLines_frozen (rd : FloatReader F) (lines : List (List Char)) :
    Frozen (processLines rd (LoaderState.init : LoaderState F) lines)
      (referencesOf 0 0 0 lines) := by
  have := frozen_processLines rd lines (LoaderState.init : LoaderState F) [] []
    wellFormed_init tracks_init frozen_init
  simpa [LoaderState.init] using this

/-- Every reference of the text is answered with the output index of the vertex that
holds the frozen data of its triple. -/
theorem reference_vertex (rd : FloatReader F) (lines : List (List Char)) (j : Nat)
    (k : ObjVertexKey) (hj : (referencedTriples 0 0 0 lines)[j]? = some k) :
    ∃ i, (returnedIndices rd (LoaderState.init : LoaderState F) lines)[j]? = some i ∧
      (k, i) ∈ (processLines rd (LoaderState.init : LoaderState F) lines).vertexRemap ∧
      frozenVertex rd lines k = some (vertexAt (LoadLines rd lines) i) := by
  obtain ⟨hw, hk, hf⟩ := loadLines_spec rd lines
  have hfz := loadLines_frozen rd lines
  have hpos : (processLines rd (LoaderState.init : LoaderState F) lines).positions =
      declaredPositions rd lines := by
    simpa [LoaderState.init] using processLines_positions rd lines (LoaderState.init : LoaderState F)
  have htex : (processLines rd (LoaderState.init : LoaderState F) lines).texcoords =
      declaredTexcoords rd lines := by
    simpa [LoaderState.init] using processLines_texcoords rd lines (LoaderState.init : LoaderState F)
  have hnor : (processLines rd (LoaderState.init : LoaderState F) lines).normals =
      declaredNormals rd lines := by
    simpa [LoaderState.init] using processLines_normals rd lines (LoaderState.init : LoaderState F)
  have hj1 : j < (referencedTriples 0 0 0 lines).length := by
    by_contra hge
    rw [List.getElem?_eq_none (not_lt.mp hge)] at hj
    exact absurd hj (by simp)
  have hj2 : j < (returnedIndices rd (LoaderState.init : LoaderState F) lines).length :=
    hf.length_eq ▸ hj1
  have mj := (List.forall₂_iff_get.mp hf).2 j hj1 hj2
  simp only [List.get_eq_getElem] at mj
  rw [List.getElem?_eq_getElem hj1, Option.some.injEq] at hj
  rw [hj] at mj
  obtain ⟨r, h0, _, _, _, h4⟩ := hfz k _ mj
  refine ⟨_, List.getElem?_eq_getElem hj2, mj, ?_⟩
  rw [frozenVertex, h0, Option.map_some', LoadLines, h4, hpos, htex, hnor]

end FrozenLemmas

end ObjectLoader

namespace ObjectLoader

open Glm

section ReferenceLemmas

variable {F : Type} [Zero F] [One F]

/-- What the final remap says about an entry: the vertex at its index holds the frozen
data of its triple, every reference to the triple is answered with that index, and the
index denotes an emitted vertex. -/
theorem remap_entry_spec (rd : FloatReader F) (lines : List (List Char)) (k : ObjVertexKey)
    (i : Nat)
    (hmem : (k, i) ∈ (processLines rd (LoaderState.init : LoaderState F) lines).vertexRemap) :
    frozenVertex rd lines k = some (vertexAt (LoadLines rd lines) i) ∧
    (∀ j : Nat, (referencedTriples 0 0 0 lines)[j]? = some k →
      (returnedIndices rd (LoaderState.init : LoaderState F) lines)[j]? = some i) ∧
    i < (LoadLines rd lines).vertices.length / kVertexStrideFloats := by
  obtain ⟨hw, hk, hf⟩ := loadLines_spec rd lines
  refine ⟨?_, fun j hj => ?_, ?_⟩
  · obtain ⟨j, hj⟩ := List.getElem?_of_mem ((hk k).mp (List.mem_map_of_mem Prod.fst hmem))
    obtain ⟨i2, _, hm2, h3⟩ := reference_vertex rd lines j k hj
    obtain rfl : i2 = i := congrArg Prod.snd (List.inj_on_of_nodup_map hw.nodup hm2 hmem rfl)
    exact h3
  · obtain ⟨i2, h1, hm2, _⟩ := reference_vertex rd lines j k hj
    have := List.inj_on_of_nodup_map hw.nodup hm2 hmem rfl
    rw [h1]
    exact congrArg some (congrArg Prod.snd this)
  · rw [LoadLines, hw.len, kVertexStrideFloats, Nat.mul_div_cancel_left _ (by norm_num)]
    exact remap_val_lt hw hmem

theorem returnedIndices_append (rd : FloatReader F) (a b : List (List Char)) :
    ∀ st : LoaderState F,
      returnedIndices rd st (a ++ b) =
        returnedIndices rd st a ++ returnedIndices rd (processLines rd st a) b := by
  induction a with
  | nil => intro st; rfl
  | cons line rest ih =>
    intro st
    have hstep : processLines rd st (line :: rest) =
        processLines rd (processLine rd st line) rest := rfl
    rw [List.cons_append, returnedIndices, returnedIndices, ih, hstep, List.append_assoc]

theorem referencesOf_append (rd : FloatReader F) (a b : List (List Char)) :
    ∀ st : LoaderState F,
      referencesOf st.positions.length st.texcoords.length st.normals.length (a ++ b) =
        referencesOf st.positions.length st.texcoords.length st.normals.length a ++
          referencesOf (processLines rd st a).positions.length
            (processLines rd st a).texcoords.length (processLines rd st a).normals.length
            b := by
  induction a with
  | nil => intro st; rfl
  | cons line rest ih =>
    intro st
    have hstep : processLines rd st (line :: rest) =
        processLines rd (processLine rd st line) rest := rfl
    rw [List.cons_append, referencesOf_cons rd st line (rest ++ b),
      referencesOf_cons rd st line rest, ih, hstep, List.append_assoc]

theorem declaredPositions_append (rd : FloatReader F) (a b : List (List Char)) :
    declaredPositions rd (a ++ b) = declaredPositions rd a ++ declaredPositions rd b := by
  have h1 := processLines_positions rd (a ++ b) (LoaderState.init : LoaderState F)
  rw [processLines_append, processLines_positions, processLines_positions] at h1
  simpa [LoaderState.init] using h1.symm

theorem declaredTexcoords_append (rd : FloatReader F) (a b : List (List Char)) :
    declaredTexcoords rd (a ++ b) = declaredTexcoords rd a ++ declaredTexcoords rd b := by
  have h1 := processLines_texcoords rd (a ++ b) (LoaderState.init : LoaderState F)
  rw [processLines_append, processLines_texcoords, processLines_texcoords] at h1
  simpa [LoaderState.init] using h1.symm

theorem declaredNormals_append (rd : FloatReader F) (a b : List (List Char)) :
    declaredNormals rd (a ++ b) = declaredNormals rd a ++ declaredNormals rd b := by
  have h1 := processLines_normals rd (a ++ b) (LoaderState.init : LoaderState F)
  rw [processLines_append, processLines_normals, processLines_normals] at h1
  simpa [LoaderState.init] using h1.symm

/-- Every reference was made when at most the records of the text were declared. -/
theorem referencesOf_counts_le (rd : FloatReader F) (lines : List (List Char)) :
    ∀ (np nt nn : Nat), ∀ r ∈ referencesOf np nt nn lines,
      r.np ≤ np + (declaredPositions rd lines).length ∧
      r.nt ≤ nt + (declaredTexcoords rd lines).length ∧
      r.nn ≤ nn + (declaredNormals rd lines).length := by
  induction lines with
  | nil => intro np nt nn r h; simp [referencesOf] at h
  | cons line rest ih =>
    intro np nt nn r h
    have hvt : "vt".toList ≠ "v".toList := by decide
    have hvn : "vn".toList ≠ "v".toList := by decide
    have hnt : "vn".toList ≠ "vt".toList := by decide
    simp only [referencesOf, declaredPositions, declaredTexcoords, declaredNormals] at h ⊢
    by_cases hs : line = [] ∨ line.head? = some '#'
    · simp only [if_pos hs] at h ⊢
      exact ih np nt nn r h
    · simp only [if_neg hs] at h ⊢
      by_cases h1 : (extractToken line).1 = "v".toList
      · simp only [if_pos h1] at h
        have := ih (np + 1) nt nn r h
        simp only [h1, if_true, if_neg hvt.symm, if_neg hvn.symm, List.length_cons]
        omega
      · simp only [if_neg h1] at h ⊢
        by_cases h2 : (extractToken line).1 = "vt".toList
        · simp only [if_pos h2] at h
          have := ih np (nt + 1) nn r h
          simp only [h2, if_true, if_neg hnt.symm, List.length_cons]
          omega
        · simp only [if_neg h2] at h ⊢
          by_cases h3 : (extractToken line).1 = "vn".toList
          · simp only [if_pos h3] at h
            have := ih np nt (nn + 1) r h
            simp only [if_pos h3, List.length_cons]
            omega
          · simp only [if_neg h3] at h ⊢
            by_cases h4 : (extractToken line).1 = "f".toList
            · simp only [if_pos h4, List.mem_append, List.mem_map] at h
              rcases h with ⟨k, _, hk⟩ | h
              · subst hk
                simp only
                omega
              · have := ih np nt nn r h
                omega
            · simp only [if_neg h4] at h
              have := ih np nt nn r h
              omega

theorem faceTriples_length (np nt nn : Nat) (toks : List (List Char)) :
    (faceTriples np nt nn toks).length = (wellFormedTokens toks).length := by
  induction toks with
  | nil => rfl
  | cons tok toks ih =>
    cases hp : ParseFaceToken tok <;>
      simp [faceTriples, wellFormedTokens, hp] at ih ⊢ <;> exact ih

end ReferenceLemmas

end ObjectLoader

namespace ObjectLoader

open Glm

section TokenReference

variable {F : Type} [Zero F] [One F]

/-- A token anywhere in a face record: the face entry made for it is the output index
of the vertex that holds the frozen data of its triple, resolved against the record
counts before the face record; the first reference to the triple was made no later, so
with at most those records declared; and every reference of the file to the triple is
answered with the same index. -/
theorem token_reference (rd : FloatReader F) (pre post : List (List Char))
    (line tok : List Char) (toks1 toks2 : List (List Char)) (vi vti vni : Int)
    (hline : isFaceLine line = true)
    (htoks : faceTokens (extractToken line).2 = toks1 ++ tok :: toks2)
    (hparse : ParseFaceToken tok = some (vi, vti, vni)) :
    ∃ (i : Nat) (r0 : FaceRef),
      (faceOfLine (processLines rd (LoaderState.init : LoaderState F) pre) line)[
        (wellFormedTokens toks1).length]? = some i ∧
      firstReference (referencesOf 0 0 0 (pre ++ line :: post))
        ⟨resolveIndex (declaredPositions rd pre).length vi,
          resolveIndex (declaredTexcoords rd pre).length vti,
          resolveIndex (declaredNormals rd pre).length vni⟩ = some r0 ∧
      r0.np ≤ (declaredPositions rd pre).length ∧
      r0.nt ≤ (declaredTexcoords rd pre).length ∧
      r0.nn ≤ (declaredNormals rd pre).length ∧
      ((⟨resolveIndex (declaredPositions rd pre).length vi,
          resolveIndex (declaredTexcoords rd pre).length vti,
          resolveIndex (declaredNormals rd pre).length vni⟩ : ObjVertexKey) ∉
          referencedTriples 0 0 0 pre →
        (⟨resolveIndex (declaredPositions rd pre).length vi,
          resolveIndex (declaredTexcoords rd pre).length vti,
          resolveIndex (declaredNormals rd pre).length vni⟩ : ObjVertexKey) ∉
          faceTriples (declaredPositions rd pre).length (declaredTexcoords rd pre).length
            (declaredNormals rd pre).length toks1 →
        r0 = ⟨⟨resolveIndex (declaredPositions rd pre).length vi,
            resolveIndex (declaredTexcoords rd pre).length vti,
            resolveIndex (declaredNormals rd pre).length vni⟩,
          (declaredPositions rd pre).length, (declaredTexcoords rd pre).length,
          (declaredNormals rd pre).length⟩) ∧
      vertexAt (LoadLines rd (pre ++ line :: post)) i =
        vertexOf ((declaredPositions rd pre).take r0.np)
          ((declaredTexcoords rd pre).take r0.nt) ((declaredNormals rd pre).take r0.nn)
          ⟨resolveIndex (declaredPositions rd pre).length vi,
            resolveIndex (declaredTexcoords rd pre).length vti,
            resolveIndex (declaredNormals rd pre).length vni⟩ ∧
      (∀ j : Nat, (referencedTriples 0 0 0 (pre ++ line :: post))[j]? =
          some ⟨resolveIndex (declaredPositions rd pre).length vi,
            resolveIndex (declaredTexcoords rd pre).length vti,
            resolveIndex (declaredNormals rd pre).length vni⟩ →
        (returnedIndices rd (LoaderState.init : LoaderState F) (pre ++ line :: post))[j]? =
          some i) ∧
      i < (LoadLines rd (pre ++ line :: post)).vertices.length / kVertexStrideFloats := by
  -- the state before the face record
  have hpos : (processLines rd (LoaderState.init : LoaderState F) pre).positions =
      declaredPositions rd pre := by
    simpa [LoaderState.init] using processLines_positions rd pre (LoaderState.init : LoaderState F)
  have htex : (processLines rd (LoaderState.init : LoaderState F) pre).texcoords =
      declaredTexcoords rd pre := by
    simpa [LoaderState.init] using processLines_texcoords rd pre (LoaderState.init : LoaderState F)
  have hnor : (processLines rd (LoaderState.init : LoaderState F) pre).normals =
      declaredNormals rd pre := by
    simpa [LoaderState.init] using processLines_normals rd pre (LoaderState.init : LoaderState F)
  obtain ⟨hwp, htp⟩ := loadLines_spec rd pre
  have hlenpre : (returnedIndices rd (LoaderState.init : LoaderState F) pre).length =
      (referencedTriples 0 0 0 pre).length := htp.2.length_eq.symm
  generalize hst : processLines rd (LoaderState.init : LoaderState F) pre = st
    at hpos htex hnor hwp htp
  generalize hnp : (declaredPositions rd pre).length = np at hpos ⊢
  generalize hnt : (declaredTexcoords rd pre).length = nt at htex ⊢
  generalize hnn : (declaredNormals rd pre).length = nn at hnor ⊢
  have hP : st.positions.length = np := by rw [hpos, hnp]
  have hT : st.texcoords.length = nt := by rw [htex, hnt]
  have hN : st.normals.length = nn := by rw [hnor, hnn]
  simp only [isFaceLine, Bool.and_eq_true, Bool.not_eq_true', Bool.or_eq_false_iff,
    decide_eq_false_iff_not, decide_eq_true_eq] at hline
  obtain ⟨⟨hne, hc⟩, hf⟩ := hline
  have hs : ¬ (line = [] ∨ line.head? = some '#') := fun h => h.elim hne hc
  have hv1 : ¬ (extractToken line).1 = "v".toList := by rw [hf]; decide
  have hv2 : ¬ (extractToken line).1 = "vt".toList := by rw [hf]; decide
  have hv3 : ¬ (extractToken line).1 = "vn".toList := by rw [hf]; decide
  -- the references of the file, split around the token
  have hrefline : referencesOf np nt nn [line] =
      (faceTriples np nt nn toks1).map (fun k => (⟨k, np, nt, nn⟩ : FaceRef)) ++
        (⟨⟨resolveIndex np vi, resolveIndex nt vti, resolveIndex nn vni⟩, np, nt, nn⟩ ::
          (faceTriples np nt nn toks2).map (fun k => (⟨k, np, nt, nn⟩ : FaceRef))) := by
    simp [referencesOf, hs, hv1, hv2, hv3, hf, htoks, faceTriples, hparse]
  have hrefs : referencesOf 0 0 0 (pre ++ line :: post) =
      (referencesOf 0 0 0 pre ++
        ((faceTriples np nt nn toks1).map (fun k => (⟨k, np, nt, nn⟩ : FaceRef)) ++
          [⟨⟨resolveIndex np vi, resolveIndex nt vti, resolveIndex nn vni⟩, np, nt, nn⟩])) ++
        ((faceTriples np nt nn toks2).map (fun k => (⟨k, np, nt, nn⟩ : FaceRef)) ++
          referencesOf (processLine rd st line).positions.length
            (processLine rd st line).texcoords.length
            (processLine rd st line).normals.length post) := by
    have h1 := referencesOf_append rd pre (line :: post) (LoaderState.init : LoaderState F)
    have h2 := referencesOf_cons rd st line post
    rw [hst, hP, hT, hN] at h1
    rw [hP, hT, hN, hrefline] at h2
    have h0 : referencesOf 0 0 0 (pre ++ line :: post) =
        referencesOf 0 0 0 pre ++ referencesOf np nt nn (line :: post) := h1
    rw [h0, h2]
    simp only [List.append_assoc, List.cons_append, List.nil_append]
  -- the face vector of the line
  have hfol : faceOfLine st line = (buildFace st [] (faceTokens (extractToken line).2)).2 := by
    simp [faceOfLine, hs, hv1, hv2, hv3, hf]
  obtain ⟨newIdx, hnew, _, _, hnt2, _⟩ :=
    buildFace_spec (faceTokens (extractToken line).2) st [] _ _ hwp htp
  rw [List.nil_append] at hnew
  have hflen : (faceOfLine st line).length =
      (faceTriples np nt nn (faceTokens (extractToken line).2)).length := by
    have h1 := hnt2.2.length_eq
    rw [List.length_append, List.length_append, hP, hT, hN] at h1
    rw [hfol, hnew]
    omega
  have hm : (wellFormedTokens toks1).length = (faceTriples np nt nn toks1).length :=
    (faceTriples_length np nt nn toks1).symm
  have hft : faceTriples np nt nn (faceTokens (extractToken line).2) =
      faceTriples np nt nn toks1 ++
        (⟨resolveIndex np vi, resolveIndex nt vti, resolveIndex nn vni⟩ ::
          faceTriples np nt nn toks2) := by
    simp [htoks, faceTriples, hparse]
  have hmlt : (faceTriples np nt nn toks1).length < (faceOfLine st line).length := by
    rw [hflen, hft, List.length_append, List.length_cons]
    omega
  -- the reference index of the token in the file
  have hkeys : referencedTriples 0 0 0 (pre ++ line :: post) =
      referencedTriples 0 0 0 pre ++
        (faceTriples np nt nn (faceTokens (extractToken line).2) ++
          referencedTriples (processLine rd st line).positions.length
            (processLine rd st line).texcoords.length
            (processLine rd st line).normals.length post) := by
    rw [← referencesOf_keys, hrefs, hft]
    simp only [List.map_append, List.map_map, referencesOf_keys, List.map_cons, List.map_nil,
      Function.comp_def, List.map_id', List.append_assoc, List.cons_append, List.nil_append]
  have hidxs : returnedIndices rd (LoaderState.init : LoaderState F) (pre ++ line :: post) =
      returnedIndices rd (LoaderState.init : LoaderState F) pre ++
        (faceOfLine st line ++ returnedIndices rd (processLine rd st line) post) := by
    rw [returnedIndices_append, hst]
    rfl
  have hj : (referencedTriples 0 0 0 (pre ++ line :: post))[
      (referencedTriples 0 0 0 pre).length + (faceTriples np nt nn toks1).length]? =
      some ⟨resolveIndex np vi, resolveIndex nt vti, resolveIndex nn vni⟩ := by
    rw [hkeys, List.getElem?_append_right (by omega), Nat.add_sub_cancel_left, hft,
      List.append_assoc, List.getElem?_append_right (le_refl _), Nat.sub_self]
    simp
  obtain ⟨i, hi, hmem, hfz⟩ := reference_vertex rd (pre ++ line :: post) _ _ hj
  obtain ⟨_, hall, hlt⟩ := remap_entry_spec rd (pre ++ line :: post) _ i hmem
  have hface : (faceOfLine st line)[(faceTriples np nt nn toks1).length]? = some i := by
    rw [hidxs, ← hlenpre, List.getElem?_append_right (by omega), Nat.add_sub_cancel_left,
      List.getElem?_append_left hmlt] at hi
    exact hi
  -- the first reference to the triple
  have hsome : ∃ r0, firstReference (referencesOf 0 0 0 pre ++
      ((faceTriples np nt nn toks1).map (fun k => (⟨k, np, nt, nn⟩ : FaceRef)) ++
        [⟨⟨resolveIndex np vi, resolveIndex nt vti, resolveIndex nn vni⟩, np, nt, nn⟩]))
      ⟨resolveIndex np vi, resolveIndex nt vti, resolveIndex nn vni⟩ = some r0 := by
    cases h : firstReference (referencesOf 0 0 0 pre ++
      ((faceTriples np nt nn toks1).map (fun k => (⟨k, np, nt, nn⟩ : FaceRef)) ++
        [⟨⟨resolveIndex np vi, resolveIndex nt vti, resolveIndex nn vni⟩, np, nt, nn⟩]))
      ⟨resolveIndex np vi, resolveIndex nt vti, resolveIndex nn vni⟩ with
    | some r0 => exact ⟨r0, rfl⟩
    | none =>
      rw [firstReference_eq_none] at h
      exact absurd (by simp) h
  obtain ⟨r0, hr0⟩ := hsome
  have hr0all := firstReference_append_of_some _
    ((faceTriples np nt nn toks2).map (fun k => (⟨k, np, nt, nn⟩ : FaceRef)) ++
      referencesOf (processLine rd st line).positions.length
        (processLine rd st line).texcoords.length
        (processLine rd st line).normals.length post) _ r0 hr0
  rw [← hrefs] at hr0all
  have hle : r0.np ≤ np ∧ r0.nt ≤ nt ∧ r0.nn ≤ nn := by
    have hin := (firstReference_key _ _ _ hr0).2
    simp only [List.mem_append, List.mem_map, List.mem_singleton] at hin
    rcases hin with hin | ⟨k, _, hk⟩ | hk
    · have := referencesOf_counts_le rd pre 0 0 0 r0 hin
      omega
    · subst hk
      exact ⟨le_refl _, le_refl _, le_refl _⟩
    · subst hk
      exact ⟨le_refl _, le_refl _, le_refl _⟩
  have hfirst : (⟨resolveIndex np vi, resolveIndex nt vti, resolveIndex nn vni⟩ :
        ObjVertexKey) ∉ referencedTriples 0 0 0 pre →
      (⟨resolveIndex np vi, resolveIndex nt vti, resolveIndex nn vni⟩ : ObjVertexKey) ∉
        faceTriples np nt nn toks1 →
      r0 = ⟨⟨resolveIndex np vi, resolveIndex nt vti, resolveIndex nn vni⟩, np, nt, nn⟩ := by
    intro h1 h2
    have e1 : firstReference (referencesOf 0 0 0 pre)
        ⟨resolveIndex np vi, resolveIndex nt vti, resolveIndex nn vni⟩ = none := by
      rw [firstReference_eq_none, referencesOf_keys]
      exact h1
    have e2 : firstReference
        ((faceTriples np nt nn toks1).map (fun k => (⟨k, np, nt, nn⟩ : FaceRef)))
        ⟨resolveIndex np vi, resolveIndex nt vti, resolveIndex nn vni⟩ = none := by
      rw [firstReference_eq_none]
      simpa [Function.comp_def] using h2
    rw [firstReference_append_of_none _ _ _ e1, firstReference_append_of_none _ _ _ e2] at hr0
    simp only [firstReference, List.find?_cons, decide_True, Option.some.injEq] at hr0
    exact hr0.symm
  -- the data of the vertex
  have hdata : vertexAt (LoadLines rd (pre ++ line :: post)) i =
      vertexOf ((declaredPositions rd pre).take r0.np)
        ((declaredTexcoords rd pre).take r0.nt) ((declaredNormals rd pre).take r0.nn)
        ⟨resolveIndex np vi, resolveIndex nt vti, resolveIndex nn vni⟩ := by
    rw [frozenVertex, hr0all, Option.map_some', Option.some.injEq] at hfz
    rw [← hfz, declaredPositions_append, declaredTexcoords_append, declaredNormals_append,
      List.take_append_of_le_length (by omega), List.take_append_of_le_length (by omega),
      List.take_append_of_le_length (by omega)]
  rw [hm]
  exact ⟨i, r0, hface, hr0all, hle.1, hle.2.1, hle.2.2, hfirst, hdata, hall, hlt⟩

end TokenReference

end ObjectLoader

namespace ObjectLoader

open Glm

section FrozenClaims

variable {F : Type} [Zero F] [One F]

/-- C26: the data of an emitted vertex is frozen at the first reference to its triple.
When a token of a face record, in any place of the record, refers to a position index
greater than the number of positions declared before the face record, the vertex it is
answered with has position `(0,0,0)` and white colour in the returned mesh, whatever
lines follow (declarations of that position included), and every reference of the file
that resolves to the same triple, before or after such a declaration, is answered with
that same output index, which denotes an emitted vertex. -/
theorem forward_reference_vertex_is_frozen (rd : FloatReader F)
    (pre post : List (List Char)) (line tok : List Char) (toks1 toks2 : List (List Char))
    (vi vti vni : Int)
    (hline : isFaceLine line = true)
    (htoks : faceTokens (extractToken line).2 = toks1 ++ tok :: toks2)
    (hparse : ParseFaceToken tok = some (vi, vti, vni))
    (hfwd : ((declaredPositions rd pre).length : Int) < vi) :
    (∃ (uv : Vec2 F) (n : Vec3 F),
      vertexAt (LoadLines rd (pre ++ line :: post))
          ((faceOfLine (processLines rd LoaderState.init pre) line).getD
            (wellFormedTokens toks1).length 0) =
        [0, 0, 0, 1, 1, 1, uv.x, uv.y, n.x, n.y, n.z]) ∧
    (∀ j : Nat, (referencedTriples 0 0 0 (pre ++ line :: post))[j]? =
        some ⟨vi, resolveIndex (declaredTexcoords rd pre).length vti,
          resolveIndex (declaredNormals rd pre).length vni⟩ →
      (returnedIndices rd (LoaderState.init : LoaderState F) (pre ++ line :: post))[j]? =
        some ((faceOfLine (processLines rd LoaderState.init pre) line).getD
          (wellFormedTokens toks1).length 0)) ∧
    (faceOfLine (processLines rd LoaderState.init pre) line).getD
        (wellFormedTokens toks1).length 0 <
      (LoadLines rd (pre ++ line :: post)).vertices.length / kVertexStrideFloats := by
  obtain ⟨i, r0, hface, _, h1, _, _, _, hdata, hall, hlt⟩ :=
    token_reference rd pre post line tok toks1 toks2 vi vti vni hline htoks hparse
  have hvi : ¬ vi < 0 := by
    have : (0 : Int) ≤ ((declaredPositions rd pre).length : Int) := Int.natCast_nonneg _
    omega
  have hres : resolveIndex (declaredPositions rd pre).length vi = vi := by
    rw [resolveIndex, if_neg hvi]
  rw [hres] at hdata hall
  have hi : (faceOfLine (processLines rd (LoaderState.init : LoaderState F) pre) line).getD
      (wellFormedTokens toks1).length 0 = i := by
    rw [List.getD_eq_getElem?_getD, hface]
    rfl
  rw [hi]
  have hread : readPosition ((declaredPositions rd pre).take r0.np) vi = ⟨0, 0, 0⟩ := by
    rw [readPosition, if_neg]
    intro h
    rw [List.length_take] at h
    have : min r0.np (declaredPositions rd pre).length ≤ (declaredPositions rd pre).length :=
      min_le_right _ _
    omega
  refine ⟨⟨readTexcoord ((declaredTexcoords rd pre).take r0.nt)
      (resolveIndex (declaredTexcoords rd pre).length vti),
    readNormal ((declaredNormals rd pre).take r0.nn)
      (resolveIndex (declaredNormals rd pre).length vni), ?_⟩, hall, hlt⟩
  rw [hdata]
  simp only [vertexOf, hread]

/-- Witness for C26: the third token of `f 1 2 3` refers to position 3 before any
position is declared; the positions are declared afterwards and referenced again by
`f 3 2 1`.  Output vertex 2 keeps position `(0,0,0)` and every reference to the triple
is answered with index 2. -/
theorem forward_reference_vertex_is_frozen_witness :
    (∃ (uv : Vec2 Int) (n : Vec3 Int),
      vertexAt (LoadLines (F := Int) ⟨fun r => ⟨r.length, 0, 0⟩, fun _ => ⟨0, 0⟩⟩
        ([] ++ "f 1 2 3".toList ::
          ["v 1 0 0".toList, "v 22 0 0".toList, "v 333 0 0".toList, "f 3 2 1".toList])) 2 =
        [0, 0, 0, 1, 1, 1, uv.x, uv.y, n.x, n.y, n.z]) ∧
    (∀ j : Nat, (referencedTriples 0 0 0
        ([] ++ "f 1 2 3".toList ::
          ["v 1 0 0".toList, "v 22 0 0".toList, "v 333 0 0".toList,
            "f 3 2 1".toList]))[j]? = some (⟨3, 0, 0⟩ : ObjVertexKey) →
      (returnedIndices (F := Int) ⟨fun r => ⟨r.length, 0, 0⟩, fun _ => ⟨0, 0⟩⟩
        LoaderState.init
        ([] ++ "f 1 2 3".toList ::
          ["v 1 0 0".toList, "v 22 0 0".toList, "v 333 0 0".toList,
            "f 3 2 1".toList]))[j]? = some 2) := by
  have h := forward_reference_vertex_is_frozen (F := Int)
    ⟨fun r => ⟨r.length, 0, 0⟩, fun _ => ⟨0, 0⟩⟩
    [] ["v 1 0 0".toList, "v 22 0 0".toList, "v 333 0 0".toList, "f 3 2 1".toList]
    "f 1 2 3".toList "3".toList ["1".toList, "2".toList] [] 3 0 0
    (by decide) (by decide) (by decide) (by decide)
  exact ⟨h.1, h.2.1⟩

end FrozenClaims

end ObjectLoader

namespace ObjectLoader

open Glm

section TokenShape

theorem span_no_slash (s : List Char) (h : '/' ∉ s) :
    s.span (fun c => decide (c ≠ '/')) = (s, []) := by
  have hall : ∀ c ∈ s, (fun c => decide (c ≠ '/')) c = true := by
    intro c hc
    simp only [decide_eq_true_eq]
    intro he
    exact h (he ▸ hc)
  rw [List.span_eq_take_drop, List.takeWhile_eq_self_iff.mpr hall,
    List.dropWhile_eq_nil_iff.mpr hall]

theorem span_slash (a rest : List Char) (h : '/' ∉ a) :
    (a ++ '/' :: rest).span (fun c => decide (c ≠ '/')) = (a, '/' :: rest) := by
  have hall : ∀ c ∈ a, (fun c => decide (c ≠ '/')) c = true := by
    intro c hc
    simp only [decide_eq_true_eq]
    intro he
    exact h (he ▸ hc)
  rw [List.span_eq_take_drop, List.takeWhile_append_of_pos hall,
    List.dropWhile_append_of_pos hall]
  simp

/-- A token without a slash is read as a position index alone. -/
theorem parse_no_slash (tok : List Char) (h : '/' ∉ tok) :
    ParseFaceToken tok = (stoi tok).map (fun vi => (vi, 0, 0)) := by
  simp only [ParseFaceToken, span_no_slash tok h]

/-- A token `a/b` with one slash: position field `a`, texcoord field `b`. -/
theorem parse_one_slash (a b : List Char) (ha : '/' ∉ a) (hb : '/' ∉ b) :
    ParseFaceToken (a ++ '/' :: b) =
      (parseField a).bind (fun vi => (parseField b).map (fun vti => (vi, vti, 0))) := by
  simp only [ParseFaceToken, span_slash a b ha, span_no_slash b hb]
  cases parseField a <;> rfl

/-- A token `a/b/c`: position field `a`, texcoord field `b`, and the rest `c` after the
second slash as normal field. -/
theorem parse_two_slash (a b c : List Char) (ha : '/' ∉ a) (hb : '/' ∉ b) :
    ParseFaceToken (a ++ '/' :: (b ++ '/' :: c)) =
      (parseField a).bind (fun vi => (parseField b).bind (fun vti =>
        (parseField c).map (fun vni => (vi, vti, vni)))) := by
  simp only [ParseFaceToken, span_slash a (b ++ '/' :: c) ha, span_slash b c hb]
  cases parseField a with
  | none => rfl
  | some vi => cases parseField b <;> rfl

end TokenShape

section LayoutClaims

variable {F : Type} [Zero F] [One F]

/-- C17: every vertex `LoadOBJ` emits is 11 scalars in the order position (3), colour
(3), texcoord (2), normal (3) with colour `(1, 1, 1)`, and it is the vertex of its own
triple: each reference of the text is answered with the output index of the vertex that
holds the data of the referenced triple, read from the records declared before the face
record that refers to the triple first, and every emitted vertex is the vertex of
exactly such a triple.  A token without texcoord field gives texcoord index 0 and with
it texcoord `(0, 0)`; one without normal field gives normal index 0 and normal
`(0, 0, 1)`; an index that is present and in range of the records declared at that
moment yields the components of the referenced record. -/
theorem emitted_vertex_layout (rd : FloatReader F) (file : Option (List Char)) :
    (∀ (j : Nat) (k : ObjVertexKey),
      (referencedTriples 0 0 0 (fileLines file))[j]? = some k →
      ∃ i, (returnedIndices rd (LoaderState.init : LoaderState F) (fileLines file))[j]? =
          some i ∧
        i < (LoadOBJ rd file).vertices.length / kVertexStrideFloats ∧
        frozenVertex rd (fileLines file) k = some (vertexAt (LoadOBJ rd file) i)) ∧
    (∀ i, i < (LoadOBJ rd file).vertices.length / kVertexStrideFloats →
      ∃ k, k ∈ referencedTriples 0 0 0 (fileLines file) ∧
        frozenVertex rd (fileLines file) k = some (vertexAt (LoadOBJ rd file) i) ∧
        ∀ j : Nat, (referencedTriples 0 0 0 (fileLines file))[j]? = some k →
          (returnedIndices rd (LoaderState.init : LoaderState F) (fileLines file))[j]? =
            some i) ∧
    (∀ (lines : List (List Char)) (k : ObjVertexKey) (v : List F),
      frozenVertex rd lines k = some v →
      ∃ r, firstReference (referencesOf 0 0 0 lines) k = some r ∧
        v = [(readPosition ((declaredPositions rd lines).take r.np) k.v).x,
          (readPosition ((declaredPositions rd lines).take r.np) k.v).y,
          (readPosition ((declaredPositions rd lines).take r.np) k.v).z, 1, 1, 1,
          (readTexcoord ((declaredTexcoords rd lines).take r.nt) k.vt).x,
          (readTexcoord ((declaredTexcoords rd lines).take r.nt) k.vt).y,
          (readNormal ((declaredNormals rd lines).take r.nn) k.vn).x,
          (readNormal ((declaredNormals rd lines).take r.nn) k.vn).y,
          (readNormal ((declaredNormals rd lines).take r.nn) k.vn).z]) ∧
    (∀ (tok : List Char) (r : Int × Int × Int), '/' ∉ tok → ParseFaceToken tok = some r →
      r.2.1 = 0 ∧ r.2.2 = 0) ∧
    (∀ (a b : List Char) (r : Int × Int × Int), '/' ∉ a → '/' ∉ b →
      ParseFaceToken (a ++ '/' :: b) = some r → r.2.2 = 0) ∧
    (∀ (a c : List Char) (r : Int × Int × Int), '/' ∉ a →
      ParseFaceToken (a ++ '/' :: '/' :: c) = some r → r.2.1 = 0) ∧
    (∀ n : Nat, resolveIndex n 0 = 0) ∧
    (∀ T : List (Vec2 F), readTexcoord T 0 = ⟨0, 0⟩) ∧
    (∀ N : List (Vec3 F), readNormal N 0 = ⟨0, 0, 1⟩) ∧
    (∀ (P : List (Vec3 F)) (np : Nat) (v : Int), np ≤ P.length → 0 < v → v ≤ (np : Int) →
      readPosition (P.take np) v = P.getD (v - 1).toNat ⟨0, 0, 0⟩) ∧
    (∀ (T : List (Vec2 F)) (nt : Nat) (v : Int), nt ≤ T.length → 0 < v → v ≤ (nt : Int) →
      readTexcoord (T.take nt) v = T.getD (v - 1).toNat ⟨0, 0⟩) ∧
    (∀ (N : List (Vec3 F)) (nn : Nat) (v : Int), nn ≤ N.length → 0 < v → v ≤ (nn : Int) →
      readNormal (N.take nn) v = N.getD (v - 1).toNat ⟨0, 0, 1⟩) := by
  refine ⟨?_, ?_, ?_, ?_, ?_, ?_, fun n => by simp [resolveIndex],
    fun T => by simp [readTexcoord], fun N => by simp [readNormal], ?_, ?_, ?_⟩
  · intro j k hj
    rw [loadOBJ_eq_loadLines]
    obtain ⟨i, h1, hmem, h3⟩ := reference_vertex rd (fileLines file) j k hj
    exact ⟨i, h1, (remap_entry_spec rd (fileLines file) k i hmem).2.2, h3⟩
  · intro i hi
    rw [loadOBJ_eq_loadLines] at hi ⊢
    obtain ⟨hw, hk, _⟩ := loadLines_spec rd (fileLines file)
    simp only [LoadLines] at hi
    rw [hw.len, kVertexStrideFloats, Nat.mul_div_cancel_left _ (by norm_num)] at hi
    have hmem : i ∈ (processLines rd LoaderState.init (fileLines file)).vertexRemap.map
        Prod.snd := by
      rw [hw.vals]
      exact List.mem_range.mpr hi
    obtain ⟨e, he, hei⟩ := List.mem_map.mp hmem
    obtain ⟨k, i2⟩ := e
    simp only at hei
    subst hei
    obtain ⟨h1, h2, _⟩ := remap_entry_spec rd (fileLines file) k i2 he
    exact ⟨k, (hk k).mp (List.mem_map_of_mem Prod.fst he), h1, h2⟩
  · intro lines k v hv
    simp only [frozenVertex, Option.map_eq_some'] at hv
    obtain ⟨r, hr, hv⟩ := hv
    exact ⟨r, hr, hv.symm⟩
  · intro tok r h hp
    rw [parse_no_slash tok h, Option.map_eq_some'] at hp
    obtain ⟨vi, _, hr⟩ := hp
    rw [← hr]
    exact ⟨rfl, rfl⟩
  · intro a b r ha hb hp
    rw [parse_one_slash a b ha hb] at hp
    cases h1 : parseField a with
    | none => simp [h1] at hp
    | some vi =>
      cases h2 : parseField b with
      | none => simp [h1, h2] at hp
      | some vti =>
        simp only [h1, h2, Option.some_bind, Option.map_some', Option.some.injEq] at hp
        rw [← hp]
  · intro a c r ha hp
    have := parse_two_slash a [] c ha (by simp)
    rw [List.nil_append] at this
    rw [this] at hp
    have he : parseField [] = some 0 := rfl
    rw [he] at hp
    cases h1 : parseField a with
    | none => simp [h1] at hp
    | some vi =>
      cases h3 : parseField c with
      | none => simp [h1, h3] at hp
      | some vni =>
        simp only [h1, h3, Option.some_bind, Option.map_some', Option.some.injEq] at hp
        rw [← hp]
  · intro P np v hle h0 h1
    refine readPosition_prefix _ _ _ (List.take_prefix _ _) h0 ?_
    rw [List.length_take, min_eq_left hle]
    exact h1
  · intro T nt v hle h0 h1
    refine readTexcoord_prefix _ _ _ (List.take_prefix _ _) h0 ?_
    rw [List.length_take, min_eq_left hle]
    exact h1
  · intro N nn v hle h0 h1
    refine readNormal_prefix _ _ _ (List.take_prefix _ _) h0 ?_
    rw [List.length_take, min_eq_left hle]
    exact h1

end LayoutClaims

end ObjectLoader

namespace ObjectLoader

open Glm

section ReadableLemmas

theorem stoi_isSome (s : List Char) : (stoi s).isSome = beginsWithInt s := by
  unfold stoi beginsWithInt
  cases hb : s.dropWhile isSpace with
  | nil => simp
  | cons c r =>
    by_cases hm : c = '-'
    · subst hm
      simp only [List.head?_cons, true_or, if_true, List.tail_cons]
      by_cases hd : r.takeWhile Char.isDigit = []
      · simp [hd]
      · simp only [hd, if_false, List.isEmpty_eq_true, Bool.not_eq_true', decide_eq_false_iff_not,
          not_false_eq_true, decide_True, Bool.true_and]
        by_cases hr : List.foldl (fun a c => 10 * a + (c.toNat - 48)) 0
            (r.takeWhile Char.isDigit) ≤ 2147483648
        · rw [if_pos (by constructor <;> omega)]
          simp [hr, hd]
        · rw [if_neg (by intro h; omega)]
          simp [hr, hd]
    · by_cases hp : c = '+'
      · subst hp
        have hne : ¬ ('+' = '-') := by decide
        simp only [List.head?_cons, hne, if_false, or_true, if_true, List.tail_cons,
          Option.some.injEq, false_or]
        by_cases hd : r.takeWhile Char.isDigit = []
        · simp [hd]
        · by_cases hr : List.foldl (fun a c => 10 * a + (c.toNat - 48)) 0
              (r.takeWhile Char.isDigit) ≤ 2147483647
          · simp only [hd, if_false, Bool.false_eq_true]
            rw [if_pos (by constructor <;> omega)]
            simp [hr, hd]
          · simp only [hd, if_false, Bool.false_eq_true]
            rw [if_neg (by intro h; omega)]
            simp [hr, hd]
      · simp only [List.head?_cons, Option.some.injEq, hm, hp, if_false, or_self]
        by_cases hd : (c :: r).takeWhile Char.isDigit = []
        · simp [hd]
        · by_cases hr : List.foldl (fun a c => 10 * a + (c.toNat - 48)) 0
              ((c :: r).takeWhile Char.isDigit) ≤ 2147483647
          · simp only [hd, if_false, Bool.false_eq_true]
            rw [if_pos (by constructor <;> omega)]
            simp [hr, hd]
          · simp only [hd, if_false, Bool.false_eq_true]
            rw [if_neg (by intro h; omega)]
            simp [hr, hd]

theorem parseField_isSome (s : List Char) : (parseField s).isSome = fieldReadable s := by
  unfold parseField fieldReadable
  by_cases h : s = []
  · simp [h]
  · simp [h, stoi_isSome]

end ReadableLemmas

section ReadableTokenClaims

variable {F : Type} [Zero F] [One F]

theorem buildFace_length (toks : List (List Char)) :
    ∀ (st : LoaderState F) (face : List Nat),
      (buildFace st face toks).2.length = face.length + (wellFormedTokens toks).length := by
  induction toks with
  | nil => intro st face; simp [buildFace, wellFormedTokens]
  | cons tok toks ih =>
    intro st face
    cases hp : ParseFaceToken tok with
    | none =>
      have := ih st face
      simpa [buildFace, wellFormedTokens, hp] using this
    | some r =>
      obtain ⟨vi, vti, vni⟩ := r
      have := ih (GetOrCreateVertexIndex st vi vti vni).1
        (face ++ [(GetOrCreateVertexIndex st vi vti vni).2])
      simp only [buildFace, hp, wellFormedTokens, List.filter_cons, Option.isSome_some,
        if_true, List.length_cons, List.length_append, List.length_nil] at this ⊢
      omega

/-- C16 fails as stated: in `f 1x 2 3` the token `1x` has an index field that is not a
number, yet it is not skipped.  The loader reads it as index 1 and emits the triangle
`(0, 1, 2)`, while the same line with that token deleted, `f 2 3`, gives no triangle. -/
theorem non_numeric_token_is_kept_counterexample :
    isFaceLine "f 1x 2 3".toList = true ∧
    hasNonNumericField "1x".toList = true ∧
    deleteNonNumeric "f 1x 2 3".toList = "f 2 3".toList ∧
    (LoadLines (F := Int) ⟨fun r => ⟨r.length, 0, 0⟩, fun _ => ⟨0, 0⟩⟩
      ["f 1x 2 3".toList]).indices = [0, 1, 2] ∧
    (LoadLines (F := Int) ⟨fun r => ⟨r.length, 0, 0⟩, fun _ => ⟨0, 0⟩⟩
      [deleteNonNumeric "f 1x 2 3".toList]).indices = [] := by
  decide

/-- C16 (amended): a face token is skipped individually exactly when `ParseFaceToken`
cannot read it, which its text decides: a token without slash must begin with a number;
in a token with slashes the position field, the texcoord field and the rest after the
second slash must each be empty or begin with a number.  "Begins with a number" is an
optional sign and at least one decimal digit with a value in the range of `int`, so
`1x` and `1.5` are read as 1 and kept.  The rest of the face is still processed: the
token loop yields the same state and face vector as on the readable tokens alone, with
one face slot per readable token; for every face line the returned mesh is the one
returned when the line holds only its readable tokens; and the slot of each readable
token holds the output index of the vertex of its triple. -/
theorem unreadable_face_tokens_are_skipped (rd : FloatReader F) (line : List Char)
    (hline : isFaceLine line = true) :
    (∀ tok : List Char, '/' ∉ tok → (ParseFaceToken tok).isSome = beginsWithInt tok) ∧
    (∀ a b : List Char, '/' ∉ a → '/' ∉ b →
      (ParseFaceToken (a ++ '/' :: b)).isSome = (fieldReadable a && fieldReadable b)) ∧
    (∀ a b c : List Char, '/' ∉ a → '/' ∉ b →
      (ParseFaceToken (a ++ '/' :: (b ++ '/' :: c))).isSome =
        (fieldReadable a && fieldReadable b && fieldReadable c)) ∧
    (∀ (st : LoaderState F) (face : List Nat) (toks : List (List Char)),
      buildFace st face toks = buildFace st face (wellFormedTokens toks) ∧
      (buildFace st face toks).2.length = face.length + (wellFormedTokens toks).length) ∧
    isFaceLine (faceLineOf (wellFormedTokens (faceTokens (extractToken line).2))) = true ∧
    faceTokens (extractToken
        (faceLineOf (wellFormedTokens (faceTokens (extractToken line).2)))).2 =
      wellFormedTokens (faceTokens (extractToken line).2) ∧
    (∀ pre post : List (List Char),
      LoadLines rd (pre ++ line :: post) =
        LoadLines rd
          (pre ++ faceLineOf (wellFormedTokens (faceTokens (extractToken line).2)) :: post)) ∧
    (∀ (pre post : List (List Char)) (toks1 toks2 : List (List Char)) (tok : List Char)
      (vi vti vni : Int),
      faceTokens (extractToken line).2 = toks1 ++ tok :: toks2 →
      ParseFaceToken tok = some (vi, vti, vni) →
      ∃ (i : Nat) (r0 : FaceRef),
        (faceOfLine (processLines rd (LoaderState.init : LoaderState F) pre) line)[
          (wellFormedTokens toks1).length]? = some i ∧
        i < (LoadLines rd (pre ++ line :: post)).vertices.length / kVertexStrideFloats ∧
        firstReference (referencesOf 0 0 0 (pre ++ line :: post))
          ⟨resolveIndex (declaredPositions rd pre).length vi,
            resolveIndex (declaredTexcoords rd pre).length vti,
            resolveIndex (declaredNormals rd pre).length vni⟩ = some r0 ∧
        vertexAt (LoadLines rd (pre ++ line :: post)) i =
          vertexOf ((declaredPositions rd pre).take r0.np)
            ((declaredTexcoords rd pre).take r0.nt) ((declaredNormals rd pre).take r0.nn)
            ⟨resolveIndex (declaredPositions rd pre).length vi,
              resolveIndex (declaredTexcoords rd pre).length vti,
              resolveIndex (declaredNormals rd pre).length vni⟩) := by
  have hall : ∀ tok ∈ wellFormedTokens (faceTokens (extractToken line).2),
      isToken tok = true := by
    intro tok h
    exact streamTokens_isToken _ _ tok (List.mem_of_mem_filter h)
  obtain ⟨hf, htoks⟩ := faceLineOf_tokens _ hall
  have hface : ∀ l : List Char, isFaceLine l = true → ∀ st : LoaderState F,
      processLine rd st l = processFace st (extractToken l).2 := by
    intro l hl st
    simp only [isFaceLine, Bool.and_eq_true, Bool.not_eq_true', Bool.or_eq_false_iff,
      decide_eq_false_iff_not, decide_eq_true_eq] at hl
    obtain ⟨⟨hne, hc⟩, hf⟩ := hl
    have hs : ¬ (l = [] ∨ l.head? = some '#') := fun h => h.elim hne hc
    simp [processLine, hs, hf]
  have hstep : ∀ st : LoaderState F, processLine rd st line =
      processLine rd st (faceLineOf (wellFormedTokens (faceTokens (extractToken line).2))) := by
    intro st
    rw [hface line hline st, hface _ hf st]
    simp only [processFace, htoks, ← buildFace_wellFormed]
  refine ⟨fun tok h => ?_, fun a b ha hb => ?_, fun a b c ha hb => ?_,
    fun st face toks => ⟨buildFace_wellFormed toks st face, buildFace_length toks st face⟩,
    hf, htoks, fun pre post => ?_, fun pre post toks1 toks2 tok vi vti vni ht hp => ?_⟩
  · rw [parse_no_slash tok h, Option.isSome_map', stoi_isSome]
  · rw [parse_one_slash a b ha hb, ← parseField_isSome, ← parseField_isSome]
    cases parseField a <;> cases parseField b <;> rfl
  · rw [parse_two_slash a b c ha hb, ← parseField_isSome, ← parseField_isSome,
      ← parseField_isSome]
    cases parseField a <;> cases parseField b <;> cases parseField c <;> rfl
  · simp only [LoadLines, processLines_append]
    have e : ∀ (st : LoaderState F) (l : List Char),
        processLines rd st (l :: post) = processLines rd (processLine rd st l) post :=
      fun _ _ => rfl
    rw [e, e, hstep]
  · obtain ⟨i, r0, h1, h2, _, _, _, _, h7, _, h9⟩ :=
      token_reference rd pre post line tok toks1 toks2 vi vti vni hline ht hp
    exact ⟨i, r0, h1, h9, h2, h7⟩

/-- Witness for C16: in `f 1x x 2 1/b 3` the tokens `x` and `1/b` are skipped and `1x`
is kept. -/
theorem unreadable_face_tokens_are_skipped_witness :
    faceLineOf (wellFormedTokens (faceTokens (extractToken "f 1x x 2 1/b 3".toList).2)) =
      "f 1x 2 3".toList ∧
    LoadLines (F := Int) ⟨fun r => ⟨r.length, 0, 0⟩, fun _ => ⟨0, 0⟩⟩
        ([] ++ "f 1x x 2 1/b 3".toList :: []) =
      LoadLines (F := Int) ⟨fun r => ⟨r.length, 0, 0⟩, fun _ => ⟨0, 0⟩⟩
        ([] ++ faceLineOf (wellFormedTokens
          (faceTokens (extractToken "f 1x x 2 1/b 3".toList).2)) :: []) :=
  ⟨by decide,
    (unreadable_face_tokens_are_skipped (F := Int) ⟨fun r => ⟨r.length, 0, 0⟩, fun _ => ⟨0, 0⟩⟩
      "f 1x x 2 1/b 3".toList (by decide)).2.2.2.2.2.2.1 [] []⟩

end ReadableTokenClaims

end ObjectLoader
